import Mathlib

/-!
# Asset-drained agent (`src/asset-drained/src/agent.js`)

A shallow embedding of the agent's two handlers.  `handleTransaction` folds the
transfer events of one transaction into the module-level ledger `transfersObj`;
`handleBlock` resolves the ledger against the chain and the two LRU caches and
returns findings.  Module-level variables become the fields of `State`, the
chain and the helpers of `./helper` that are not part of `agent.js` become the
fields of `Env` (or explicit parameters), and a rejected promise becomes
`Except.error`.
-/

namespace AssetDrained

/-! ## JavaScript objects used as dictionaries -/

/-- Reads a run of decimal digits, most significant first. -/
def decimalValue : List Char → Nat → Option Nat
  | [], acc => some acc
  | c :: cs, acc =>
    if '0' ≤ c ∧ c ≤ '9' then decimalValue cs (acc * 10 + (c.toNat - 48)) else none

/-- The array index a property key denotes, if it is a canonical numeric string
below `2^32 - 1`; such keys are enumerated first, in ascending order. -/
def arrayIndex? (k : String) : Option Nat :=
  match k.data with
  | [] => none
  | ['0'] => some 0
  | '0' :: _ => none
  | cs =>
    match decimalValue cs 0 with
    | some n => if n < 4294967295 then some n else none
    | none => none

/-- A plain object `{}` used as a dictionary: its own properties in the order in
which `Object.keys` / `Object.values` enumerate them.  Keys are ledger hashes
and addresses, never names found on `Object.prototype`. -/
abbrev JsObj (V : Type) := List (String × V)

namespace JsObj

variable {V : Type}

/-- Property read `o[k]`; `none` is `undefined`. -/
def get? : JsObj V → String → Option V
  | [], _ => none
  | e :: rest, k => if e.1 = k then some e.2 else get? rest k

/-- Whether a new key `k` is enumerated before the existing key `k'`. -/
def precedes (k k' : String) : Bool :=
  match arrayIndex? k, arrayIndex? k' with
  | some n, some m => decide (n < m)
  | some _, none => true
  | none, _ => false

/-- Adds a property that the object does not have yet. -/
def insertNew (k : String) (v : V) : JsObj V → JsObj V
  | [] => [(k, v)]
  | (k', v') :: rest =>
    if precedes k k' then (k, v) :: (k', v') :: rest else (k', v') :: insertNew k v rest

/-- Updates the value stored under `k` in place. -/
def modify (o : JsObj V) (k : String) (f : V → V) : JsObj V :=
  o.map (fun e => if e.1 = k then (e.1, f e.2) else e)

/-- Property write `o[k] = v`. -/
def set (o : JsObj V) (k : String) (v : V) : JsObj V :=
  match o.get? k with
  | some _ => o.modify k (fun _ => v)
  | none => o.insertNew k v

/-- The list `Object.values(o)`. -/
def values (o : JsObj V) : List V := o.map Prod.snd

/-- The list `Object.keys(o)`. -/
def keys (o : JsObj V) : List String := o.map Prod.fst

end JsObj

/-- The array `[...new Set(xs)]`: first occurrences, in order. -/
def setOf {α : Type} [DecidableEq α] : List α → List α
  | [] => []
  | x :: xs => x :: (setOf xs).filter (fun y => decide (y ≠ x))

/-- Lower-casing `s.toLowerCase()` of an ASCII string such as an address. -/
def toLowerCase (s : String) : String := String.mk (s.data.map Char.toLower)

/-! ## ethers `BigNumber` -/

/-- An ethers `BigNumber`: an arbitrary-precision signed integer. -/
abbrev BigNumber := Int

/-- The constant `ethers.constants.Zero`. -/
def ZERO : BigNumber := 0

/-- The constant `ethers.constants.AddressZero`. -/
def AddressZero : String := "0x0000000000000000000000000000000000000000"

/-- Value of one hexadecimal digit. -/
def hexDigit? (c : Char) : Option Nat :=
  if '0' ≤ c ∧ c ≤ '9' then some (c.toNat - 48)
  else if 'a' ≤ c ∧ c ≤ 'f' then some (c.toNat - 87)
  else if 'A' ≤ c ∧ c ≤ 'F' then some (c.toNat - 55)
  else none

/-- Reads a run of hexadecimal digits, most significant first. -/
def hexValue : List Char → Nat → Option Nat
  | [], acc => some acc
  | c :: cs, acc =>
    match hexDigit? c with
    | some d => hexValue cs (acc * 16 + d)
    | none => none

/-- The magnitude of a numeric string: `0x` followed by at least one hex digit,
or at least one decimal digit. -/
def magnitude? : List Char → Option Nat
  | '0' :: 'x' :: d :: ds => hexValue (d :: ds) 0
  | d :: ds => decimalValue (d :: ds) 0
  | [] => none

/-- The conversion `BigNumber.from(s)` that `sub` and `add` apply to a string
argument; `none` when ethers throws "invalid BigNumber string". -/
def bigNumberFrom (s : String) : Option BigNumber :=
  match s.data with
  | '-' :: rest => (magnitude? rest).map (fun n => -(n : Int))
  | cs => (magnitude? cs).map (fun n => (n : Int))

/-! ## The ledger -/

/-- One provenance entry `{ hash, txFrom }`. -/
structure TxRef where
  hash : String
  txFrom : String
deriving DecidableEq, Repr

/-- A ledger record `{ asset, address, value, blockNumber, txs }`. -/
structure TransferRecord where
  asset : String
  address : String
  value : BigNumber
  blockNumber : Int
  txs : JsObj (List TxRef)
deriving DecidableEq, Repr

/-- The module variable `transfersObj`. -/
abbrev Ledger := JsObj TransferRecord

/-- A decoded log returned by `txEvent.filterLog(ERC20_TRANSFER_EVENT)`:
`address` is the emitting contract, the rest is `event.args`. -/
structure TransferLog where
  address : String
  from_ : String
  to_ : String
  value : BigNumber
deriving DecidableEq, Repr

/-- The `action` of one entry of `txEvent.traces`; an absent field is `none`. -/
structure TraceAction where
  from_ : String
  to_ : String
  value : Option String
  callType : Option String
deriving DecidableEq, Repr

/-- The fields of a transaction event that `handleTransaction` reads. -/
structure TxEvent where
  hash : String
  from_ : String
  blockNumber : Int
  logs : List TransferLog
  traces : List TraceAction
deriving DecidableEq, Repr

/-- Lines 37-45, 46-54, 74-82 and 84-92: the record is created on first touch. -/
def touch (transfersObj : Ledger) (key asset address : String) (blockNumber : Int) : Ledger :=
  match transfersObj.get? key with
  | some _ => transfersObj
  | none =>
    transfersObj.set key
      { asset := asset, address := address, value := ZERO, blockNumber := blockNumber, txs := [] }

/-- Lines 58-62 and 96-100: the provenance entry is appended under the recipient. -/
def pushTx (txs : JsObj (List TxRef)) (to_ : String) (tx : TxRef) : JsObj (List TxRef) :=
  match txs.get? to_ with
  | none => txs.set to_ [tx]
  | some l => txs.set to_ (l ++ [tx])

/-- Lines 56-64 and 94-102: the sender is debited, provenance is recorded and
the recipient is credited. -/
def applyTransfer (transfersObj : Ledger) (hashFrom hashTo to_ : String) (value : BigNumber)
    (tx : TxRef) : Ledger :=
  let l1 := transfersObj.modify hashFrom (fun r => { r with value := r.value - value })
  let l2 := l1.modify hashFrom (fun r => { r with txs := pushTx r.txs to_ tx })
  l2.modify hashTo (fun r => { r with value := r.value + value })

/-- Lines 31-65: the body of the `forEach` over the Transfer logs. -/
def recordLog (hashCode : String → String → String) (hash txFrom : String) (blockNumber : Int)
    (transfersObj : Ledger) (event : TransferLog) : Ledger :=
  let asset := event.address
  let hashFrom := hashCode event.from_ asset
  let hashTo := hashCode event.to_ asset
  let l1 := touch transfersObj hashFrom asset event.from_ blockNumber
  let l2 := touch l1 hashTo asset event.to_ blockNumber
  applyTransfer l2 hashFrom hashTo event.to_ event.value ⟨hash, txFrom⟩

/-- Line 70: `value && value !== "0x0" && callType === "call"`. -/
def traceGuard (trace : TraceAction) : Bool :=
  match trace.value with
  | none => false
  | some value => value != "" && value != "0x0" && trace.callType == some "call"

/-- Lines 67-104: the body of the `forEach` over the traces.  The second
component is `false` when `sub` throws on a value that is not a number; the
records of lines 74-92 exist by then. -/
def recordTrace (hashCode : String → String → String) (hash txFrom : String) (blockNumber : Int)
    (transfersObj : Ledger) (trace : TraceAction) : Ledger × Bool :=
  if traceGuard trace then
    let hashFrom := hashCode trace.from_ "native"
    let hashTo := hashCode trace.to_ "native"
    let l1 := touch transfersObj hashFrom "native" trace.from_ blockNumber
    let l2 := touch l1 hashTo "native" trace.to_ blockNumber
    match bigNumberFrom (trace.value.getD "") with
    | some value => (applyTransfer l2 hashFrom hashTo trace.to_ value ⟨hash, txFrom⟩, true)
    | none => (l2, false)
  else (transfersObj, true)

/-- A `forEach` whose callback may throw: the loop stops at the first throw. -/
def forEachTrace (f : Ledger → TraceAction → Ledger × Bool) :
    Ledger → List TraceAction → Ledger × Bool
  | l, [] => (l, true)
  | l, t :: ts =>
    match f l t with
    | (l', true) => forEachTrace f l' ts
    | (l', false) => (l', false)

/-! ## Module state, caches and the chain -/

/-- An `lru-cache` instance `new LRU({ max })`: the entries, most recently used
first. -/
structure LRU (V : Type) where
  max : Nat
  entries : List (String × V)

namespace LRU

variable {V : Type}

/-- Cached value of `k`, recency left alone. -/
def peek (c : LRU V) (k : String) : Option V := JsObj.get? c.entries k

/-- The read `cache.get(k)`: a hit becomes the most recently used entry. -/
def get (c : LRU V) (k : String) : Option V × LRU V :=
  match c.peek k with
  | some v => (some v, { c with entries := (k, v) :: c.entries.filter (fun e => decide (e.1 ≠ k)) })
  | none => (none, c)

/-- The write `cache.set(k, v)`: `k` becomes the most recently used entry and
the least recently used ones beyond `max` are evicted. -/
def set (c : LRU V) (k : String) (v : V) : LRU V :=
  { c with entries := ((k, v) :: c.entries.filter (fun e => decide (e.1 ≠ k))).take c.max }

/-- The synchronous cache reads of a batch of helper calls, in call order. -/
def readAll (c : LRU V) : List String → List (Option V) × LRU V
  | [] => ([], c)
  | k :: ks =>
    let r := c.get k
    let rest := readAll r.2 ks
    (r.1 :: rest.1, rest.2)

/-- The continuations of a batch of helper calls, in call order: a call that
missed the cache resolves its value and memoizes it. -/
def fillAll (resolve : String → V) (c : LRU V) : List (String × Option V) → List V × LRU V
  | [] => ([], c)
  | (_, some v) :: rest =>
    let r := fillAll resolve c rest
    (v :: r.1, r.2)
  | (k, none) :: rest =>
    let r := fillAll resolve (c.set k (resolve k)) rest
    (resolve k :: r.1, r.2)

/-- A batch of memoized helper calls started together under `Promise.all`:
every call reads the cache before its first `await`, so all reads come before
all writes. -/
def memoAll (resolve : String → V) (c : LRU V) (keys : List String) : List V × LRU V :=
  let r := c.readAll keys
  fillAll resolve r.2 (keys.zip r.1)

end LRU

/-- Modelled from the spec: the module `./address-type`, which is not among the
sources; the classifications are Contract, ExternalAccount and Ignored. -/
inductive AddressType where
  | Contract
  | ExternalAccount
  | Ignored
deriving DecidableEq, Repr

/-- One balance call: `getEthBalance(address)` or `balanceOf(address)` on the
token contract `asset`. -/
inductive BalanceCall where
  | getEthBalance (address : String)
  | balanceOf (asset address : String)
deriving DecidableEq, Repr

/-- The chain as one `handleBlock` call sees it; `none` is a failed call. -/
structure Env where
  /-- Outcome of one call of the multicall batch at a block. -/
  multicall : BalanceCall → Int → Option BigNumber
  /-- The call `getEthersProvider().getBalance(address, block)`. -/
  getBalance : String → Int → Option BigNumber
  /-- The call `contract.balanceOf(address, { blockTag })` on token `asset`. -/
  balanceOf : String → String → Int → Option BigNumber
  /-- Whether the address has bytecode. -/
  hasCode : String → Bool
  /-- The symbol of an asset. -/
  symbol : String → String

/-- All values of a list of optional values, if none is missing. -/
def allSome {α : Type} : List (Option α) → Option (List α)
  | [] => some []
  | none :: _ => none
  | some a :: rest =>
    match allSome rest with
    | some as => some (a :: as)
    | none => none

/-- The call `ethcallProvider.all(calls, block)` of forta-agent-tools:
`[true, results]` when every call of the batch succeeds, `[false, []]`
otherwise. -/
def Env.all (env : Env) (calls : List BalanceCall) (block : Int) : Bool × List BigNumber :=
  match allSome (calls.map (fun c => env.multicall c block)) with
  | some results => (true, results)
  | none => (false, [])

/-- Modelled from the spec: the classification that the bytecode-presence
capability resolves when `getAddressType` misses the cache. -/
def codeType (env : Env) (address : String) : AddressType :=
  if env.hasCode address then AddressType.Contract else AddressType.ExternalAccount

/-- Modelled from the spec: `getAddressType(address, cachedAddresses)` of
`./helper`, which is not among the sources.  A cached classification is
returned; on a miss the classification is resolved from bytecode presence and
memoized. -/
def getAddressType (env : Env) (cachedAddresses : LRU AddressType) (address : String) :
    AddressType × LRU AddressType :=
  match cachedAddresses.get address with
  | (some type, cache) => (type, cache)
  | (none, cache) => (codeType env address, cache.set address (codeType env address))

/-- Modelled from the spec: the calls `getAddressType(event.address,
cachedAddresses)` that lines 136-141 start together, one per address. -/
def getAddressTypes (env : Env) (cachedAddresses : LRU AddressType) (addresses : List String) :
    List AddressType × LRU AddressType :=
  LRU.memoAll (codeType env) cachedAddresses addresses

/-- Modelled from the spec: `getAssetSymbol(asset, cachedAssetSymbols)` of
`./helper`, which is not among the sources: a cached string per asset,
resolved from the chain and memoized on a miss. -/
def getAssetSymbol (env : Env) (cachedAssetSymbols : LRU String) (asset : String) :
    String × LRU String :=
  match cachedAssetSymbols.get asset with
  | (some symbol, cache) => (symbol, cache)
  | (none, cache) => (env.symbol asset, cache.set asset (env.symbol asset))

/-- Modelled from the spec: the calls `getAssetSymbol(event.asset,
cachedAssetSymbols)` that line 145 starts together, one per asset. -/
def getAssetSymbols (env : Env) (cachedAssetSymbols : LRU String) (assets : List String) :
    List String × LRU String :=
  LRU.memoAll env.symbol cachedAssetSymbols assets

/-- The severities of forta-agent. -/
inductive FindingSeverity where
  | Unknown | Info | Low | Medium | High | Critical
deriving DecidableEq, Repr

/-- The finding types of forta-agent. -/
inductive FindingType where
  | Unknown | Exploit | Suspicious | Degraded | Info
deriving DecidableEq, Repr

/-- The `metadata` of a finding. -/
structure Metadata where
  contract : String
  asset : String
  initiators : List String
  txHashes : List String
  blockNumber : Int
deriving DecidableEq, Repr

/-- The object passed to `Finding.fromObject`. -/
structure Finding where
  name : String
  description : String
  alertId : String
  severity : FindingSeverity
  type : FindingType
  metadata : Metadata
  addresses : List String
deriving DecidableEq, Repr

/-- The module-level variables of `agent.js`, `blocksIn10Minutes` as set by
`initialize`. -/
structure State where
  blocksIn10Minutes : Int
  transfersObj : Ledger
  cachedAddresses : LRU AddressType
  cachedAssetSymbols : LRU String

/-- The module state when the agent starts (lines 13-17). -/
def State.init (blocksIn10Minutes : Int) : State :=
  { blocksIn10Minutes := blocksIn10Minutes
    transfersObj := []
    cachedAddresses := ⟨100000, []⟩
    cachedAssetSymbols := ⟨100000, []⟩ }

/-! ## handleTransaction -/

/-- Lines 25-107. -/
def handleTransaction (hashCode : String → String → String) (st : State) (txEvent : TxEvent) :
    State × Except String (List Finding) :=
  let logs :=
    (txEvent.logs.filter (fun event => !(event.value == ZERO))).filter
      (fun event => event.address != toLowerCase event.from_)
  let l1 := logs.foldl (recordLog hashCode txEvent.hash txEvent.from_ txEvent.blockNumber)
    st.transfersObj
  match forEachTrace (recordTrace hashCode txEvent.hash txEvent.from_ txEvent.blockNumber) l1
      txEvent.traces with
  | (l2, true) => ({ st with transfersObj := l2 }, .ok [])
  | (l2, false) => ({ st with transfersObj := l2 }, .error "invalid BigNumber string")

/-! ## handleBlock -/

/-- The fields of a block event that `handleBlock` reads. -/
structure BlockEvent where
  blockNumber : Int

/-- Lines 122-129 (and the query chosen at lines 149-158): the balance call for
a record. -/
def balanceCall (e : TransferRecord) : BalanceCall :=
  if e.asset = "native" then BalanceCall.getEthBalance e.address
  else BalanceCall.balanceOf e.asset e.address

/-- Line 133: `transfers.filter((_, i) => balances[1][i].eq(ZERO))`, from index
`i` on; `none` when `balances[1][i]` is `undefined` and `.eq` throws. -/
def filterDrained (results : List BigNumber) : List TransferRecord → Nat →
    Option (List TransferRecord)
  | [], _ => some []
  | t :: ts, i =>
    match results.get? i with
    | none => none
    | some b =>
      match filterDrained results ts (i + 1) with
      | none => none
      | some rest => some (if b == ZERO then t :: rest else rest)

/-- Lines 146-163: the historical balance of one candidate; a failed token call
is caught and read as zero, a failed native call rejects. -/
def balance10MinsAgo (env : Env) (block10MinsAgo : Int) (event : TransferRecord) :
    Except String BigNumber :=
  if event.asset = "native" then
    match env.getBalance event.address block10MinsAgo with
    | some b => .ok b
    | none => .error "getBalance rejected"
  else
    match env.balanceOf event.asset event.address block10MinsAgo with
    | some output => .ok output
    | none => .ok 0

/-- The outcome of `Promise.all`: all values, or the first rejection. -/
def allOk {α : Type} : List (Except String α) → Except String (List α)
  | [] => .ok []
  | .error e :: _ => .error e
  | .ok a :: rest =>
    match allOk rest with
    | .ok as => .ok (a :: as)
    | .error e => .error e

/-- An element of the array `calls` of line 144. -/
inductive CallResult where
  | symbol (s : String)
  | balance (b : BigNumber)
deriving DecidableEq, Repr

/-- A record of `transfers` with the `symbol` property of line 170; `none` is
`undefined`. -/
structure Candidate where
  record : TransferRecord
  symbol : Option CallResult
deriving DecidableEq, Repr

/-- Lines 169-171: `symbols.forEach((s, i) => { transfers[i].symbol = s })`,
where `symbols` is a slice of at most `transfers.length` elements. -/
def attachSymbols : List TransferRecord → List CallResult → List Candidate
  | [], _ => []
  | t :: ts, [] => ⟨t, none⟩ :: attachSymbols ts []
  | t :: ts, s :: ss => ⟨t, some s⟩ :: attachSymbols ts ss

/-- Lines 173-180, from index `i` on: a candidate whose balance was zero ten
minutes ago is flagged Ignored and dropped.  The first component is `none`
when `balances10MinsAgo[i]` has no `eq` and the callback throws. -/
def dropIgnored (balances10MinsAgo : List CallResult) :
    LRU AddressType → List Candidate → Nat → Option (List Candidate) × LRU AddressType
  | cache, [], _ => (some [], cache)
  | cache, t :: ts, i =>
    match balances10MinsAgo.get? i with
    | some (CallResult.balance b) =>
      if b == ZERO then
        dropIgnored balances10MinsAgo (cache.set t.record.address AddressType.Ignored) ts (i + 1)
      else
        match dropIgnored balances10MinsAgo cache ts (i + 1) with
        | (some rest, cache') => (some (t :: rest), cache')
        | (none, cache') => (none, cache')
    | _ => (none, cache)

/-- How a template literal renders `t.symbol`. -/
def renderSymbol : Option CallResult → String
  | some (CallResult.symbol s) => s
  | some (CallResult.balance b) => toString b
  | none => "undefined"

/-- Lines 183-211: the finding built from a surviving candidate. -/
def mkFinding (t : Candidate) : Finding :=
  { name := "Asset drained"
    description :=
      "All " ++ renderSymbol t.symbol ++ " tokens were drained from " ++ t.record.address
    alertId := "ASSET-DRAINED"
    severity := FindingSeverity.High
    type := FindingType.Exploit
    metadata :=
      { contract := t.record.address
        asset := t.record.asset
        initiators := setOf (t.record.txs.values.flatten.map (fun tx => tx.txFrom))
        txHashes := setOf (t.record.txs.values.flatten.map (fun tx => tx.hash))
        blockNumber := t.record.blockNumber }
    addresses := setOf t.record.txs.keys }

/-- Lines 114-116: the records with more funds withdrawn than deposited, the
zero address excluded. -/
def candidates (transfersObj : Ledger) : List TransferRecord :=
  (transfersObj.values.filter (fun t => decide (t.value < ZERO))).filter
    (fun t => decide (t.address ≠ AddressZero))

/-- What one `handleBlock` call did: the module state it leaves, what it
returned or threw, and the balance queries it issued. -/
structure BlockRun where
  state : State
  result : Except String (List Finding)
  balanceCalls : List BalanceCall
  lookbackCalls : List BalanceCall

/-- Lines 109-218. -/
def handleBlock (env : Env) (st : State) (blockEvent : BlockEvent) : BlockRun :=
  let blockNumber := blockEvent.blockNumber
  let transfers := candidates st.transfersObj
  if transfers.length = 0 then ⟨st, .ok [], [], []⟩
  else
    let balanceCalls := transfers.map balanceCall
    let balances := env.all balanceCalls (blockNumber - 1)
    match filterDrained balances.2 transfers 0 with
    | none => ⟨st, .error "TypeError: balances[1][i] is undefined", balanceCalls, []⟩
    | some drained =>
      let types := getAddressTypes env st.cachedAddresses (drained.map (fun e => e.address))
      let contracts :=
        ((drained.zip types.1).map
          (fun p => if p.2 = AddressType.Contract then some p.1 else none)).filterMap id
      let symbolCalls := getAssetSymbols env st.cachedAssetSymbols
        (contracts.map (fun e => e.asset))
      let block10MinsAgo := blockNumber - st.blocksIn10Minutes
      let lookbackCalls := contracts.map balanceCall
      let st1 : State :=
        { st with cachedAddresses := types.2, cachedAssetSymbols := symbolCalls.2 }
      match allOk (contracts.map (balance10MinsAgo env block10MinsAgo)) with
      | .error e => ⟨st1, .error e, balanceCalls, lookbackCalls⟩
      | .ok olds =>
        let calls := symbolCalls.1.map CallResult.symbol ++ olds.map CallResult.balance
        let symbols := calls.take contracts.length
        let balances10MinsAgo := calls.drop contracts.length
        let candidates := attachSymbols contracts symbols
        match dropIgnored balances10MinsAgo types.2 candidates 0 with
        | (none, cache) =>
          ⟨{ st1 with cachedAddresses := cache }, .error "TypeError: eq is not a function",
            balanceCalls, lookbackCalls⟩
        | (some survivors, cache) =>
          ⟨{ st1 with cachedAddresses := cache, transfersObj := [] },
            .ok (survivors.map mkFinding), balanceCalls, lookbackCalls⟩

/-! ## Vocabulary of the properties -/

/-- One transfer event together with the transaction that carries it. -/
structure Transfer where
  asset : String
  from_ : String
  to_ : String
  value : BigNumber
  tx : TxRef
  blockNumber : Int
deriving DecidableEq, Repr

/-- The ledger update of one recorded transfer: lines 34-64, or 71-102 with
the asset `"native"`. -/
def applyStep (hashCode : String → String → String) (transfersObj : Ledger) (t : Transfer) :
    Ledger :=
  let hashFrom := hashCode t.from_ t.asset
  let hashTo := hashCode t.to_ t.asset
  let l1 := touch transfersObj hashFrom t.asset t.from_ t.blockNumber
  let l2 := touch l1 hashTo t.asset t.to_ t.blockNumber
  applyTransfer l2 hashFrom hashTo t.to_ t.value t.tx

/-- A Transfer log of transaction `txEvent` as a transfer event. -/
def logTransfer (txEvent : TxEvent) (e : TransferLog) : Transfer :=
  { asset := e.address, from_ := e.from_, to_ := e.to_, value := e.value,
    tx := ⟨txEvent.hash, txEvent.from_⟩, blockNumber := txEvent.blockNumber }

/-- A trace of transaction `txEvent` as a transfer event of the native asset,
carrying the number `value`. -/
def traceTransfer (txEvent : TxEvent) (a : TraceAction) (value : BigNumber) : Transfer :=
  { asset := "native", from_ := a.from_, to_ := a.to_, value := value,
    tx := ⟨txEvent.hash, txEvent.from_⟩, blockNumber := txEvent.blockNumber }

/-- A trace that is a `call` and carries a number is a native transfer event. -/
def callTransfer? (txEvent : TxEvent) (a : TraceAction) : Option Transfer :=
  if a.callType = some "call" then
    (a.value.bind bigNumberFrom).map (traceTransfer txEvent a)
  else none

/-- The transfer events of a transaction: its ERC20 Transfer logs and its
value-carrying `call` traces. -/
def TxEvent.transferEvents (txEvent : TxEvent) : List Transfer :=
  txEvent.logs.map (logTransfer txEvent) ++ txEvent.traces.filterMap (callTransfer? txEvent)

/-- The transfer events of a transaction other than the Transfer logs emitted
by the very address they name as sender. -/
def TxEvent.countedEvents (txEvent : TxEvent) : List Transfer :=
  (txEvent.logs.filter (fun e => e.address != toLowerCase e.from_)).map (logTransfer txEvent)
    ++ txEvent.traces.filterMap (callTransfer? txEvent)

/-- The trace that passes the guard of line 70 and carries a number. -/
def recordedTrace? (txEvent : TxEvent) (a : TraceAction) : Option Transfer :=
  if traceGuard a then (bigNumberFrom (a.value.getD "")).map (traceTransfer txEvent a) else none

/-- The events of a transaction that reach the two `forEach` bodies, in the
order in which they are processed. -/
def TxEvent.recorded (txEvent : TxEvent) : List Transfer :=
  ((txEvent.logs.filter (fun event => !(event.value == ZERO))).filter
      (fun event => event.address != toLowerCase event.from_)).map (logTransfer txEvent)
    ++ txEvent.traces.filterMap (recordedTrace? txEvent)

/-- Every trace value that reaches `sub` is a number, so that
`handleTransaction` does not throw. -/
def TxEvent.WellFormed (txEvent : TxEvent) : Prop :=
  ∀ a ∈ txEvent.traces, traceGuard a = true → (bigNumberFrom (a.value.getD "")).isSome = true

instance (txEvent : TxEvent) : Decidable txEvent.WellFormed := by
  unfold TxEvent.WellFormed; infer_instance

/-- The module state after the transactions `txs` have been handled in turn. -/
def handleTransactions (hashCode : String → String → String) (st : State) (txs : List TxEvent) :
    State :=
  txs.foldl (fun s tx => (handleTransaction hashCode s tx).1) st

/-- Sum of the values of the events of `asset` whose recipient is `address`. -/
def inbound (events : List Transfer) (address asset : String) : Int :=
  ((events.filter (fun t => decide (t.asset = asset ∧ t.to_ = address))).map (fun t => t.value)).sum

/-- Sum of the values of the events of `asset` whose sender is `address`. -/
def outbound (events : List Transfer) (address asset : String) : Int :=
  ((events.filter (fun t => decide (t.asset = asset ∧ t.from_ = address))).map
    (fun t => t.value)).sum

/-- The hash `hashCode` gives distinct keys to distinct (address, asset) pairs. -/
def CollisionFree (hashCode : String → String → String) : Prop :=
  ∀ a s a' s', hashCode a s = hashCode a' s' → a = a' ∧ s = s'

/-- A collision-free key: the length of the address in unary, a separator, the
address and the asset. -/
def pairKey (address asset : String) : String :=
  String.mk (List.replicate address.length '#' ++ '|' :: (address.data ++ asset.data))

/-- The record under `k` once lines 37-54 have run: an existing record, or the
one created for the sender or the recipient. -/
def createdAt (hashCode : String → String → String) (k : String) (o : Option TransferRecord)
    (t : Transfer) : Option TransferRecord :=
  match o with
  | some r => some r
  | none =>
    if k = hashCode t.from_ t.asset then
      some { asset := t.asset, address := t.from_, value := ZERO,
             blockNumber := t.blockNumber, txs := [] }
    else if k = hashCode t.to_ t.asset then
      some { asset := t.asset, address := t.to_, value := ZERO,
             blockNumber := t.blockNumber, txs := [] }
    else none

/-- What lines 56-64 do to the record stored under `k`. -/
def updateAt (hashCode : String → String → String) (k : String) (t : Transfer)
    (r : TransferRecord) : TransferRecord :=
  let r1 := if k = hashCode t.from_ t.asset then { r with value := r.value - t.value } else r
  let r2 :=
    if k = hashCode t.from_ t.asset then { r1 with txs := pushTx r1.txs t.to_ t.tx } else r1
  if k = hashCode t.to_ t.asset then { r2 with value := r2.value + t.value } else r2

/-- What one recorded transfer does to the record stored under `k`, if any. -/
def stepAt (hashCode : String → String → String) (k : String) (o : Option TransferRecord)
    (t : Transfer) : Option TransferRecord :=
  (createdAt hashCode k o t).map (updateAt hashCode k t)

/-- The net value stored in an optional record: zero when there is none. -/
def valueOf (o : Option TransferRecord) : Int :=
  match o with
  | some r => r.value
  | none => 0

/-- The record, if any, names the pair (`a`, `s`). -/
def NamesPair (a s : String) (o : Option TransferRecord) : Prop :=
  ∀ r, o = some r → r.address = a ∧ r.asset = s

/-- A transaction with two Transfer logs of token `0xaa` to `0xb`: five units
sent by the token contract itself and three units sent by `0xc`. -/
def selfEmittedTx : TxEvent :=
  { hash := "0xh"
    from_ := "0xs"
    blockNumber := 10
    logs := [⟨"0xaa", "0xAA", "0xb", 5⟩, ⟨"0xaa", "0xc", "0xb", 3⟩]
    traces := [] }

/-- The balance that the batched query of line 132 returns for a record. -/
def currentBalance (env : Env) (blockEvent : BlockEvent) (r : TransferRecord) :
    Option BigNumber :=
  env.multicall (balanceCall r) (blockEvent.blockNumber - 1)

/-- The outcome of the historical-balance query of lines 149-158 for a record. -/
def historicalBalance (env : Env) (block : Int) (r : TransferRecord) : Option BigNumber :=
  if r.asset = "native" then env.getBalance r.address block
  else env.balanceOf r.asset r.address block

/-- The balance that line 175 tests for a record whose query did not reject. -/
def lookbackValue (env : Env) (block : Int) (r : TransferRecord) : BigNumber :=
  match balance10MinsAgo env block r with
  | .ok b => b
  | .error _ => 0

/-- The candidates whose current balance is zero. -/
def drainedOf (env : Env) (st : State) (blockEvent : BlockEvent) : List TransferRecord :=
  (candidates st.transfersObj).filter
    (fun t => decide (currentBalance env blockEvent t = some 0))

/-- The drained candidates that `getAddressType` classifies as Contract. -/
def contractsOf (env : Env) (st : State) (blockEvent : BlockEvent) : List TransferRecord :=
  (drainedOf env st blockEvent).filter
    (fun e => decide ((getAddressType env st.cachedAddresses e.address).1 = AddressType.Contract))

/-- A contract candidate with the symbol `getAssetSymbol` gives for its asset. -/
def withSymbol (env : Env) (st : State) (r : TransferRecord) : Candidate :=
  ⟨r, some (CallResult.symbol (getAssetSymbol env st.cachedAssetSymbols r.asset).1)⟩

/-- The address cache once the listed addresses have been flagged Ignored in
turn. -/
def markIgnored (cache : LRU AddressType) (addresses : List String) : LRU AddressType :=
  addresses.foldl (fun c a => c.set a AddressType.Ignored) cache

/-- The block of the lookback query, line 147. -/
def block10MinsAgo (st : State) (blockEvent : BlockEvent) : Int :=
  blockEvent.blockNumber - st.blocksIn10Minutes

/-- The contract candidates whose balance ten minutes ago was not zero. -/
def survivorsOf (env : Env) (st : State) (blockEvent : BlockEvent) : List TransferRecord :=
  (contractsOf env st blockEvent).filter
    (fun r => !(lookbackValue env (block10MinsAgo st blockEvent) r == ZERO))

/-- The contract candidates whose balance ten minutes ago was zero. -/
def ignoredOf (env : Env) (st : State) (blockEvent : BlockEvent) : List TransferRecord :=
  (contractsOf env st blockEvent).filter
    (fun r => lookbackValue env (block10MinsAgo st blockEvent) r == ZERO)

/-- The module state after the two batches of helper calls of a resolution. -/
def afterHelpers (env : Env) (st : State) (blockEvent : BlockEvent) : State :=
  { st with
    cachedAddresses :=
      (getAddressTypes env st.cachedAddresses
        ((drainedOf env st blockEvent).map (fun e => e.address))).2
    cachedAssetSymbols :=
      (getAssetSymbols env st.cachedAssetSymbols
        ((contractsOf env st blockEvent).map (fun e => e.asset))).2 }

/-- A mint: five units of token `0xaa` move from the zero address to `0xb`. -/
def mintTx : TxEvent :=
  { hash := "0xh"
    from_ := "0xs"
    blockNumber := 10
    logs := [⟨"0xaa", AddressZero, "0xb", 5⟩]
    traces := [] }

/-- A drain: the whole balance of 100 units of token `0xaa` moves from the
contract `0xC` to `0xX`. -/
def drainTx : TxEvent :=
  { hash := "0xh"
    from_ := "0xs"
    blockNumber := 10
    logs := [⟨"0xaa", "0xC", "0xX", 100⟩]
    traces := [] }

/-- A chain on which every current balance is zero, every address has code and
every balance ten minutes ago was 100. -/
def drainedEnv : Env :=
  { multicall := fun _ _ => some 0
    getBalance := fun _ _ => some 100
    balanceOf := fun _ _ _ => some 100
    hasCode := fun _ => true
    symbol := fun _ => "TKN" }

/-- The record-level test that the claim on findings states: net outflow, not
the zero address, drained at the previous block, classified Contract, and not
empty at the lookback block. -/
def isDrainedContract (env : Env) (st : State) (blockEvent : BlockEvent)
    (r : TransferRecord) : Prop :=
  r.value < 0 ∧ r.address ≠ AddressZero ∧ currentBalance env blockEvent r = some 0 ∧
    (getAddressType env st.cachedAddresses r.address).1 = AddressType.Contract ∧
    historicalBalance env (block10MinsAgo st blockEvent) r ≠ some 0

instance (env : Env) (st : State) (blockEvent : BlockEvent) (r : TransferRecord) :
    Decidable (isDrainedContract env st blockEvent r) := by
  unfold isDrainedContract; infer_instance

/-- The finding is about the record: it names its address and its asset. -/
def Finding.isFor (f : Finding) (r : TransferRecord) : Prop :=
  f.metadata.contract = r.address ∧ f.metadata.asset = r.asset

instance (f : Finding) (r : TransferRecord) : Decidable (f.isFor r) := by
  unfold Finding.isFor; infer_instance

/-- Two drains of token `0xaa` in one transaction: 100 units leave `0xC` and 50
units leave `0xD`. -/
def twoDrainsTx : TxEvent :=
  { hash := "0xh"
    from_ := "0xs"
    blockNumber := 10
    logs := [⟨"0xaa", "0xC", "0xX", 100⟩, ⟨"0xaa", "0xD", "0xX", 50⟩]
    traces := [] }

/-- The chain of `drainedEnv`, except that `0xD` still holds 7 units. -/
def partlyDrainedEnv : Env :=
  { drainedEnv with
    multicall := fun c _ => if c = BalanceCall.balanceOf "0xaa" "0xD" then some 7 else some 0 }

/-- The chain of `drainedEnv`, except that `0xD` has no bytecode. -/
def eoaEnv : Env :=
  { drainedEnv with hasCode := fun a => a != "0xD" }

/-- A drain of the native asset: an internal call moves 100 wei from the
contract `0xc` to `0xd`. -/
def nativeDrainTx : TxEvent :=
  { hash := "0xh"
    from_ := "0xs"
    blockNumber := 10
    logs := []
    traces := [⟨"0xc", "0xd", some "0x64", some "call"⟩] }

/-- The chain of `drainedEnv` with every historical-balance query failing. -/
def lookbackFailsEnv : Env :=
  { drainedEnv with
    getBalance := fun _ _ => none
    balanceOf := fun _ _ _ => none }

/-- The chain of `drainedEnv` with the batched current-balance query failing. -/
def batchFailsEnv : Env :=
  { drainedEnv with multicall := fun _ _ => none }

/-- A transaction whose only event is an internal call carrying the value
`0x00`, a hex string that denotes zero. -/
def zeroHexTx : TxEvent :=
  { hash := "0xh"
    from_ := "0xs"
    blockNumber := 10
    logs := []
    traces := [⟨"0xc", "0xd", some "0x00", some "call"⟩] }

/-- A transaction whose events all carry value zero: a Transfer log of value 0
and an internal call of value `0x0`. -/
def zeroTx : TxEvent :=
  { hash := "0xh2"
    from_ := "0xs"
    blockNumber := 10
    logs := [⟨"0xaa", "0xC", "0xX", 0⟩]
    traces := [⟨"0xc", "0xd", some "0x0", some "call"⟩] }

/-- The body of a transfer event of the transaction feed. -/
inductive EventBody where
  | log (e : TransferLog)
  | trace (a : TraceAction)
deriving DecidableEq, Repr

/-- One transfer event as the feed delivers it: the hash, the sender and the
block of the transaction that carries it, and the log or trace itself. -/
structure FeedEvent where
  hash : String
  txFrom : String
  blockNumber : Int
  body : EventBody
deriving DecidableEq, Repr

/-- The events of a transaction in the order in which `handleTransaction`
visits them: the Transfer logs, then the traces. -/
def TxEvent.events (txEvent : TxEvent) : List FeedEvent :=
  txEvent.logs.map (fun e => ⟨txEvent.hash, txEvent.from_, txEvent.blockNumber, EventBody.log e⟩)
    ++ txEvent.traces.map
      (fun a => ⟨txEvent.hash, txEvent.from_, txEvent.blockNumber, EventBody.trace a⟩)

/-- The transfer that an event makes the ledger record, if it passes the
filters of lines 29-30 or the guard of line 70. -/
def FeedEvent.recorded? (ev : FeedEvent) : Option Transfer :=
  match ev.body with
  | EventBody.log e =>
    if (!(e.value == ZERO)) && (e.address != toLowerCase e.from_) then
      some ⟨e.address, e.from_, e.to_, e.value, ⟨ev.hash, ev.txFrom⟩, ev.blockNumber⟩
    else none
  | EventBody.trace a =>
    if traceGuard a then
      (bigNumberFrom (a.value.getD "")).map
        (fun v => ⟨"native", a.from_, a.to_, v, ⟨ev.hash, ev.txFrom⟩, ev.blockNumber⟩)
    else none

/-- The value of a trace event that reaches `sub` is a number. -/
def FeedEvent.WellFormed (ev : FeedEvent) : Prop :=
  match ev.body with
  | EventBody.log _ => True
  | EventBody.trace a => traceGuard a = true → (bigNumberFrom (a.value.getD "")).isSome = true

/-- Two records agree on asset, address, net value and block number, and their
provenance maps have the same counterparties, each with the same
(hash, txFrom) pairs up to order. -/
def SameRecord (r1 r2 : TransferRecord) : Prop :=
  r1.asset = r2.asset ∧ r1.address = r2.address ∧ r1.value = r2.value ∧
    r1.blockNumber = r2.blockNumber ∧
    ∀ c, Option.Rel List.Perm (r1.txs.get? c) (r2.txs.get? c)

/-- Two ledgers hold records under the same keys, and the records under each
key agree in the sense of `SameRecord`. -/
def SameLedger (l1 l2 : Ledger) : Prop :=
  ∀ k, Option.Rel SameRecord (l1.get? k) (l2.get? k)

/-- The provenance map of an optional record: empty when there is none. -/
def txsOf (o : Option TransferRecord) : JsObj (List TxRef) :=
  match o with
  | some r => r.txs
  | none => []

/-- The provenance entries that the transfers `ts` add under counterparty `c`
to the record stored under `k`. -/
def provFor (hashCode : String → String → String) (k c : String) (ts : List Transfer) :
    List TxRef :=
  (ts.filter (fun t => decide (k = hashCode t.from_ t.asset ∧ t.to_ = c))).map (fun t => t.tx)

/-- A provenance list extended by further entries. -/
def extend (x : Option (List TxRef)) (l : List TxRef) : Option (List TxRef) :=
  if l = [] then x else some (x.getD [] ++ l)

/-- The transfer reads or creates the record stored under `k`. -/
def touches (hashCode : String → String → String) (k : String) (t : Transfer) : Bool :=
  decide (k = hashCode t.from_ t.asset) || decide (k = hashCode t.to_ t.asset)

/-- The record, if any, carries block number `bn`. -/
def HasBlock (bn : Int) (o : Option TransferRecord) : Prop :=
  ∀ r, o = some r → r.blockNumber = bn

/-- One unit of token `0xaa` moves from `0xC` to `0xX` in transaction `0xh1`. -/
def firstTx : TxEvent :=
  { hash := "0xh1"
    from_ := "0xs1"
    blockNumber := 10
    logs := [⟨"0xaa", "0xC", "0xX", 1⟩]
    traces := [] }

/-- Two units of token `0xaa` move from `0xC` to `0xX` in transaction `0xh2`. -/
def secondTx : TxEvent :=
  { hash := "0xh2"
    from_ := "0xs2"
    blockNumber := 10
    logs := [⟨"0xaa", "0xC", "0xX", 2⟩]
    traces := [] }

/-- Three units of token `0xaa` move from `0xE` to `0xF` in transaction `0xh3`. -/
def thirdTx : TxEvent :=
  { hash := "0xh3"
    from_ := "0xs3"
    blockNumber := 10
    logs := [⟨"0xaa", "0xE", "0xF", 3⟩]
    traces := [] }

/-- The cache holds `v` for `k`, at most `n` entries being more recently
used. -/
def LRU.Within {V : Type} (c : LRU V) (k : String) (v : V) (n : Nat) : Prop :=
  ∃ pre post, c.entries = pre ++ (k, v) :: post ∧ (∀ e ∈ pre, e.1 ≠ k) ∧ pre.length ≤ n

/-- One unit of token `0xaa` leaves the router contract `0xR`. -/
def routerTx : TxEvent :=
  { hash := "0xh"
    from_ := "0xs"
    blockNumber := 10
    logs := [⟨"0xaa", "0xR", "0xY", 1⟩]
    traces := [] }

/-- The record that `routerTx` leaves for (`0xR`, `0xaa`). -/
def routerRecord : TransferRecord :=
  ⟨"0xaa", "0xR", -1, 10, [("0xY", [⟨"0xh", "0xs"⟩])]⟩

/-- A chain on which every balance is zero, now and ten minutes ago, and every
address has code. -/
def alwaysEmptyEnv : Env :=
  { multicall := fun _ _ => some 0
    getBalance := fun _ _ => some 0
    balanceOf := fun _ _ _ => some 0
    hasCode := fun _ => true
    symbol := fun _ => "TKN" }

/-- The `i`-th filler sender: the letter `a` followed by `i` letters `b`. -/
def fillerSender (i : Nat) : String := String.mk ('a' :: List.replicate i 'b')

/-- The `i`-th filler recipient: the letter `c` followed by `i` letters `d`. -/
def fillerRecipient (i : Nat) : String := String.mk ('c' :: List.replicate i 'd')

/-- A transaction with `n` Transfer logs of token `0xaa`, the `i`-th moving one
unit from the `i`-th filler sender to the `i`-th filler recipient. -/
def fillerTx (n : Nat) : TxEvent :=
  { hash := "0xf"
    from_ := "0xs"
    blockNumber := 11
    logs := (List.range n).map (fun i => ⟨"0xaa", fillerSender i, fillerRecipient i, 1⟩)
    traces := [] }

/-- The transfer that the `i`-th log of a filler transaction records. -/
def fillerStep (i : Nat) : Transfer :=
  ⟨"0xaa", fillerSender i, fillerRecipient i, 1, ⟨"0xf", "0xs"⟩, 11⟩

/-- The record of the `i`-th filler sender after a filler transaction. -/
def fillerSenderRecord (i : Nat) : TransferRecord :=
  ⟨"0xaa", fillerSender i, ZERO - 1, 11, [(fillerRecipient i, [⟨"0xf", "0xs"⟩])]⟩

/-- The two ledger entries that the `i`-th log of a filler transaction adds. -/
def fillerEntries (i : Nat) : List (String × TransferRecord) :=
  [(pairKey (fillerSender i) "0xaa", fillerSenderRecord i),
   (pairKey (fillerRecipient i) "0xaa", ⟨"0xaa", fillerRecipient i, ZERO + 1, 11, []⟩)]

/-- The ledger that a filler transaction with `n` logs builds from the empty
ledger. -/
def fillerLedger (n : Nat) : Ledger := (List.range n).flatMap fillerEntries

/-- The chain of `drainedEnv`, except that no address has bytecode. -/
def noCodeEnv : Env :=
  { drainedEnv with hasCode := fun _ => false }

/-- The module state after the first block of the eviction run: `routerTx` was
handled and resolved on a chain where `0xR` is and was empty. -/
def afterFirstBlock : State :=
  (handleBlock alwaysEmptyEnv (handleTransaction pairKey (State.init 50) routerTx).1 ⟨11⟩).state

/-- The record that the drain of `drainTx` leaves for (`0xC`, `0xaa`). -/
def drainRecord : TransferRecord :=
  ⟨"0xaa", "0xC", -100, 10, [("0xX", [⟨"0xh", "0xs"⟩])]⟩

/-- The record that the mint of `mintTx` leaves for the zero address. -/
def mintRecord : TransferRecord :=
  ⟨"0xaa", AddressZero, -5, 10, [("0xb", [⟨"0xh", "0xs"⟩])]⟩

/-- The address whose balance a query asks for. -/
def BalanceCall.address : BalanceCall → String
  | BalanceCall.getEthBalance a => a
  | BalanceCall.balanceOf _ a => a

/-- The transaction of the drain scenario: hash `h`, sender `s`, block `N`, a
single Transfer log of 100 units of token `T` from `C` to `X`. -/
def scenarioTx (h s : String) (N : Int) (T C X : String) : TxEvent :=
  { hash := h
    from_ := s
    blockNumber := N
    logs := [⟨T, C, X, 100⟩]
    traces := [] }

/-- The record that the drain scenario leaves for its sender `C`. -/
def scenarioRecord (h s : String) (N : Int) (T C X : String) : TransferRecord :=
  ⟨T, C, -100, N, [(X, [⟨h, s⟩])]⟩

/-- The sum of the net values of the ledger records of one asset. -/
def assetSum (transfersObj : Ledger) (asset : String) : BigNumber :=
  ((transfersObj.values.filter (fun r => decide (r.asset = asset))).map (fun r => r.value)).sum

/-- The ledger holds each key once, and each record under the key of its own
address and asset. -/
def Keyed (hashCode : String → String → String) (transfersObj : Ledger) : Prop :=
  transfersObj.keys.Nodup ∧ ∀ e ∈ transfersObj, e.1 = hashCode e.2.address e.2.asset

/-- The ledger is keyed by address and asset and, asset by asset, its net
values add up to zero. -/
def Balanced (hashCode : String → String → String) (transfersObj : Ledger) : Prop :=
  Keyed hashCode transfersObj ∧ ∀ asset, assetSum transfersObj asset = 0

/-- The transfer values of a transaction are non-negative: those of its Transfer
logs, and those of its traces that are numbers. -/
def TxEvent.NonNegative (txEvent : TxEvent) : Prop :=
  (∀ e ∈ txEvent.logs, 0 ≤ e.value) ∧
    ∀ a ∈ txEvent.traces, ∀ v, bigNumberFrom (a.value.getD "") = some v → 0 ≤ v

/-- A record with negative net value names at least one counterparty, and no
provenance list of the record is empty. -/
def HasProvenance (r : TransferRecord) : Prop :=
  (r.value < 0 → r.txs ≠ []) ∧ ∀ l ∈ r.txs.values, l ≠ []

/-- Two spellings of one address: hexadecimal addresses that differ at most in
the case of their letters.  `event.args.from` is decoded by ethers in the
checksummed, mixed-case spelling (line 30 lower-cases it to compare it with
`event.address`), `trace.action.from` comes in lower case. -/
def SameAddress (a b : String) : Prop := toLowerCase a = toLowerCase b

instance (a b : String) : Decidable (SameAddress a b) := by
  unfold SameAddress; infer_instance

/-- A native transfer out of the router, which the trace names in lower case:
a `call` moving 100 wei from `0xr` to `0xY`. -/
def routerNativeTx : TxEvent :=
  { hash := "0xn"
    from_ := "0xs"
    blockNumber := 11
    logs := []
    traces := [⟨"0xr", "0xY", some "0x64", some "call"⟩] }

/-- The record that `routerNativeTx` leaves for (`0xr`, `native`). -/
def routerNativeRecord : TransferRecord :=
  ⟨"native", "0xr", -100, 11, [("0xY", [⟨"0xn", "0xs"⟩])]⟩

/-! ## Properties -/

/-! ### Dictionary lemmas -/

namespace JsObj

variable {V : Type}

theorem get?_modify (o : JsObj V) (k k' : String) (f : V → V) :
    (o.modify k f).get? k' = if k' = k then (o.get? k').map f else o.get? k' := by
  induction o with
  | nil => simp [modify, get?]
  | cons e rest ih =>
    simp only [modify, List.map_cons, get?] at ih ⊢
    by_cases h1 : e.1 = k <;> by_cases h2 : e.1 = k' <;> by_cases h3 : k' = k <;>
      simp_all [get?]

theorem get?_insertNew (o : JsObj V) (k k' : String) (v : V) (h : o.get? k = none) :
    (o.insertNew k v).get? k' = if k' = k then some v else o.get? k' := by
  induction o with
  | nil =>
    by_cases h3 : k' = k
    · simp [insertNew, get?, h3]
    · have h4 : ¬ k = k' := fun e => h3 e.symm
      simp [insertNew, get?, h3, h4]
  | cons e rest ih =>
    simp only [get?] at h
    by_cases h1 : e.1 = k
    · simp [h1] at h
    · simp only [h1, if_false] at h
      simp only [insertNew]
      by_cases hp : precedes k e.1 = true
      · by_cases h3 : k' = k
        · simp [hp, get?, h3]
        · have h4 : ¬ k = k' := fun e => h3 e.symm
          simp [hp, get?, h3, h4]
      · simp only [hp, get?, ih h]
        by_cases h2 : e.1 = k' <;> by_cases h3 : k' = k <;> simp_all

theorem get?_set (o : JsObj V) (k k' : String) (v : V) :
    (o.set k v).get? k' = if k' = k then some v else o.get? k' := by
  unfold set
  cases h : o.get? k with
  | none => simpa using get?_insertNew o k k' v h
  | some w =>
    simp only [get?_modify]
    by_cases h3 : k' = k <;> simp [h3, h]

end JsObj

theorem get?_touch (l : Ledger) (key asset address : String) (bn : Int) (k : String) :
    (touch l key asset address bn).get? k =
      match l.get? k with
      | some r => some r
      | none =>
        if k = key then
          some { asset := asset, address := address, value := ZERO, blockNumber := bn, txs := [] }
        else none := by
  unfold touch
  cases h : JsObj.get? l key with
  | some r =>
    cases h' : JsObj.get? l k with
    | some r' => simp
    | none =>
      by_cases hk : k = key
      · subst hk; simp [h] at h'
      · simp [hk]
  | none =>
    simp only [JsObj.get?_set]
    by_cases hk : k = key
    · subst hk; simp [h]
    · cases h' : JsObj.get? l k <;> simp [hk]

theorem get?_applyStep (hashCode : String → String → String) (l : Ledger) (t : Transfer)
    (k : String) :
    (applyStep hashCode l t).get? k = stepAt hashCode k (l.get? k) t := by
  simp only [applyStep, applyTransfer, JsObj.get?_modify, get?_touch, stepAt, createdAt,
    updateAt]
  cases h : JsObj.get? l k <;> dsimp only <;> split_ifs <;> simp_all [updateAt]

theorem get?_foldl_applyStep (hashCode : String → String → String) (ts : List Transfer)
    (l : Ledger) (k : String) :
    (ts.foldl (applyStep hashCode) l).get? k = ts.foldl (stepAt hashCode k) (l.get? k) := by
  induction ts generalizing l with
  | nil => rfl
  | cons t ts ih => simp only [List.foldl_cons, ih, get?_applyStep]

/-! ### handleTransaction as a fold over the recorded transfers -/

theorem recordLog_eq (hashCode : String → String → String) (txEvent : TxEvent) (l : Ledger)
    (e : TransferLog) :
    recordLog hashCode txEvent.hash txEvent.from_ txEvent.blockNumber l e =
      applyStep hashCode l (logTransfer txEvent e) := rfl

theorem foldl_recordLog (hashCode : String → String → String) (txEvent : TxEvent)
    (es : List TransferLog) (l : Ledger) :
    es.foldl (recordLog hashCode txEvent.hash txEvent.from_ txEvent.blockNumber) l =
      (es.map (logTransfer txEvent)).foldl (applyStep hashCode) l := by
  induction es generalizing l with
  | nil => rfl
  | cons e es ih => simp only [List.foldl_cons, List.map_cons, ih, recordLog_eq]

theorem forEachTrace_recordTrace (hashCode : String → String → String) (txEvent : TxEvent)
    (as : List TraceAction) (l : Ledger)
    (hwf : ∀ a ∈ as, traceGuard a = true → (bigNumberFrom (a.value.getD "")).isSome = true) :
    forEachTrace (recordTrace hashCode txEvent.hash txEvent.from_ txEvent.blockNumber) l as =
      ((as.filterMap (recordedTrace? txEvent)).foldl (applyStep hashCode) l, true) := by
  induction as generalizing l with
  | nil => rfl
  | cons a as ih =>
    have hrest : ∀ b ∈ as, traceGuard b = true →
        (bigNumberFrom (b.value.getD "")).isSome = true :=
      fun b hb => hwf b (List.mem_cons_of_mem a hb)
    by_cases hg : traceGuard a = true
    · have hsome := hwf a (List.mem_cons_self a as) hg
      obtain ⟨v, hv⟩ := Option.isSome_iff_exists.mp hsome
      simp only [forEachTrace, recordTrace, hg, if_true, hv, recordedTrace?, List.filterMap_cons,
        Option.map_some', List.foldl_cons]
      rw [ih _ hrest]
      rfl
    · simp only [forEachTrace, recordTrace, hg, recordedTrace?, List.filterMap_cons]
      simpa using ih l hrest

theorem handleTransaction_eq (hashCode : String → String → String) (st : State)
    (txEvent : TxEvent) (hwf : txEvent.WellFormed) :
    handleTransaction hashCode st txEvent =
      ({ st with transfersObj := txEvent.recorded.foldl (applyStep hashCode) st.transfersObj },
        .ok []) := by
  simp only [handleTransaction, foldl_recordLog, forEachTrace_recordTrace _ _ _ _ hwf,
    TxEvent.recorded, List.foldl_append]

theorem handleTransactions_transfersObj (hashCode : String → String → String)
    (txs : List TxEvent) (st : State) (hwf : ∀ tx ∈ txs, tx.WellFormed) :
    (handleTransactions hashCode st txs).transfersObj =
      (txs.flatMap TxEvent.recorded).foldl (applyStep hashCode) st.transfersObj := by
  induction txs generalizing st with
  | nil => rfl
  | cons tx txs ih =>
    have h1 := handleTransaction_eq hashCode st tx (hwf tx (List.mem_cons_self tx txs))
    have h2 := ih (handleTransaction hashCode st tx).1
      (fun t ht => hwf t (List.mem_cons_of_mem tx ht))
    simp only [handleTransactions, List.foldl_cons] at h2 ⊢
    rw [h2, h1, List.flatMap_cons, List.foldl_append]

/-! ### Net value of a record -/

theorem pairKey_collisionFree : CollisionFree pairKey := by
  have key : ∀ (n m : Nat) (r r' : List Char),
      List.replicate n '#' ++ '|' :: r = List.replicate m '#' ++ '|' :: r' → n = m ∧ r = r' := by
    intro n
    induction n with
    | zero =>
      intro m r r' h
      cases m with
      | zero => simpa using h
      | succ m =>
        simp only [List.replicate_zero, List.nil_append, List.replicate_succ, List.cons_append,
          List.cons.injEq] at h
        exact absurd h.1 (by decide)
    | succ n ih =>
      intro m r r' h
      cases m with
      | zero =>
        simp only [List.replicate_zero, List.nil_append, List.replicate_succ, List.cons_append,
          List.cons.injEq] at h
        exact absurd h.1 (by decide)
      | succ m =>
        simp only [List.replicate_succ, List.cons_append, List.cons.injEq, true_and] at h
        obtain ⟨h1, h2⟩ := ih m r r' h
        exact ⟨by omega, h2⟩
  intro a s a' s' h
  obtain ⟨hlen, hrest⟩ := key _ _ _ _ (congrArg String.data h)
  obtain ⟨h1, h2⟩ := List.append_inj hrest hlen
  exact ⟨String.ext h1, String.ext h2⟩

theorem inbound_cons (t : Transfer) (ts : List Transfer) (a s : String) :
    inbound (t :: ts) a s = (if t.asset = s ∧ t.to_ = a then t.value else 0) + inbound ts a s := by
  unfold inbound
  by_cases h : t.asset = s ∧ t.to_ = a <;> simp [List.filter_cons, h]

theorem outbound_cons (t : Transfer) (ts : List Transfer) (a s : String) :
    outbound (t :: ts) a s =
      (if t.asset = s ∧ t.from_ = a then t.value else 0) + outbound ts a s := by
  unfold outbound
  by_cases h : t.asset = s ∧ t.from_ = a <;> simp [List.filter_cons, h]

theorem stepAt_value (hashCode : String → String → String) (hcf : CollisionFree hashCode)
    (a s : String) (o : Option TransferRecord) (t : Transfer) :
    valueOf (stepAt hashCode (hashCode a s) o t) =
      valueOf o + (if t.asset = s ∧ t.to_ = a then t.value else 0)
        - (if t.asset = s ∧ t.from_ = a then t.value else 0) := by
  have hF : hashCode a s = hashCode t.from_ t.asset ↔ (t.asset = s ∧ t.from_ = a) :=
    ⟨fun e => ⟨(hcf _ _ _ _ e).2.symm, (hcf _ _ _ _ e).1.symm⟩, fun e => by rw [e.1, e.2]⟩
  have hT : hashCode a s = hashCode t.to_ t.asset ↔ (t.asset = s ∧ t.to_ = a) :=
    ⟨fun e => ⟨(hcf _ _ _ _ e).2.symm, (hcf _ _ _ _ e).1.symm⟩, fun e => by rw [e.1, e.2]⟩
  rw [if_congr hT.symm rfl rfl, if_congr hF.symm rfl rfl]
  unfold stepAt createdAt updateAt
  cases o <;> dsimp only [valueOf] <;> split_ifs <;> simp [valueOf, ZERO]

theorem stepAt_fold_value (hashCode : String → String → String) (hcf : CollisionFree hashCode)
    (a s : String) (ts : List Transfer) (o : Option TransferRecord) :
    valueOf (ts.foldl (stepAt hashCode (hashCode a s)) o) =
      valueOf o + (inbound ts a s - outbound ts a s) := by
  induction ts generalizing o with
  | nil => simp [inbound, outbound]
  | cons t ts ih =>
    rw [List.foldl_cons, ih, stepAt_value hashCode hcf, inbound_cons, outbound_cons]
    ring

/-- The sum of the values of the events selected by `p`. -/
theorem selected_sum_recorded (txEvent : TxEvent) (p : Transfer → Bool) :
    (((txEvent.recorded.filter p).map (fun t => t.value)).sum : Int) =
      ((txEvent.countedEvents.filter p).map (fun t => t.value)).sum := by
  have hlogs : ∀ es : List TransferLog,
      ((((((es.filter (fun event => !(event.value == ZERO))).filter
          (fun event => event.address != toLowerCase event.from_)).map
            (logTransfer txEvent)).filter p).map (fun t => t.value)).sum : Int) =
        ((((es.filter (fun e => e.address != toLowerCase e.from_)).map
            (logTransfer txEvent)).filter p).map (fun t => t.value)).sum := by
    intro es
    induction es with
    | nil => rfl
    | cons e es ih =>
      by_cases hz : e.value = 0
      · by_cases hs : (e.address != toLowerCase e.from_) = true
        · by_cases hp : p (logTransfer txEvent e) = true
          · have hv : (logTransfer txEvent e).value = 0 := hz
            simpa [List.filter_cons, hz, hs, hp, ZERO, hv] using ih
          · simpa [List.filter_cons, hz, hs, hp, ZERO] using ih
        · simpa [List.filter_cons, hz, hs, ZERO] using ih
      · by_cases hs : (e.address != toLowerCase e.from_) = true
        · by_cases hp : p (logTransfer txEvent e) = true
          · simpa [List.filter_cons, hz, hs, hp, ZERO] using ih
          · simpa [List.filter_cons, hz, hs, hp, ZERO] using ih
        · simpa [List.filter_cons, hz, hs, ZERO] using ih
  have htraces : ∀ as : List TraceAction,
      (((((as.filterMap (recordedTrace? txEvent)).filter p).map (fun t => t.value)).sum : Int)) =
        (((as.filterMap (callTransfer? txEvent)).filter p).map (fun t => t.value)).sum := by
    intro as
    induction as with
    | nil => rfl
    | cons a as ih =>
      have hcase : recordedTrace? txEvent a = callTransfer? txEvent a ∨
          (recordedTrace? txEvent a = none ∧
            ∃ t, callTransfer? txEvent a = some t ∧ t.value = 0) := by
        unfold recordedTrace? callTransfer? traceGuard
        cases hv : a.value with
        | none => left; simp
        | some v =>
          by_cases hc : a.callType = some "call"
          · by_cases h0 : v = "0x0"
            · right
              subst h0
              refine ⟨by simp, traceTransfer txEvent a 0, ?_, rfl⟩
              have : bigNumberFrom "0x0" = some 0 := by decide
              simp [hc, this]
            · by_cases he : v = ""
              · left
                subst he
                have : bigNumberFrom "" = none := by decide
                simp [hc, this]
              · left; simp [hc, h0, he]
          · left; simp [hc]
      rcases hcase with h | ⟨h1, t, h2, h3⟩
      · simp only [List.filterMap_cons, h]
        cases hct : callTransfer? txEvent a with
        | none => simpa using ih
        | some t =>
          by_cases hp : p t = true <;> simp [List.filter_cons, hp, ih]
      · simp only [List.filterMap_cons, h1, h2]
        by_cases hp : p t = true <;> simp [List.filter_cons, hp, ih, h3]
  simp only [TxEvent.recorded, TxEvent.countedEvents, List.filter_append, List.map_append,
    List.sum_append, hlogs, htraces]

theorem selected_sum_flatMap (txs : List TxEvent) (p : Transfer → Bool) :
    ((((txs.flatMap TxEvent.recorded).filter p).map (fun t => t.value)).sum : Int) =
      (((txs.flatMap TxEvent.countedEvents).filter p).map (fun t => t.value)).sum := by
  induction txs with
  | nil => rfl
  | cons tx txs ih =>
    simp only [List.flatMap_cons, List.filter_append, List.map_append, List.sum_append, ih,
      selected_sum_recorded]

theorem inbound_recorded (txs : List TxEvent) (a s : String) :
    inbound (txs.flatMap TxEvent.recorded) a s = inbound (txs.flatMap TxEvent.countedEvents) a s :=
  selected_sum_flatMap txs _

theorem outbound_recorded (txs : List TxEvent) (a s : String) :
    outbound (txs.flatMap TxEvent.recorded) a s =
      outbound (txs.flatMap TxEvent.countedEvents) a s :=
  selected_sum_flatMap txs _

theorem updateAt_address (hashCode : String → String → String) (k : String) (t : Transfer)
    (r : TransferRecord) : (updateAt hashCode k t r).address = r.address := by
  unfold updateAt; split_ifs <;> rfl

theorem updateAt_asset (hashCode : String → String → String) (k : String) (t : Transfer)
    (r : TransferRecord) : (updateAt hashCode k t r).asset = r.asset := by
  unfold updateAt; split_ifs <;> rfl

theorem updateAt_blockNumber (hashCode : String → String → String) (k : String) (t : Transfer)
    (r : TransferRecord) : (updateAt hashCode k t r).blockNumber = r.blockNumber := by
  unfold updateAt; split_ifs <;> rfl

theorem createdAt_namesPair (hashCode : String → String → String)
    (hcf : CollisionFree hashCode) (a s : String) (o : Option TransferRecord) (t : Transfer)
    (ho : NamesPair a s o) : NamesPair a s (createdAt hashCode (hashCode a s) o t) := by
  intro r hr
  unfold createdAt at hr
  cases o with
  | some r0 =>
    simp only [Option.some.injEq] at hr
    exact hr ▸ ho r0 rfl
  | none =>
    simp only at hr
    split_ifs at hr with hF hT
    · obtain ⟨e1, e2⟩ := hcf _ _ _ _ hF
      simp only [Option.some.injEq] at hr
      subst hr
      exact ⟨e1.symm, e2.symm⟩
    · obtain ⟨e1, e2⟩ := hcf _ _ _ _ hT
      simp only [Option.some.injEq] at hr
      subst hr
      exact ⟨e1.symm, e2.symm⟩

theorem stepAt_namesPair (hashCode : String → String → String) (hcf : CollisionFree hashCode)
    (a s : String) (o : Option TransferRecord) (t : Transfer) (ho : NamesPair a s o) :
    NamesPair a s (stepAt hashCode (hashCode a s) o t) := by
  intro r hr
  unfold stepAt at hr
  obtain ⟨r0, h0, rfl⟩ := Option.map_eq_some'.mp hr
  rw [updateAt_address, updateAt_asset]
  exact createdAt_namesPair hashCode hcf a s o t ho r0 h0

theorem stepAt_fold_namesPair (hashCode : String → String → String)
    (hcf : CollisionFree hashCode) (a s : String) (ts : List Transfer)
    (o : Option TransferRecord) (ho : NamesPair a s o) :
    NamesPair a s (ts.foldl (stepAt hashCode (hashCode a s)) o) := by
  induction ts generalizing o with
  | nil => exact ho
  | cons t ts ih => exact ih _ (stepAt_namesPair hashCode hcf a s o t ho)

/-! ### C1: net value of a record -/

/-- C1, as stated, fails: with a collision-free hash, after a transaction whose
Transfer logs of token `0xaa` send five units from the token contract itself
and three units from `0xc` to `0xb`, the record of (`0xb`, `0xaa`) holds 3,
not the sum 8 of the values of the events received by `0xb`. -/
theorem c1_counterexample :
    CollisionFree pairKey ∧ selfEmittedTx.WellFormed ∧
      ∃ rec, (handleTransactions pairKey (State.init 50) [selfEmittedTx]).transfersObj.get?
          (pairKey "0xb" "0xaa") = some rec ∧
        rec.value ≠
          inbound ([selfEmittedTx].flatMap TxEvent.transferEvents) "0xb" "0xaa"
            - outbound ([selfEmittedTx].flatMap TxEvent.transferEvents) "0xb" "0xaa" :=
  ⟨pairKey_collisionFree, by decide, ⟨"0xaa", "0xb", 3, 10, []⟩, by decide, by decide⟩

/-- C1, amended: starting from an empty ledger, with a collision-free
`hashCode`, after any sequence of transactions has been handled, the record of
a pair (address, asset) names that pair and its value is the sum of the values
of the events of that asset received by the address minus the sum of those
sent by it, the events counted being the value-carrying `call` traces and the
Transfer logs other than those emitted by their own sender. -/
theorem c1_net_value (hashCode : String → String → String) (hcf : CollisionFree hashCode)
    (st : State) (hst : st.transfersObj = []) (txs : List TxEvent)
    (hwf : ∀ tx ∈ txs, tx.WellFormed) (address asset : String) (rec : TransferRecord)
    (h : (handleTransactions hashCode st txs).transfersObj.get? (hashCode address asset)
      = some rec) :
    rec.address = address ∧ rec.asset = asset ∧
      rec.value =
        inbound (txs.flatMap TxEvent.countedEvents) address asset
          - outbound (txs.flatMap TxEvent.countedEvents) address asset := by
  rw [handleTransactions_transfersObj hashCode txs st hwf, get?_foldl_applyStep, hst] at h
  have hv := stepAt_fold_value hashCode hcf address asset (txs.flatMap TxEvent.recorded) none
  have hn := stepAt_fold_namesPair hashCode hcf address asset (txs.flatMap TxEvent.recorded)
    none (fun r hr => by cases hr)
  have h' : List.foldl (stepAt hashCode (hashCode address asset)) none
      (txs.flatMap TxEvent.recorded) = some rec := h
  rw [h'] at hv
  obtain ⟨h1, h2⟩ := hn rec h'
  refine ⟨h1, h2, ?_⟩
  rw [← inbound_recorded, ← outbound_recorded]
  simpa [valueOf] using hv

/-- C1, amended, at the transaction `selfEmittedTx`: the record of
(`0xb`, `0xaa`) holds the three units sent by `0xc`. -/
theorem c1_net_value_witness :
    (State.init 50).transfersObj = [] ∧ (∀ tx ∈ [selfEmittedTx], tx.WellFormed) ∧
      (handleTransactions pairKey (State.init 50) [selfEmittedTx]).transfersObj.get?
        (pairKey "0xb" "0xaa") = some ⟨"0xaa", "0xb", 3, 10, []⟩ ∧
      (3 : Int) =
        inbound ([selfEmittedTx].flatMap TxEvent.countedEvents) "0xb" "0xaa"
          - outbound ([selfEmittedTx].flatMap TxEvent.countedEvents) "0xb" "0xaa" :=
  ⟨rfl, by decide, by decide,
    (c1_net_value pairKey pairKey_collisionFree (State.init 50) rfl [selfEmittedTx] (by decide)
      "0xb" "0xaa" ⟨"0xaa", "0xb", 3, 10, []⟩ (by decide)).2.2⟩

/-! ### Stages of handleBlock -/

theorem allSome_map_some {α : Type} (rs : List α) : allSome (rs.map some) = some rs := by
  induction rs with
  | nil => rfl
  | cons a rs ih => simp [allSome, ih]

theorem allSome_eq_some {α : Type} (l : List (Option α)) (rs : List α)
    (h : allSome l = some rs) : l = rs.map some := by
  induction l generalizing rs with
  | nil => simp [allSome] at h; simp [← h]
  | cons x l ih =>
    cases x with
    | none => simp [allSome] at h
    | some a =>
      simp only [allSome] at h
      cases h' : allSome l with
      | none => simp [h'] at h
      | some as =>
        simp only [h', Option.some.injEq] at h
        subst h
        simp [ih as h']

theorem allSome_eq_none {α : Type} (l : List (Option α)) (h : none ∈ l) : allSome l = none := by
  induction l with
  | nil => cases h
  | cons x l ih =>
    cases x with
    | none => rfl
    | some a =>
      have : none ∈ l := by simpa using h
      simp [allSome, ih this]

theorem filterDrained_drop (g : TransferRecord → BigNumber) (res : List BigNumber)
    (ts : List TransferRecord) (i : Nat) (h : res.drop i = ts.map g) :
    filterDrained res ts i = some (ts.filter (fun t => g t == ZERO)) := by
  induction ts generalizing i with
  | nil => rfl
  | cons t ts ih =>
    have h0 : res.get? i = some (g t) := by
      have := congrArg (fun l => l.get? 0) h
      simpa [List.getElem?_drop] using this
    have h1 : res.drop (i + 1) = ts.map g := by
      have := congrArg List.tail h
      simpa [List.tail_drop] using this
    simp only [filterDrained, h0, ih (i + 1) h1, List.filter_cons]

theorem filterDrained_nil (t : TransferRecord) (ts : List TransferRecord) :
    filterDrained [] (t :: ts) 0 = none := rfl

namespace LRU

variable {V : Type}

theorem get?_filter_ne (es : List (String × V)) (k k' : String) (h : k' ≠ k) :
    JsObj.get? (es.filter (fun e => decide (e.1 ≠ k))) k' = JsObj.get? es k' := by
  induction es with
  | nil => rfl
  | cons e es ih =>
    by_cases h1 : e.1 = k
    · have h2 : ¬ e.1 = k' := fun e2 => h (e2.symm.trans h1)
      rw [List.filter_cons_of_neg (by simp [h1]), ih]
      simp [JsObj.get?, h2]
    · rw [List.filter_cons_of_pos (by simp [h1])]
      simp only [JsObj.get?, ih]

theorem peek_get (c : LRU V) (k k' : String) : (c.get k).2.peek k' = c.peek k' := by
  unfold get
  cases h : c.peek k with
  | none => rfl
  | some v =>
    simp only [peek, JsObj.get?]
    by_cases hk : k = k'
    · subst hk; simpa [peek] using h.symm
    · simp only [hk, if_false]
      exact get?_filter_ne c.entries k k' (fun e => hk e.symm)

theorem get_fst (c : LRU V) (k : String) : (c.get k).1 = c.peek k := by
  unfold get
  cases h : c.peek k <;> rfl

theorem readAll_fst (c : LRU V) (ks : List String) : (c.readAll ks).1 = ks.map c.peek := by
  induction ks generalizing c with
  | nil => rfl
  | cons k ks ih =>
    simp only [readAll, List.map_cons, get_fst, ih]
    congr 1
    exact List.map_congr_left (fun k' _ => peek_get c k k')

theorem fillAll_fst (resolve : String → V) (c : LRU V) (l : List (String × Option V)) :
    (fillAll resolve c l).1 = l.map (fun p => p.2.getD (resolve p.1)) := by
  induction l generalizing c with
  | nil => rfl
  | cons p l ih =>
    obtain ⟨k, o⟩ := p
    cases o <;> simp [fillAll, ih]

theorem memoAll_fst (resolve : String → V) (c : LRU V) (ks : List String) :
    (memoAll resolve c ks).1 = ks.map (fun k => (c.peek k).getD (resolve k)) := by
  simp only [memoAll, fillAll_fst, readAll_fst]
  induction ks with
  | nil => rfl
  | cons k ks ih => simpa using ih

end LRU

theorem getAddressType_fst (env : Env) (c : LRU AddressType) (a : String) :
    (getAddressType env c a).1 = (c.peek a).getD (codeType env a) := by
  unfold getAddressType
  have h := LRU.get_fst c a
  cases hg : c.get a with
  | mk o c' =>
    rw [hg] at h
    simp only at h
    subst h
    cases c.peek a <;> rfl

theorem getAssetSymbol_fst (env : Env) (c : LRU String) (a : String) :
    (getAssetSymbol env c a).1 = (c.peek a).getD (env.symbol a) := by
  unfold getAssetSymbol
  have h := LRU.get_fst c a
  cases hg : c.get a with
  | mk o c' =>
    rw [hg] at h
    simp only at h
    subst h
    cases c.peek a <;> rfl

theorem getAddressTypes_fst (env : Env) (c : LRU AddressType) (as : List String) :
    (getAddressTypes env c as).1 = as.map (fun a => (getAddressType env c a).1) := by
  simp only [getAddressTypes, LRU.memoAll_fst, getAddressType_fst]

theorem getAssetSymbols_fst (env : Env) (c : LRU String) (as : List String) :
    (getAssetSymbols env c as).1 = as.map (fun a => (getAssetSymbol env c a).1) := by
  simp only [getAssetSymbols, LRU.memoAll_fst, getAssetSymbol_fst]

theorem keepContracts_eq (f : String → AddressType) (l : List TransferRecord) :
    ((l.zip ((l.map (fun e => e.address)).map f)).map
        (fun p => if p.2 = AddressType.Contract then some p.1 else none)).filterMap id =
      l.filter (fun e => decide (f e.address = AddressType.Contract)) := by
  induction l with
  | nil => rfl
  | cons e l ih =>
    simp only [List.map_cons, List.zip_cons_cons, List.filterMap_cons, List.filter_cons, ih]
    by_cases h : f e.address = AddressType.Contract <;> simp [h]

theorem allOk_map_ok {α β : Type} (f : α → Except String β) (g : α → β) (l : List α)
    (h : ∀ x ∈ l, f x = .ok (g x)) : allOk (l.map f) = .ok (l.map g) := by
  induction l with
  | nil => rfl
  | cons x l ih =>
    simp only [List.map_cons, allOk, h x (List.mem_cons_self x l),
      ih (fun y hy => h y (List.mem_cons_of_mem x hy))]

theorem allOk_map_error {α β : Type} (f : α → Except String β) (l : List α)
    (h : ∃ x ∈ l, ∃ e, f x = .error e) : ∃ e, allOk (l.map f) = .error e := by
  induction l with
  | nil => obtain ⟨x, hx, _⟩ := h; cases hx
  | cons x l ih =>
    cases hfx : f x with
    | error e => exact ⟨e, by simp [allOk, hfx]⟩
    | ok b =>
      have h' : ∃ y ∈ l, ∃ e, f y = .error e := by
        obtain ⟨y, hy, e, he⟩ := h
        rcases List.mem_cons.mp hy with rfl | hy'
        · rw [hfx] at he; cases he
        · exact ⟨y, hy', e, he⟩
      obtain ⟨e, he⟩ := ih h'
      exact ⟨e, by simp [allOk, hfx, he]⟩

theorem attachSymbols_map (g : TransferRecord → String) (l : List TransferRecord) :
    attachSymbols l ((l.map g).map CallResult.symbol) =
      l.map (fun r => ⟨r, some (CallResult.symbol (g r))⟩) := by
  induction l with
  | nil => rfl
  | cons r l ih => simp only [List.map_cons, attachSymbols, ih]

theorem allOk_lookback (env : Env) (b : Int) (l : List TransferRecord) (olds : List BigNumber)
    (h : allOk (l.map (balance10MinsAgo env b)) = .ok olds) :
    olds = l.map (lookbackValue env b) := by
  induction l generalizing olds with
  | nil => simp [allOk] at h; simp [← h]
  | cons r l ih =>
    simp only [List.map_cons] at h ⊢
    cases hr : balance10MinsAgo env b r with
    | error e => simp [hr, allOk] at h
    | ok v =>
      cases hl : allOk (l.map (balance10MinsAgo env b)) with
      | error e => simp [hr, hl, allOk] at h
      | ok vs =>
        simp only [hr, hl, allOk, Except.ok.injEq] at h
        subst h
        simp [lookbackValue, hr, ih vs hl]

theorem dropIgnored_drop (h : Candidate → BigNumber) (bals : List CallResult)
    (cs : List Candidate) (cache : LRU AddressType) (i : Nat)
    (hb : bals.drop i = (cs.map h).map CallResult.balance) :
    dropIgnored bals cache cs i =
      (some (cs.filter (fun c => !(h c == ZERO))),
        markIgnored cache ((cs.filter (fun c => h c == ZERO)).map (fun c => c.record.address))) := by
  induction cs generalizing cache i with
  | nil => rfl
  | cons c cs ih =>
    have h0 : bals.get? i = some (CallResult.balance (h c)) := by
      have := congrArg (fun l => l.get? 0) hb
      simpa [List.getElem?_drop] using this
    have h1 : bals.drop (i + 1) = (cs.map h).map CallResult.balance := by
      have := congrArg List.tail hb
      simpa [List.tail_drop] using this
    by_cases hz : (h c == ZERO) = true
    · simp only [dropIgnored, h0, hz, if_true, ih _ (i + 1) h1, List.filter_cons, Bool.not_true,
        Bool.false_eq_true, if_false, List.map_cons, markIgnored, List.foldl_cons]
    · simp only [dropIgnored, h0, hz, if_false, ih _ (i + 1) h1, List.filter_cons, Bool.not_eq_true,
        Bool.not_false, if_true]
      simp [hz]

theorem handleBlock_early (env : Env) (st : State) (blockEvent : BlockEvent)
    (h : candidates st.transfersObj = []) :
    handleBlock env st blockEvent = ⟨st, .ok [], [], []⟩ := by
  simp [handleBlock, h]

theorem handleBlock_batch_failed (env : Env) (st : State) (blockEvent : BlockEvent)
    (h : ∃ r ∈ candidates st.transfersObj, currentBalance env blockEvent r = none) :
    handleBlock env st blockEvent =
      ⟨st, .error "TypeError: balances[1][i] is undefined",
        (candidates st.transfersObj).map balanceCall, []⟩ := by
  obtain ⟨r, hr, hnone⟩ := h
  have hne : (candidates st.transfersObj).length ≠ 0 := by
    intro h0
    rw [List.length_eq_zero.mp h0] at hr
    cases hr
  have hall : allSome (((candidates st.transfersObj).map balanceCall).map
      (fun c => env.multicall c (blockEvent.blockNumber - 1))) = none := by
    apply allSome_eq_none
    simp only [List.map_map, List.mem_map]
    exact ⟨r, hr, hnone⟩
  cases hc : candidates st.transfersObj with
  | nil => rw [hc] at hr; cases hr
  | cons t ts =>
    rw [hc] at hall
    simp only [handleBlock, hc, Env.all, hall, filterDrained_nil]
    simp

theorem filterDrained_candidates (env : Env) (st : State) (blockEvent : BlockEvent)
    (hall : ∀ r ∈ candidates st.transfersObj, (currentBalance env blockEvent r).isSome = true) :
    filterDrained
        (env.all ((candidates st.transfersObj).map balanceCall) (blockEvent.blockNumber - 1)).2
        (candidates st.transfersObj) 0 = some (drainedOf env st blockEvent) := by
  have hmap : ((candidates st.transfersObj).map balanceCall).map
      (fun c => env.multicall c (blockEvent.blockNumber - 1)) =
      ((candidates st.transfersObj).map
        (fun r => (currentBalance env blockEvent r).getD 0)).map some := by
    rw [List.map_map, List.map_map]
    apply List.map_congr_left
    intro r hr
    obtain ⟨v, hv⟩ := Option.isSome_iff_exists.mp (hall r hr)
    simp only [Function.comp, currentBalance] at hv ⊢
    rw [hv]; rfl
  simp only [Env.all, hmap, allSome_map_some]
  rw [filterDrained_drop (fun r => (currentBalance env blockEvent r).getD 0) _ _ 0 (by simp)]
  congr 1
  apply List.filter_congr
  intro r hr
  obtain ⟨v, hv⟩ := Option.isSome_iff_exists.mp (hall r hr)
  by_cases h0 : v = 0 <;> simp [hv, ZERO, h0]

theorem handleBlock_stages (env : Env) (st : State) (blockEvent : BlockEvent)
    (hne : candidates st.transfersObj ≠ [])
    (hall : ∀ r ∈ candidates st.transfersObj, (currentBalance env blockEvent r).isSome = true) :
    handleBlock env st blockEvent =
      match allOk ((contractsOf env st blockEvent).map
          (balance10MinsAgo env (block10MinsAgo st blockEvent))) with
      | .error e =>
        ⟨afterHelpers env st blockEvent, .error e,
          (candidates st.transfersObj).map balanceCall,
          (contractsOf env st blockEvent).map balanceCall⟩
      | .ok _ =>
        ⟨{ afterHelpers env st blockEvent with
            cachedAddresses := markIgnored (afterHelpers env st blockEvent).cachedAddresses
              ((ignoredOf env st blockEvent).map (fun r => r.address))
            transfersObj := [] },
          .ok ((survivorsOf env st blockEvent).map (fun r => mkFinding (withSymbol env st r))),
          (candidates st.transfersObj).map balanceCall,
          (contractsOf env st blockEvent).map balanceCall⟩ := by
  have hlen : ¬ (candidates st.transfersObj).length = 0 := fun h => hne (List.length_eq_zero.mp h)
  have hcon : (((drainedOf env st blockEvent).zip
      (getAddressTypes env st.cachedAddresses
        ((drainedOf env st blockEvent).map (fun e => e.address))).1).map
        (fun p => if p.2 = AddressType.Contract then some p.1 else none)).filterMap id =
      contractsOf env st blockEvent := by
    rw [getAddressTypes_fst, keepContracts_eq]
    rfl
  unfold handleBlock
  simp only [hlen, if_false, filterDrained_candidates env st blockEvent hall, hcon]
  cases hok : allOk ((contractsOf env st blockEvent).map
      (balance10MinsAgo env (blockEvent.blockNumber - st.blocksIn10Minutes))) with
  | error e => simp only [block10MinsAgo, hok]; rfl
  | ok olds =>
    have holds := allOk_lookback env _ _ olds hok
    have hsym : (getAssetSymbols env st.cachedAssetSymbols
        ((contractsOf env st blockEvent).map (fun e => e.asset))).1 =
        (contractsOf env st blockEvent).map
          (fun r => (getAssetSymbol env st.cachedAssetSymbols r.asset).1) := by
      rw [getAssetSymbols_fst, List.map_map]; rfl
    have hlen1 : ((getAssetSymbols env st.cachedAssetSymbols
        ((contractsOf env st blockEvent).map (fun e => e.asset))).1.map
          CallResult.symbol).length = (contractsOf env st blockEvent).length := by
      rw [hsym]; simp
    simp only [block10MinsAgo, hok]
    rw [← hlen1, List.take_left, List.drop_left, hsym, attachSymbols_map, holds]
    rw [dropIgnored_drop (fun c => lookbackValue env
      (blockEvent.blockNumber - st.blocksIn10Minutes) c.record) _ _ _ 0
      (by simp [List.map_map, Function.comp])]
    simp only [survivorsOf, ignoredOf, afterHelpers, block10MinsAgo, withSymbol, List.filter_map,
      List.map_map, Function.comp]
    rfl

theorem mem_candidates (l : Ledger) (r : TransferRecord) :
    r ∈ candidates l ↔ r ∈ l.values ∧ r.value < 0 ∧ r.address ≠ AddressZero := by
  simp only [candidates, List.mem_filter, ZERO, decide_eq_true_eq]
  tauto

theorem balance10MinsAgo_of_some (env : Env) (b : Int) (r : TransferRecord)
    (h : (historicalBalance env b r).isSome = true) :
    balance10MinsAgo env b r = .ok (lookbackValue env b r) ∧
      historicalBalance env b r = some (lookbackValue env b r) := by
  obtain ⟨v, hv⟩ := Option.isSome_iff_exists.mp h
  unfold lookbackValue balance10MinsAgo
  unfold historicalBalance at hv
  by_cases hn : r.asset = "native"
  · simp only [hn, if_true] at hv ⊢
    simp [hv, historicalBalance, hn]
  · simp only [hn, if_false] at hv ⊢
    simp [hv, historicalBalance, hn]

theorem survivorsOf_eq (env : Env) (st : State) (blockEvent : BlockEvent)
    (hold : ∀ r ∈ contractsOf env st blockEvent,
      (historicalBalance env (block10MinsAgo st blockEvent) r).isSome = true) :
    survivorsOf env st blockEvent =
      st.transfersObj.values.filter (fun r => decide (isDrainedContract env st blockEvent r)) := by
  have hmem : ∀ r, r ∈ contractsOf env st blockEvent ↔
      r ∈ st.transfersObj.values ∧ r.value < 0 ∧ r.address ≠ AddressZero ∧
        currentBalance env blockEvent r = some 0 ∧
        (getAddressType env st.cachedAddresses r.address).1 = AddressType.Contract := by
    intro r
    simp only [contractsOf, drainedOf, List.mem_filter, mem_candidates, decide_eq_true_eq]
    tauto
  unfold survivorsOf
  have hfilter : ∀ l : List TransferRecord, (∀ r ∈ l, r ∈ st.transfersObj.values) →
      (((((l.filter (fun t => decide (t.value < ZERO))).filter
        (fun t => decide (t.address ≠ AddressZero))).filter
        (fun t => decide (currentBalance env blockEvent t = some 0))).filter
        (fun e => decide ((getAddressType env st.cachedAddresses e.address).1
          = AddressType.Contract))).filter
        (fun r => !(lookbackValue env (block10MinsAgo st blockEvent) r == ZERO))) =
      l.filter (fun r => decide (isDrainedContract env st blockEvent r)) := by
    intro l hl
    simp only [List.filter_filter]
    apply List.filter_congr
    intro r hr
    by_cases hc : r ∈ contractsOf env st blockEvent
    · obtain ⟨_, hA, hB, hC, hD⟩ := (hmem r).mp hc
      obtain ⟨_, h2⟩ := balance10MinsAgo_of_some env _ r (hold r hc)
      by_cases hE : lookbackValue env (block10MinsAgo st blockEvent) r = 0
      · have : ¬ isDrainedContract env st blockEvent r := by
          intro h; exact h.2.2.2.2 (by rw [h2, hE])
        simp [this, hE, ZERO]
      · have hE' : historicalBalance env (block10MinsAgo st blockEvent) r ≠ some 0 := by
          rw [h2]; intro h; exact hE (Option.some.inj h)
        have hb : (lookbackValue env (block10MinsAgo st blockEvent) r == (0 : Int)) = false := by
          simpa using hE
        simp [isDrainedContract, hA, hB, hC, hD, hE', ZERO, hb]
    · have hnot : ¬ isDrainedContract env st blockEvent r :=
        fun h => hc ((hmem r).mpr ⟨hl r hr, h.1, h.2.1, h.2.2.1, h.2.2.2.1⟩)
      have hconj : ¬ (r.value < 0 ∧ r.address ≠ AddressZero ∧
          currentBalance env blockEvent r = some 0 ∧
          (getAddressType env st.cachedAddresses r.address).1 = AddressType.Contract) :=
        fun h => hc ((hmem r).mpr ⟨hl r hr, h⟩)
      simp only [hnot, decide_False, Bool.and_eq_false_imp, Bool.and_eq_true,
        decide_eq_true_eq, ZERO]
      intro _ hD hC hB
      simp only [decide_eq_false_iff_not]
      exact fun hA => hconj ⟨hA, hB, hC, hD⟩
  have := hfilter st.transfersObj.values (fun _ h => h)
  simp only [contractsOf, drainedOf, candidates]
  rw [this]

/-! ### C2: the ledger after handleBlock -/

/-- C2 fails on the code: after a mint (a transfer from the zero address) the
ledger holds two records and none is a candidate, so `handleBlock` returns no
finding at line 117 and leaves the ledger as it was, not empty. -/
theorem c2_early_return_keeps_ledger (env : Env) (blockEvent : BlockEvent) :
    (handleBlock env (handleTransaction pairKey (State.init 50) mintTx).1 blockEvent).result
        = .ok [] ∧
      (handleBlock env (handleTransaction pairKey (State.init 50) mintTx).1
        blockEvent).state.transfersObj
        = (handleTransaction pairKey (State.init 50) mintTx).1.transfersObj ∧
      (handleTransaction pairKey (State.init 50) mintTx).1.transfersObj ≠ [] := by
  have hc : candidates (handleTransaction pairKey (State.init 50) mintTx).1.transfersObj = [] := by
    decide
  rw [handleBlock_early env _ blockEvent hc]
  exact ⟨rfl, rfl, by decide⟩

/-! ### C3: the findings of a resolution -/

theorem handleBlock_result_of_success (env : Env) (st : State) (blockEvent : BlockEvent)
    (hcur : ∀ r ∈ candidates st.transfersObj, (currentBalance env blockEvent r).isSome = true)
    (hold : ∀ r ∈ contractsOf env st blockEvent,
      (historicalBalance env (block10MinsAgo st blockEvent) r).isSome = true) :
    (handleBlock env st blockEvent).result =
      .ok ((st.transfersObj.values.filter
        (fun r => decide (isDrainedContract env st blockEvent r))).map
          (fun r => mkFinding (withSymbol env st r))) := by
  rw [← survivorsOf_eq env st blockEvent hold]
  by_cases hne : candidates st.transfersObj = []
  · rw [handleBlock_early env st blockEvent hne]
    simp [survivorsOf, contractsOf, drainedOf, hne]
  · rw [handleBlock_stages env st blockEvent hne hcur]
    rw [allOk_map_ok _ (lookbackValue env (block10MinsAgo st blockEvent)) _
      (fun x hx => (balance10MinsAgo_of_some env _ x (hold x hx)).1)]

/-- C3: when every current-balance query and every historical-balance query
succeeds, `handleBlock` returns, in ledger order, exactly one finding for each
ledger record that has negative net value, is not the zero address, had
balance zero at block `blockNumber - 1`, is classified Contract and had a
non-zero balance at block `blockNumber - blocksIn10Minutes`; each finding
carries its record's address, asset, symbol and block number. -/
theorem c3_findings (env : Env) (st : State) (blockEvent : BlockEvent)
    (hcur : ∀ r ∈ candidates st.transfersObj, (currentBalance env blockEvent r).isSome = true)
    (hold : ∀ r ∈ contractsOf env st blockEvent,
      (historicalBalance env (block10MinsAgo st blockEvent) r).isSome = true) :
    (handleBlock env st blockEvent).result =
        .ok ((st.transfersObj.values.filter
          (fun r => decide (isDrainedContract env st blockEvent r))).map
            (fun r => mkFinding (withSymbol env st r))) ∧
      ∀ r : TransferRecord,
        (mkFinding (withSymbol env st r)).metadata.contract = r.address ∧
        (mkFinding (withSymbol env st r)).metadata.asset = r.asset ∧
        (mkFinding (withSymbol env st r)).metadata.blockNumber = r.blockNumber ∧
        (mkFinding (withSymbol env st r)).description =
          "All " ++ (getAssetSymbol env st.cachedAssetSymbols r.asset).1
            ++ " tokens were drained from " ++ r.address :=
  ⟨handleBlock_result_of_success env st blockEvent hcur hold, fun _ => ⟨rfl, rfl, rfl, rfl⟩⟩

/-- C3 at the drain of `drainTx`: one finding, for the contract `0xC`. -/
theorem c3_findings_witness :
    (handleBlock drainedEnv (handleTransaction pairKey (State.init 50) drainTx).1 ⟨11⟩).result =
      .ok [mkFinding ⟨⟨"0xaa", "0xC", -100, 10, [("0xX", [⟨"0xh", "0xs"⟩])]⟩,
        some (CallResult.symbol "TKN")⟩] :=
  (c3_findings drainedEnv (handleTransaction pairKey (State.init 50) drainTx).1 ⟨11⟩
    (by decide) (by decide)).1.trans rfl

theorem handleBlock_ok_findings (env : Env) (st : State) (blockEvent : BlockEvent)
    (fs : List Finding) (h : (handleBlock env st blockEvent).result = .ok fs) :
    fs = (survivorsOf env st blockEvent).map (fun r => mkFinding (withSymbol env st r)) := by
  by_cases hne : candidates st.transfersObj = []
  · rw [handleBlock_early env st blockEvent hne] at h
    simp only [Except.ok.injEq] at h
    simp [survivorsOf, contractsOf, drainedOf, hne, ← h]
  · by_cases hall : ∀ r ∈ candidates st.transfersObj,
        (currentBalance env blockEvent r).isSome = true
    · rw [handleBlock_stages env st blockEvent hne hall] at h
      cases hok : allOk ((contractsOf env st blockEvent).map
          (balance10MinsAgo env (block10MinsAgo st blockEvent))) with
      | error e => rw [hok] at h; cases h
      | ok olds =>
        rw [hok] at h
        simp only [Except.ok.injEq] at h
        exact h.symm
    · have hex : ∃ r ∈ candidates st.transfersObj, currentBalance env blockEvent r = none := by
        by_contra hcon
        apply hall
        intro r hr
        cases hc : currentBalance env blockEvent r with
        | none => exact absurd ⟨r, hr, hc⟩ hcon
        | some v => rfl
      rw [handleBlock_batch_failed env st blockEvent hex] at h
      cases h

theorem mem_findings (env : Env) (st : State) (blockEvent : BlockEvent) (fs : List Finding)
    (h : (handleBlock env st blockEvent).result = .ok fs) (f : Finding) (hf : f ∈ fs) :
    ∃ r ∈ survivorsOf env st blockEvent,
      f.metadata.contract = r.address ∧ f.metadata.asset = r.asset := by
  rw [handleBlock_ok_findings env st blockEvent fs h] at hf
  obtain ⟨r, hr, rfl⟩ := List.mem_map.mp hf
  exact ⟨r, hr, rfl, rfl⟩

theorem balanceCall_congr (r r' : TransferRecord) (ha : r'.address = r.address)
    (hs : r'.asset = r.asset) : balanceCall r' = balanceCall r := by
  simp [balanceCall, ha, hs]

/-! ### C4 and C5: candidates that are dropped -/

/-- C4: for a ledger record with negative net value whose current balance, as
the batched query at block `blockNumber - 1` returns it, is not zero, the
findings that `handleBlock` returns contain none for that record. -/
theorem c4_not_drained_no_finding (env : Env) (st : State) (blockEvent : BlockEvent)
    (r : TransferRecord) (_hr : r ∈ st.transfersObj.values) (_hneg : r.value < 0)
    (b : BigNumber) (hb : currentBalance env blockEvent r = some b) (hb0 : b ≠ 0)
    (fs : List Finding) (h : (handleBlock env st blockEvent).result = .ok fs) :
    ∀ f ∈ fs, ¬ f.isFor r := by
  intro f hf hfor
  obtain ⟨r', hr', h1, h2⟩ := mem_findings env st blockEvent fs h f hf
  have hd : r' ∈ drainedOf env st blockEvent :=
    (List.mem_filter.mp (List.mem_filter.mp hr').1).1
  have h0 : currentBalance env blockEvent r' = some 0 := by
    simpa using (List.mem_filter.mp hd).2
  have hcall : balanceCall r' = balanceCall r :=
    balanceCall_congr r r' (h1.symm.trans hfor.1) (h2.symm.trans hfor.2)
  unfold currentBalance at h0 hb
  rw [hcall, hb] at h0
  exact hb0 (Option.some.inj h0)

/-- C4 at the two drains of `twoDrainsTx`, where `0xD` still holds 7 units: the
only finding is about `0xC`. -/
theorem c4_not_drained_no_finding_witness :
    (handleBlock partlyDrainedEnv (handleTransaction pairKey (State.init 50) twoDrainsTx).1
        ⟨11⟩).result =
      .ok [mkFinding ⟨⟨"0xaa", "0xC", -100, 10, [("0xX", [⟨"0xh", "0xs"⟩])]⟩,
        some (CallResult.symbol "TKN")⟩] ∧
    ∀ f ∈ [mkFinding ⟨⟨"0xaa", "0xC", -100, 10, [("0xX", [⟨"0xh", "0xs"⟩])]⟩,
        some (CallResult.symbol "TKN")⟩],
      ¬ f.isFor ⟨"0xaa", "0xD", -50, 10, [("0xX", [⟨"0xh", "0xs"⟩])]⟩ :=
  ⟨rfl,
    c4_not_drained_no_finding partlyDrainedEnv
      (handleTransaction pairKey (State.init 50) twoDrainsTx).1 ⟨11⟩
      ⟨"0xaa", "0xD", -50, 10, [("0xX", [⟨"0xh", "0xs"⟩])]⟩ (by decide) (by decide) 7 (by decide)
      (by decide) _ rfl⟩

/-- C5: for a ledger record whose address `getAddressType` classifies as an
externally-owned account, the findings that `handleBlock` returns contain none
for that record, whatever its net value and current balance. -/
theorem c5_external_account_no_finding (env : Env) (st : State) (blockEvent : BlockEvent)
    (r : TransferRecord) (_hr : r ∈ st.transfersObj.values)
    (heoa : (getAddressType env st.cachedAddresses r.address).1 = AddressType.ExternalAccount)
    (fs : List Finding) (h : (handleBlock env st blockEvent).result = .ok fs) :
    ∀ f ∈ fs, ¬ f.isFor r := by
  intro f hf hfor
  obtain ⟨r', hr', h1, _⟩ := mem_findings env st blockEvent fs h f hf
  have hc : (getAddressType env st.cachedAddresses r'.address).1 = AddressType.Contract := by
    simpa using (List.mem_filter.mp (List.mem_filter.mp hr').1).2
  rw [← h1, hfor.1, heoa] at hc
  cases hc

/-- C5 at the two drains of `twoDrainsTx`, where `0xD` has no bytecode: the
only finding is about `0xC`. -/
theorem c5_external_account_no_finding_witness :
    (handleBlock eoaEnv (handleTransaction pairKey (State.init 50) twoDrainsTx).1 ⟨11⟩).result =
      .ok [mkFinding ⟨⟨"0xaa", "0xC", -100, 10, [("0xX", [⟨"0xh", "0xs"⟩])]⟩,
        some (CallResult.symbol "TKN")⟩] ∧
    ∀ f ∈ [mkFinding ⟨⟨"0xaa", "0xC", -100, 10, [("0xX", [⟨"0xh", "0xs"⟩])]⟩,
        some (CallResult.symbol "TKN")⟩],
      ¬ f.isFor ⟨"0xaa", "0xD", -50, 10, [("0xX", [⟨"0xh", "0xs"⟩])]⟩ :=
  ⟨rfl,
    c5_external_account_no_finding eoaEnv
      (handleTransaction pairKey (State.init 50) twoDrainsTx).1 ⟨11⟩
      ⟨"0xaa", "0xD", -50, 10, [("0xX", [⟨"0xh", "0xs"⟩])]⟩ (by decide) rfl _ rfl⟩

/-! ### C7 and C8: failing queries -/

/-- C7 fails on the code for the native asset: when the historical-balance
query of a drained native contract fails, `handleBlock` throws, and the ledger
is kept; when the same query fails for a token, the balance is read as zero,
no finding is returned and the address is flagged Ignored. -/
theorem c7_native_lookback_failure_throws :
    (handleBlock lookbackFailsEnv (handleTransaction pairKey (State.init 50) nativeDrainTx).1
        ⟨11⟩).result = .error "getBalance rejected" ∧
      (handleBlock lookbackFailsEnv (handleTransaction pairKey (State.init 50) nativeDrainTx).1
        ⟨11⟩).state.cachedAddresses.peek "0xc" = some AddressType.Contract ∧
      (handleBlock lookbackFailsEnv (handleTransaction pairKey (State.init 50) drainTx).1
        ⟨11⟩).result = .ok [] ∧
      (handleBlock lookbackFailsEnv (handleTransaction pairKey (State.init 50) drainTx).1
        ⟨11⟩).state.cachedAddresses.peek "0xC" = some AddressType.Ignored :=
  ⟨rfl, rfl, rfl, rfl⟩

/-- C8 fails on the code: when the batched current-balance query fails,
`handleBlock` throws and returns no finding, but the ledger is left as it was,
with the record of `0xC`, instead of being reset. -/
theorem c8_batch_failure_keeps_ledger :
    (handleBlock batchFailsEnv (handleTransaction pairKey (State.init 50) drainTx).1
        ⟨11⟩).result = .error "TypeError: balances[1][i] is undefined" ∧
      (handleBlock batchFailsEnv (handleTransaction pairKey (State.init 50) drainTx).1
        ⟨11⟩).state.transfersObj =
        (handleTransaction pairKey (State.init 50) drainTx).1.transfersObj ∧
      (handleTransaction pairKey (State.init 50) drainTx).1.transfersObj.get?
        (pairKey "0xC" "0xaa") =
        some ⟨"0xaa", "0xC", -100, 10, [("0xX", [⟨"0xh", "0xs"⟩])]⟩ :=
  ⟨rfl, rfl, rfl⟩

/-! ### C10: zero-value events -/

/-- C10, as stated, fails: an internal call whose value is the hex string
`0x00` denotes zero, yet it passes the guard of line 70 and, from the empty
ledger, creates the records of its sender and recipient and a provenance
entry. -/
theorem c10_counterexample :
    bigNumberFrom "0x00" = some 0 ∧
      (handleTransaction pairKey (State.init 50) zeroHexTx).1.transfersObj =
        [(pairKey "0xc" "native", ⟨"native", "0xc", 0, 10, [("0xd", [⟨"0xh", "0xs"⟩])]⟩),
         (pairKey "0xd" "native", ⟨"native", "0xd", 0, 10, []⟩)] ∧
      (handleTransaction pairKey (State.init 50) zeroHexTx).1.transfersObj ≠
        (State.init 50).transfersObj := by
  decide

/-- C10, amended: for every ledger state, `handleTransaction` on a transaction
whose Transfer logs all carry value 0 and whose traces each have no value, an
empty value or the value string `0x0` returns normally and leaves the module
state, hence the ledger, unchanged. -/
theorem c10_zero_value_no_change (hashCode : String → String → String) (st : State)
    (txEvent : TxEvent) (hlogs : ∀ e ∈ txEvent.logs, e.value = 0)
    (htraces : ∀ a ∈ txEvent.traces, a.value = none ∨ a.value = some "" ∨ a.value = some "0x0") :
    handleTransaction hashCode st txEvent = (st, .ok []) := by
  have hguard : ∀ a ∈ txEvent.traces, traceGuard a = false := by
    intro a ha
    rcases htraces a ha with h | h | h <;> simp [traceGuard, h]
  have hwf : txEvent.WellFormed := by
    intro a ha hg
    rw [hguard a ha] at hg
    cases hg
  have hrec : txEvent.recorded = [] := by
    unfold TxEvent.recorded
    have h1 : txEvent.logs.filter (fun event => !(event.value == ZERO)) = [] := by
      apply List.filter_eq_nil_iff.mpr
      intro e he
      simp [hlogs e he, ZERO]
    have h2 : txEvent.traces.filterMap (recordedTrace? txEvent) = [] := by
      apply List.filterMap_eq_nil_iff.mpr
      intro a ha
      simp [recordedTrace?, hguard a ha]
    rw [h1, h2]
    rfl
  rw [handleTransaction_eq hashCode st txEvent hwf, hrec]
  rfl

/-- C10, amended, at the transaction `zeroTx` handled after a drain: the
ledger keeps the records of the drain. -/
theorem c10_zero_value_no_change_witness :
    (∀ e ∈ zeroTx.logs, e.value = 0) ∧
      (∀ a ∈ zeroTx.traces, a.value = none ∨ a.value = some "" ∨ a.value = some "0x0") ∧
      (handleTransaction pairKey (handleTransaction pairKey (State.init 50) drainTx).1
        zeroTx).1.transfersObj =
        (handleTransaction pairKey (State.init 50) drainTx).1.transfersObj :=
  ⟨by decide, by decide,
    congrArg (fun p => p.1.transfersObj)
      (c10_zero_value_no_change pairKey (handleTransaction pairKey (State.init 50) drainTx).1
        zeroTx (by decide) (by decide))⟩

/-! ### C9: arrival order -/

theorem filterMap_log_recorded (txEvent : TxEvent) (es : List TransferLog) :
    (es.map (fun e => (⟨txEvent.hash, txEvent.from_, txEvent.blockNumber,
        EventBody.log e⟩ : FeedEvent))).filterMap FeedEvent.recorded? =
      ((es.filter (fun event => !(event.value == ZERO))).filter
        (fun event => event.address != toLowerCase event.from_)).map (logTransfer txEvent) := by
  induction es with
  | nil => rfl
  | cons e es ih =>
    simp only [List.map_cons, List.filterMap_cons, List.filter_cons, FeedEvent.recorded?, ih]
    by_cases h1 : (e.value == ZERO) = true <;>
      by_cases h2 : (e.address != toLowerCase e.from_) = true <;>
      simp [h1, h2, List.filter_cons, logTransfer]

theorem filterMap_trace_recorded (txEvent : TxEvent) (as : List TraceAction) :
    (as.map (fun a => (⟨txEvent.hash, txEvent.from_, txEvent.blockNumber,
        EventBody.trace a⟩ : FeedEvent))).filterMap FeedEvent.recorded? =
      as.filterMap (recordedTrace? txEvent) := by
  rw [List.filterMap_map]
  rfl

theorem recorded_eq_events (txEvent : TxEvent) :
    txEvent.recorded = txEvent.events.filterMap FeedEvent.recorded? := by
  simp only [TxEvent.recorded, TxEvent.events, List.filterMap_append, filterMap_log_recorded,
    filterMap_trace_recorded]

theorem recorded_flatMap (txs : List TxEvent) :
    txs.flatMap TxEvent.recorded = (txs.flatMap TxEvent.events).filterMap FeedEvent.recorded? := by
  rw [List.filterMap_flatMap]
  congr 1
  funext tx
  exact recorded_eq_events tx

theorem wellFormed_iff_events (txEvent : TxEvent) :
    txEvent.WellFormed ↔ ∀ ev ∈ txEvent.events, ev.WellFormed := by
  constructor
  · intro h ev hev
    simp only [TxEvent.events, List.mem_append, List.mem_map] at hev
    rcases hev with ⟨e, _, rfl⟩ | ⟨a, ha, rfl⟩
    · trivial
    · exact h a ha
  · intro h a ha
    exact h ⟨txEvent.hash, txEvent.from_, txEvent.blockNumber, EventBody.trace a⟩
      (by simp only [TxEvent.events, List.mem_append, List.mem_map]; exact Or.inr ⟨a, ha, rfl⟩)

theorem recorded?_blockNumber (ev : FeedEvent) (t : Transfer) (h : ev.recorded? = some t) :
    t.blockNumber = ev.blockNumber := by
  unfold FeedEvent.recorded? at h
  cases hb : ev.body with
  | log e =>
    simp only [hb] at h
    split_ifs at h
    simp only [Option.some.injEq] at h
    subst h; rfl
  | trace a =>
    simp only [hb] at h
    split_ifs at h
    obtain ⟨v, _, rfl⟩ := Option.map_eq_some'.mp h
    rfl

theorem events_blockNumber (txEvent : TxEvent) (ev : FeedEvent) (h : ev ∈ txEvent.events) :
    ev.blockNumber = txEvent.blockNumber := by
  simp only [TxEvent.events, List.mem_append, List.mem_map] at h
  rcases h with ⟨e, _, rfl⟩ | ⟨a, _, rfl⟩ <;> rfl

theorem stepAt_isSome (hashCode : String → String → String) (k : String)
    (o : Option TransferRecord) (t : Transfer) :
    (stepAt hashCode k o t).isSome = (o.isSome || touches hashCode k t) := by
  unfold stepAt touches
  rw [Option.isSome_map']
  unfold createdAt
  cases o with
  | some r => simp
  | none => dsimp only; split_ifs <;> simp [*]

theorem stepAt_fold_isSome (hashCode : String → String → String) (k : String)
    (ts : List Transfer) (o : Option TransferRecord) :
    (ts.foldl (stepAt hashCode k) o).isSome = (o.isSome || ts.any (touches hashCode k)) := by
  induction ts generalizing o with
  | nil => simp
  | cons t ts ih => simp only [List.foldl_cons, ih, stepAt_isSome, List.any_cons, Bool.or_assoc]

theorem stepAt_hasBlock (hashCode : String → String → String) (k : String) (bn : Int)
    (o : Option TransferRecord) (t : Transfer) (ht : t.blockNumber = bn) (ho : HasBlock bn o) :
    HasBlock bn (stepAt hashCode k o t) := by
  intro r hr
  unfold stepAt at hr
  obtain ⟨r0, h0, rfl⟩ := Option.map_eq_some'.mp hr
  rw [updateAt_blockNumber]
  unfold createdAt at h0
  cases o with
  | some r1 =>
    simp only [Option.some.injEq] at h0
    exact h0 ▸ ho r1 rfl
  | none =>
    simp only at h0
    split_ifs at h0 <;> simp only [Option.some.injEq] at h0 <;> subst h0 <;> exact ht

theorem stepAt_fold_hasBlock (hashCode : String → String → String) (k : String) (bn : Int)
    (ts : List Transfer) (o : Option TransferRecord) (hts : ∀ t ∈ ts, t.blockNumber = bn)
    (ho : HasBlock bn o) : HasBlock bn (ts.foldl (stepAt hashCode k) o) := by
  induction ts generalizing o with
  | nil => exact ho
  | cons t ts ih =>
    exact ih _ (fun t' ht' => hts t' (List.mem_cons_of_mem t ht'))
      (stepAt_hasBlock hashCode k bn o t (hts t (List.mem_cons_self t ts)) ho)

theorem get?_pushTx (txs : JsObj (List TxRef)) (to_ c : String) (tx : TxRef) :
    (pushTx txs to_ tx).get? c =
      if c = to_ then some ((txs.get? to_).getD [] ++ [tx]) else txs.get? c := by
  unfold pushTx
  cases h : JsObj.get? txs to_ <;> simp [JsObj.get?_set]

theorem extend_extend (x : Option (List TxRef)) (l1 l2 : List TxRef) :
    extend (extend x l1) l2 = extend x (l1 ++ l2) := by
  unfold extend
  by_cases h1 : l1 = [] <;> by_cases h2 : l2 = [] <;> simp [h1, h2]

theorem updateAt_txs (hashCode : String → String → String) (k : String) (t : Transfer)
    (r : TransferRecord) :
    (updateAt hashCode k t r).txs =
      if k = hashCode t.from_ t.asset then pushTx r.txs t.to_ t.tx else r.txs := by
  unfold updateAt; split_ifs <;> rfl

theorem txsOf_stepAt (hashCode : String → String → String) (k : String)
    (o : Option TransferRecord) (t : Transfer) :
    txsOf (stepAt hashCode k o t) =
      if k = hashCode t.from_ t.asset then pushTx (txsOf o) t.to_ t.tx else txsOf o := by
  unfold stepAt createdAt
  cases o with
  | some r => simp only [Option.map_some', txsOf, updateAt_txs]
  | none =>
    dsimp only
    split_ifs with h1 h2
    · simp only [Option.map_some', txsOf, updateAt_txs, if_pos h1]
    · simp only [Option.map_some', txsOf, updateAt_txs, if_neg h1]
    · rfl

theorem provFor_single (hashCode : String → String → String) (k c : String) (t : Transfer) :
    provFor hashCode k c [t] =
      if k = hashCode t.from_ t.asset ∧ t.to_ = c then [t.tx] else [] := by
  unfold provFor
  by_cases h : k = hashCode t.from_ t.asset ∧ t.to_ = c <;> simp [List.filter_cons, h]

theorem stepAt_txs (hashCode : String → String → String) (k c : String)
    (o : Option TransferRecord) (t : Transfer) :
    (txsOf (stepAt hashCode k o t)).get? c =
      extend ((txsOf o).get? c) (provFor hashCode k c [t]) := by
  rw [txsOf_stepAt, provFor_single]
  by_cases h1 : k = hashCode t.from_ t.asset
  · rw [if_pos h1, get?_pushTx]
    by_cases h3 : c = t.to_
    · subst h3
      simp [h1, extend]
    · have h3' : ¬ t.to_ = c := fun e => h3 e.symm
      simp [h3, h3', extend]
  · simp [h1, extend]

theorem provFor_cons (hashCode : String → String → String) (k c : String) (t : Transfer)
    (ts : List Transfer) :
    provFor hashCode k c (t :: ts) = provFor hashCode k c [t] ++ provFor hashCode k c ts := by
  unfold provFor
  by_cases h : k = hashCode t.from_ t.asset ∧ t.to_ = c <;> simp [List.filter_cons, h]

theorem stepAt_fold_txs (hashCode : String → String → String) (k c : String)
    (ts : List Transfer) (o : Option TransferRecord) :
    (txsOf (ts.foldl (stepAt hashCode k) o)).get? c =
      extend ((txsOf o).get? c) (provFor hashCode k c ts) := by
  induction ts generalizing o with
  | nil => simp [extend, provFor]
  | cons t ts ih => rw [List.foldl_cons, ih, stepAt_txs, extend_extend, ← provFor_cons]

theorem inbound_perm (ts1 ts2 : List Transfer) (h : ts1.Perm ts2) (a s : String) :
    inbound ts1 a s = inbound ts2 a s :=
  ((h.filter _).map _).sum_eq

theorem outbound_perm (ts1 ts2 : List Transfer) (h : ts1.Perm ts2) (a s : String) :
    outbound ts1 a s = outbound ts2 a s :=
  ((h.filter _).map _).sum_eq

theorem provFor_perm (hashCode : String → String → String) (k c : String)
    (ts1 ts2 : List Transfer) (h : ts1.Perm ts2) :
    (provFor hashCode k c ts1).Perm (provFor hashCode k c ts2) :=
  (h.filter _).map _

theorem any_perm {α : Type} (p : α → Bool) (l1 l2 : List α) (h : l1.Perm l2) :
    l1.any p = l2.any p := by
  rw [Bool.eq_iff_iff, List.any_eq_true, List.any_eq_true]
  exact ⟨fun ⟨x, hx, hp⟩ => ⟨x, h.mem_iff.mp hx, hp⟩, fun ⟨x, hx, hp⟩ => ⟨x, h.mem_iff.mpr hx, hp⟩⟩

theorem extend_none_rel (l1 l2 : List TxRef) (h : l1.Perm l2) :
    Option.Rel List.Perm (extend none l1) (extend none l2) := by
  unfold extend
  by_cases h1 : l1 = []
  · subst h1
    have h2 : l2 = [] := (List.Perm.nil_eq h).symm
    subst h2
    exact Option.Rel.none
  · have h2 : l2 ≠ [] := fun e => h1 (List.Perm.eq_nil (e ▸ h))
    simp only [h1, h2, if_false, Option.getD_none, List.nil_append]
    exact Option.Rel.some h

theorem fold_sameRecord (hashCode : String → String → String) (hcf : CollisionFree hashCode)
    (bn : Int) (ts1 ts2 : List Transfer) (hperm : ts1.Perm ts2)
    (hbn : ∀ t ∈ ts1, t.blockNumber = bn) (k : String) :
    Option.Rel SameRecord (ts1.foldl (stepAt hashCode k) none)
      (ts2.foldl (stepAt hashCode k) none) := by
  have hsome := stepAt_fold_isSome hashCode k ts1 none
  have hsome2 := stepAt_fold_isSome hashCode k ts2 none
  rw [any_perm _ _ _ hperm] at hsome
  cases h1 : ts1.foldl (stepAt hashCode k) none with
  | none =>
    cases h2 : ts2.foldl (stepAt hashCode k) none with
    | none => exact Option.Rel.none
    | some r2 => rw [h1] at hsome; rw [h2, ← hsome] at hsome2; cases hsome2
  | some r1 =>
    cases h2 : ts2.foldl (stepAt hashCode k) none with
    | none => rw [h1] at hsome; rw [h2, ← hsome] at hsome2; cases hsome2
    | some r2 =>
      refine Option.Rel.some ?_
      -- the key names a pair
      have hpair : ∃ a s, k = hashCode a s := by
        rw [h1] at hsome
        have hany : ts2.any (touches hashCode k) = true := by simpa using hsome.symm
        obtain ⟨t, _, ht⟩ := List.any_eq_true.mp hany
        simp only [touches, Bool.or_eq_true, decide_eq_true_eq] at ht
        rcases ht with ht | ht
        · exact ⟨_, _, ht⟩
        · exact ⟨_, _, ht⟩
      obtain ⟨a, s, rfl⟩ := hpair
      have hn1 := stepAt_fold_namesPair hashCode hcf a s ts1 none (fun r hr => by cases hr) r1 h1
      have hn2 := stepAt_fold_namesPair hashCode hcf a s ts2 none (fun r hr => by cases hr) r2 h2
      have hv1 := stepAt_fold_value hashCode hcf a s ts1 none
      have hv2 := stepAt_fold_value hashCode hcf a s ts2 none
      rw [h1] at hv1
      rw [h2] at hv2
      have hb1 := stepAt_fold_hasBlock hashCode (hashCode a s) bn ts1 none hbn
        (fun r hr => by cases hr) r1 h1
      have hb2 := stepAt_fold_hasBlock hashCode (hashCode a s) bn ts2 none
        (fun t ht => hbn t (hperm.mem_iff.mpr ht)) (fun r hr => by cases hr) r2 h2
      refine ⟨hn1.2.trans hn2.2.symm, hn1.1.trans hn2.1.symm, ?_, hb1.trans hb2.symm, ?_⟩
      · simp only [valueOf] at hv1 hv2
        rw [hv1, hv2, inbound_perm _ _ hperm, outbound_perm _ _ hperm]
      · intro c
        have ht1 := stepAt_fold_txs hashCode (hashCode a s) c ts1 none
        have ht2 := stepAt_fold_txs hashCode (hashCode a s) c ts2 none
        rw [h1] at ht1
        rw [h2] at ht2
        simp only [txsOf] at ht1 ht2
        rw [ht1, ht2]
        exact extend_none_rel _ _ (provFor_perm hashCode _ c _ _ hperm)

/-- C9, as stated, fails: the two transactions `firstTx` and `secondTx` move
tokens from `0xC` to `0xX`; handled in either order they give the record of
`0xC` the same value, but its provenance under `0xX` lists the pairs in arrival
order, so the two ledgers differ.  With a hash that is not collision-free
(here a constant) even the address of a record depends on the order. -/
theorem c9_counterexample :
    ([firstTx, secondTx].flatMap TxEvent.events).Perm
        ([secondTx, firstTx].flatMap TxEvent.events) ∧
      (handleTransactions pairKey (State.init 50) [firstTx, secondTx]).transfersObj.get?
          (pairKey "0xC" "0xaa") =
        some ⟨"0xaa", "0xC", -3, 10, [("0xX", [⟨"0xh1", "0xs1"⟩, ⟨"0xh2", "0xs2"⟩])]⟩ ∧
      (handleTransactions pairKey (State.init 50) [secondTx, firstTx]).transfersObj.get?
          (pairKey "0xC" "0xaa") =
        some ⟨"0xaa", "0xC", -3, 10, [("0xX", [⟨"0xh2", "0xs2"⟩, ⟨"0xh1", "0xs1"⟩])]⟩ ∧
      (handleTransactions pairKey (State.init 50) [firstTx, secondTx]).transfersObj ≠
        (handleTransactions pairKey (State.init 50) [secondTx, firstTx]).transfersObj ∧
      ((handleTransactions (fun _ _ => "k") (State.init 50) [firstTx, thirdTx]).transfersObj.get?
          "k").map (fun r => r.address) = some "0xC" ∧
      ((handleTransactions (fun _ _ => "k") (State.init 50) [thirdTx, firstTx]).transfersObj.get?
          "k").map (fun r => r.address) = some "0xE" := by
  refine ⟨?_, by decide, by decide, by decide, by decide, by decide⟩
  exact List.Perm.swap _ _ _

/-- C9, amended: with a collision-free `hashCode`, for two sequences of
transactions of one block whose transfer events are permutations of one
another, handled from the same empty ledger, the two ledgers hold records
under the same keys, and the two records under a key have the same asset,
address, net value and block number, and provenance maps with the same
counterparties, each with the same (hash, txFrom) pairs up to their order. -/
theorem c9_order_independent (hashCode : String → String → String)
    (hcf : CollisionFree hashCode) (st : State) (hst : st.transfersObj = [])
    (txs1 txs2 : List TxEvent) (bn : Int) (hbn : ∀ tx ∈ txs1, tx.blockNumber = bn)
    (hwf : ∀ tx ∈ txs1, tx.WellFormed)
    (hperm : (txs1.flatMap TxEvent.events).Perm (txs2.flatMap TxEvent.events)) :
    SameLedger (handleTransactions hashCode st txs1).transfersObj
      (handleTransactions hashCode st txs2).transfersObj := by
  have hwf2 : ∀ tx ∈ txs2, tx.WellFormed := by
    intro tx htx
    rw [wellFormed_iff_events]
    intro ev hev
    have hmem : ev ∈ txs1.flatMap TxEvent.events :=
      hperm.mem_iff.mpr (List.mem_flatMap.mpr ⟨tx, htx, hev⟩)
    obtain ⟨tx1, htx1, hev1⟩ := List.mem_flatMap.mp hmem
    exact (wellFormed_iff_events tx1).mp (hwf tx1 htx1) ev hev1
  have hblocks : ∀ t ∈ txs1.flatMap TxEvent.recorded, t.blockNumber = bn := by
    intro t ht
    rw [recorded_flatMap] at ht
    obtain ⟨ev, hev, hrec⟩ := List.mem_filterMap.mp ht
    obtain ⟨tx, htx, hev'⟩ := List.mem_flatMap.mp hev
    rw [recorded?_blockNumber ev t hrec, events_blockNumber tx ev hev', hbn tx htx]
  have hp : (txs1.flatMap TxEvent.recorded).Perm (txs2.flatMap TxEvent.recorded) := by
    rw [recorded_flatMap, recorded_flatMap]
    exact hperm.filterMap _
  intro k
  rw [handleTransactions_transfersObj hashCode txs1 st hwf,
    handleTransactions_transfersObj hashCode txs2 st hwf2, get?_foldl_applyStep,
    get?_foldl_applyStep, hst]
  exact fold_sameRecord hashCode hcf bn _ _ hp hblocks k

/-- C9, amended, at the transactions `firstTx` and `secondTx` handled in
either order. -/
theorem c9_order_independent_witness :
    (State.init 50).transfersObj = [] ∧
      (∀ tx ∈ [firstTx, secondTx], tx.blockNumber = 10) ∧
      (∀ tx ∈ [firstTx, secondTx], tx.WellFormed) ∧
      ([firstTx, secondTx].flatMap TxEvent.events).Perm
        ([secondTx, firstTx].flatMap TxEvent.events) ∧
      SameLedger (handleTransactions pairKey (State.init 50) [firstTx, secondTx]).transfersObj
        (handleTransactions pairKey (State.init 50) [secondTx, firstTx]).transfersObj :=
  ⟨rfl, by decide, by decide, List.Perm.swap _ _ _,
    c9_order_independent pairKey pairKey_collisionFree (State.init 50) rfl
      [firstTx, secondTx] [secondTx, firstTx] 10 (by decide) (by decide)
      (List.Perm.swap _ _ _)⟩

/-! ### Recency in the LRU cache -/

namespace LRU

variable {V : Type}

theorem get?_append_of_not_mem (pre post : List (String × V)) (k : String)
    (h : ∀ e ∈ pre, e.1 ≠ k) : JsObj.get? (pre ++ post) k = JsObj.get? post k := by
  induction pre with
  | nil => rfl
  | cons e pre ih =>
    simp only [List.cons_append, JsObj.get?, h e (List.mem_cons_self e pre), if_false]
    exact ih (fun e' he' => h e' (List.mem_cons_of_mem e he'))

theorem Within.peek {c : LRU V} {k : String} {v : V} {n : Nat} (h : c.Within k v n) :
    c.peek k = some v := by
  obtain ⟨pre, post, he, hpre, _⟩ := h
  simp [LRU.peek, he, get?_append_of_not_mem pre _ k hpre, JsObj.get?]

theorem Within.mono {c : LRU V} {k : String} {v : V} {n m : Nat} (h : c.Within k v n)
    (hnm : n ≤ m) : c.Within k v m := by
  obtain ⟨pre, post, he, hpre, hlen⟩ := h
  exact ⟨pre, post, he, hpre, le_trans hlen hnm⟩

theorem set_max (c : LRU V) (k : String) (v : V) : (c.set k v).max = c.max := rfl

theorem within_set_self (c : LRU V) (k : String) (v : V) (hmax : 1 ≤ c.max) :
    (c.set k v).Within k v 0 := by
  obtain ⟨m, hm⟩ : ∃ m, c.max = m + 1 := ⟨c.max - 1, by omega⟩
  refine ⟨[], (c.entries.filter (fun e => decide (e.1 ≠ k))).take m, ?_, ?_, le_refl _⟩
  · simp [LRU.set, hm, List.take_succ_cons]
  · intro e he; cases he

theorem within_set_other (c : LRU V) (k k' : String) (v v' : V) (n : Nat)
    (h : c.Within k v n) (hk : k' ≠ k) (hn : n + 1 < c.max) :
    (c.set k' v').Within k v (n + 1) := by
  obtain ⟨pre, post, he, hpre, hlen⟩ := h
  have hlen' : (pre.filter (fun e => decide (e.1 ≠ k'))).length ≤ n :=
    le_trans (List.length_filter_le _ _) hlen
  obtain ⟨m, hm⟩ : ∃ m, c.max - ((pre.filter (fun e => decide (e.1 ≠ k'))).length + 1) = m + 1 :=
    ⟨c.max - ((pre.filter (fun e => decide (e.1 ≠ k'))).length + 1) - 1, by omega⟩
  refine ⟨(k', v') :: pre.filter (fun e => decide (e.1 ≠ k')),
    (post.filter (fun e => decide (e.1 ≠ k'))).take m, ?_, ?_, ?_⟩
  · have hkeep : decide ((k, v).1 ≠ k') = true := by
      simp only [decide_eq_true_eq]; exact fun e => hk e.symm
    simp only [LRU.set, he, List.filter_append]
    rw [← List.cons_append, List.take_append_eq_append_take,
      List.take_of_length_le (by simp only [List.length_cons]; omega)]
    have hf : List.filter (fun e => decide (e.1 ≠ k')) ((k, v) :: post) =
        (k, v) :: List.filter (fun e => decide (e.1 ≠ k')) post :=
      List.filter_cons_of_pos hkeep
    simp only [List.length_cons, hm, hf, List.take_succ_cons]
  · intro e he'
    rcases List.mem_cons.mp he' with rfl | he''
    · exact hk
    · exact hpre e (List.mem_filter.mp he'').1
  · simp only [List.length_cons]; omega

end LRU

theorem markIgnored_max (c : LRU AddressType) (l : List String) :
    (markIgnored c l).max = c.max := by
  induction l generalizing c with
  | nil => rfl
  | cons a l ih => simp only [markIgnored, List.foldl_cons] at ih ⊢; rw [ih]; rfl

theorem markIgnored_within (c : LRU AddressType) (l : List String) (a : String) (n : Nat)
    (h : c.Within a AddressType.Ignored n) (hn : n + l.length < c.max) :
    (markIgnored c l).Within a AddressType.Ignored (n + l.length) := by
  induction l generalizing c n with
  | nil => simpa [markIgnored] using h
  | cons x l ih =>
    simp only [markIgnored, List.foldl_cons, List.length_cons] at ih hn ⊢
    by_cases hx : x = a
    · subst hx
      have h0 := LRU.within_set_self c x AddressType.Ignored (by omega)
      have := ih (c.set x AddressType.Ignored) 0 h0 (by rw [LRU.set_max]; omega)
      exact this.mono (by omega)
    · have h1 := LRU.within_set_other c a x AddressType.Ignored AddressType.Ignored n h hx
        (by omega)
      have := ih (c.set x AddressType.Ignored) (n + 1) h1 (by rw [LRU.set_max]; omega)
      exact this.mono (by omega)

theorem markIgnored_peek (c : LRU AddressType) (l : List String) (a : String) (ha : a ∈ l)
    (hlen : l.length ≤ c.max) : (markIgnored c l).peek a = some AddressType.Ignored := by
  induction l generalizing c with
  | nil => cases ha
  | cons x l ih =>
    simp only [List.length_cons] at hlen
    by_cases hx : x = a
    · subst hx
      have h0 := LRU.within_set_self c x AddressType.Ignored (by omega)
      have := markIgnored_within (c.set x AddressType.Ignored) l x 0 h0
        (by rw [LRU.set_max]; omega)
      simpa [markIgnored] using this.peek
    · have ha' : a ∈ l := by
        rcases List.mem_cons.mp ha with e | e
        · exact absurd e.symm hx
        · exact e
      have := ih (c.set x AddressType.Ignored) ha' (by rw [LRU.set_max]; omega)
      simpa [markIgnored] using this

/-! ### C6: the Ignored flag -/

namespace LRU

variable {V : Type}

theorem get_max (c : LRU V) (k : String) : (c.get k).2.max = c.max := by
  unfold get
  cases c.peek k <;> rfl

theorem readAll_max (c : LRU V) (ks : List String) : (c.readAll ks).2.max = c.max := by
  induction ks generalizing c with
  | nil => rfl
  | cons k ks ih => simp only [readAll, ih, get_max]

theorem fillAll_max (resolve : String → V) (c : LRU V) (l : List (String × Option V)) :
    (fillAll resolve c l).2.max = c.max := by
  induction l generalizing c with
  | nil => rfl
  | cons p l ih =>
    obtain ⟨k, o⟩ := p
    cases o <;> simp only [fillAll, ih, set_max]

theorem memoAll_max (resolve : String → V) (c : LRU V) (ks : List String) :
    (memoAll resolve c ks).2.max = c.max := by
  simp only [memoAll, fillAll_max, readAll_max]

end LRU

theorem handleBlock_ok_state (env : Env) (st : State) (blockEvent : BlockEvent)
    (fs : List Finding) (h : (handleBlock env st blockEvent).result = .ok fs)
    (hne : candidates st.transfersObj ≠ []) :
    (handleBlock env st blockEvent).state =
      { afterHelpers env st blockEvent with
        cachedAddresses := markIgnored (afterHelpers env st blockEvent).cachedAddresses
          ((ignoredOf env st blockEvent).map (fun r => r.address))
        transfersObj := [] } := by
  by_cases hall : ∀ r ∈ candidates st.transfersObj,
      (currentBalance env blockEvent r).isSome = true
  · rw [handleBlock_stages env st blockEvent hne hall] at h ⊢
    cases hok : allOk ((contractsOf env st blockEvent).map
        (balance10MinsAgo env (block10MinsAgo st blockEvent))) with
    | error e => rw [hok] at h; cases h
    | ok olds => rfl
  · have hex : ∃ r ∈ candidates st.transfersObj, currentBalance env blockEvent r = none := by
      by_contra hcon
      apply hall
      intro r hr
      cases hc : currentBalance env blockEvent r with
      | none => exact absurd ⟨r, hr, hc⟩ hcon
      | some v => rfl
    rw [handleBlock_batch_failed env st blockEvent hex] at h
    cases h

theorem historicalBalance_congr (env : Env) (b : Int) (r r' : TransferRecord)
    (ha : r'.address = r.address) (hs : r'.asset = r.asset) :
    historicalBalance env b r' = historicalBalance env b r := by
  simp [historicalBalance, ha, hs]

theorem lookbackValue_of_historical (env : Env) (b : Int) (r : TransferRecord) (v : BigNumber)
    (h : historicalBalance env b r = some v) : lookbackValue env b r = v := by
  have h2 := (balance10MinsAgo_of_some env b r (by rw [h]; rfl)).2
  rw [h] at h2
  exact (Option.some.inj h2).symm

/-- C6, amended: if a candidate that is drained and classified Contract had
balance zero at block `blockNumber - blocksIn10Minutes`, the findings that
`handleBlock` returns contain none for it and, when the ledger holds no more
records than the address cache has room for, its address is cached as Ignored
when the call returns.  The cache is keyed by the address as the record spells
it: a `handleBlock` call that starts with that spelling cached as Ignored
returns no finding whose contract is spelled so, for any asset; hence, when
every ledger record of the same address carries it in that spelling, no finding
for the address in any spelling. -/
theorem c6_ignored_suppresses (env : Env) (st : State) (blockEvent : BlockEvent)
    (r : TransferRecord) (hr : r ∈ st.transfersObj.values) (hneg : r.value < 0)
    (hnz : r.address ≠ AddressZero) (hcur : currentBalance env blockEvent r = some 0)
    (hcon : (getAddressType env st.cachedAddresses r.address).1 = AddressType.Contract)
    (hzero : historicalBalance env (block10MinsAgo st blockEvent) r = some 0)
    (fs : List Finding) (hres : (handleBlock env st blockEvent).result = .ok fs) :
    (∀ f ∈ fs, ¬ f.isFor r) ∧
      (st.transfersObj.length ≤ st.cachedAddresses.max →
        (handleBlock env st blockEvent).state.cachedAddresses.peek r.address
          = some AddressType.Ignored) ∧
      ∀ (env' : Env) (st' : State) (blockEvent' : BlockEvent) (fs' : List Finding),
        st'.cachedAddresses.peek r.address = some AddressType.Ignored →
        (handleBlock env' st' blockEvent').result = .ok fs' →
        (∀ f ∈ fs', f.metadata.contract ≠ r.address) ∧
          ((∀ r' ∈ st'.transfersObj.values,
              SameAddress r'.address r.address → r'.address = r.address) →
            ∀ f ∈ fs', ¬ SameAddress f.metadata.contract r.address) := by
  have hcand : r ∈ candidates st.transfersObj := (mem_candidates _ _).mpr ⟨hr, hneg, hnz⟩
  have hcontract : r ∈ contractsOf env st blockEvent := by
    simp only [contractsOf, drainedOf, List.mem_filter, decide_eq_true_eq]
    exact ⟨⟨hcand, hcur⟩, hcon⟩
  refine ⟨?_, ?_, ?_⟩
  · intro f hf hfor
    obtain ⟨r', hr', h1, h2⟩ := mem_findings env st blockEvent fs hres f hf
    have hz' : historicalBalance env (block10MinsAgo st blockEvent) r' = some 0 := by
      rw [historicalBalance_congr env _ r r' (h1.symm.trans hfor.1) (h2.symm.trans hfor.2)]
      exact hzero
    have hl := lookbackValue_of_historical env _ r' 0 hz'
    have hsurv := (List.mem_filter.mp hr').2
    simp [hl, ZERO] at hsurv
  · intro hcap
    have hne : candidates st.transfersObj ≠ [] := List.ne_nil_of_mem hcand
    rw [handleBlock_ok_state env st blockEvent fs hres hne]
    have hign : r ∈ ignoredOf env st blockEvent := by
      simp only [ignoredOf, List.mem_filter]
      refine ⟨hcontract, ?_⟩
      simp [lookbackValue_of_historical env _ r 0 hzero, ZERO]
    apply markIgnored_peek _ _ _ (List.mem_map.mpr ⟨r, hign, rfl⟩)
    have h1 : ((ignoredOf env st blockEvent).map (fun r => r.address)).length
        ≤ st.transfersObj.length := by
      simp only [List.length_map, ignoredOf, contractsOf, drainedOf, candidates]
      refine le_trans (List.length_filter_le _ _) (le_trans (List.length_filter_le _ _)
        (le_trans (List.length_filter_le _ _) (le_trans (List.length_filter_le _ _)
          (le_trans (List.length_filter_le _ _) ?_))))
      simp [JsObj.values]
    have h2 : (afterHelpers env st blockEvent).cachedAddresses.max = st.cachedAddresses.max := by
      simp only [afterHelpers, getAddressTypes, LRU.memoAll_max]
    rw [h2]
    exact le_trans h1 hcap
  · intro env' st' blockEvent' fs' hpeek hres'
    have hstr : ∀ f ∈ fs', f.metadata.contract ≠ r.address := by
      intro f hf hfa
      obtain ⟨r', hr', h1, _⟩ := mem_findings env' st' blockEvent' fs' hres' f hf
      have hc : (getAddressType env' st'.cachedAddresses r'.address).1
          = AddressType.Contract := by
        simpa using (List.mem_filter.mp (List.mem_filter.mp hr').1).2
      rw [getAddressType_fst, ← h1, hfa, hpeek] at hc
      cases hc
    refine ⟨hstr, ?_⟩
    intro hspell f hf hsame
    obtain ⟨r', hr', h1, _⟩ := mem_findings env' st' blockEvent' fs' hres' f hf
    have hval : r' ∈ st'.transfersObj.values :=
      ((mem_candidates _ _).mp
        (List.mem_filter.mp (List.mem_filter.mp (List.mem_filter.mp hr').1).1).1).1
    exact hstr f hf (h1.trans (hspell r' hval (h1 ▸ hsame)))

/-- C6, amended, at the router `0xR`, whose balance is zero now and was zero
ten minutes ago: the first resolution returns nothing and flags `0xR`, and the
next one, on a chain where `0xR` held 100 units ten minutes earlier, returns
nothing for `0xR` either. -/
theorem c6_ignored_suppresses_witness :
    (handleBlock alwaysEmptyEnv (handleTransaction pairKey (State.init 50) routerTx).1
        ⟨11⟩).state.cachedAddresses.peek "0xR" = some AddressType.Ignored ∧
      (handleBlock drainedEnv
        (handleTransaction pairKey
          (handleBlock alwaysEmptyEnv (handleTransaction pairKey (State.init 50) routerTx).1
            ⟨11⟩).state routerTx).1 ⟨12⟩).result = .ok [] ∧
      ∀ f ∈ ([] : List Finding), f.metadata.contract ≠ "0xR" :=
  have h := c6_ignored_suppresses alwaysEmptyEnv
    (handleTransaction pairKey (State.init 50) routerTx).1 ⟨11⟩ routerRecord
    (by decide) (by decide) (by decide) (by decide) (by decide) (by decide) [] rfl
  ⟨h.2.1 (by decide), rfl,
    (h.2.2 drainedEnv
      (handleTransaction pairKey
        (handleBlock alwaysEmptyEnv (handleTransaction pairKey (State.init 50) routerTx).1
          ⟨11⟩).state routerTx).1 ⟨12⟩ [] rfl rfl).1⟩

/-! ### Transfers between fresh addresses -/

namespace JsObj

variable {V : Type}

theorem get?_eq_none_of_forall_ne (o : JsObj V) (k : String) (h : ∀ e ∈ o, e.1 ≠ k) :
    o.get? k = none := by
  induction o with
  | nil => rfl
  | cons e o ih =>
    simp only [get?, h e (List.mem_cons_self e o), if_false]
    exact ih (fun e' he' => h e' (List.mem_cons_of_mem e he'))

theorem insertNew_of_not_index (o : JsObj V) (k : String) (v : V) (h : arrayIndex? k = none) :
    o.insertNew k v = o ++ [(k, v)] := by
  induction o with
  | nil => rfl
  | cons e o ih =>
    obtain ⟨k', v'⟩ := e
    simp only [insertNew, precedes, h, Bool.false_eq_true, if_false, ih, List.cons_append]

theorem set_fresh (o : JsObj V) (k : String) (v : V) (h : ∀ e ∈ o, e.1 ≠ k)
    (hi : arrayIndex? k = none) : o.set k v = o ++ [(k, v)] := by
  unfold set
  rw [get?_eq_none_of_forall_ne o k h]
  exact insertNew_of_not_index o k v hi

theorem modify_of_forall_ne (o : JsObj V) (k : String) (f : V → V) (h : ∀ e ∈ o, e.1 ≠ k) :
    o.modify k f = o := by
  unfold modify
  conv_rhs => rw [← List.map_id o]
  apply List.map_congr_left
  intro e he
  simp [h e he]

theorem modify_append (o o' : JsObj V) (k : String) (f : V → V) :
    (o ++ o').modify k f = o.modify k f ++ o'.modify k f := by
  simp [modify]

end JsObj

theorem applyStep_fresh (hashCode : String → String → String) (l : Ledger) (t : Transfer)
    (hF : ∀ e ∈ l, e.1 ≠ hashCode t.from_ t.asset) (hT : ∀ e ∈ l, e.1 ≠ hashCode t.to_ t.asset)
    (hne : hashCode t.from_ t.asset ≠ hashCode t.to_ t.asset)
    (hiF : arrayIndex? (hashCode t.from_ t.asset) = none)
    (hiT : arrayIndex? (hashCode t.to_ t.asset) = none) :
    applyStep hashCode l t =
      l ++ [(hashCode t.from_ t.asset,
              ⟨t.asset, t.from_, ZERO - t.value, t.blockNumber, [(t.to_, [t.tx])]⟩),
            (hashCode t.to_ t.asset, ⟨t.asset, t.to_, ZERO + t.value, t.blockNumber, []⟩)] := by
  have h1 : touch l (hashCode t.from_ t.asset) t.asset t.from_ t.blockNumber =
      l ++ [(hashCode t.from_ t.asset, ⟨t.asset, t.from_, ZERO, t.blockNumber, []⟩)] := by
    unfold touch
    rw [JsObj.get?_eq_none_of_forall_ne l _ hF]
    exact JsObj.set_fresh l _ _ hF hiF
  have hT' : ∀ e ∈ l ++ [(hashCode t.from_ t.asset,
      (⟨t.asset, t.from_, ZERO, t.blockNumber, []⟩ : TransferRecord))],
      e.1 ≠ hashCode t.to_ t.asset := by
    intro e he
    rcases List.mem_append.mp he with he | he
    · exact hT e he
    · simp only [List.mem_singleton] at he
      subst he
      exact hne
  have h2 : touch (l ++ [(hashCode t.from_ t.asset,
      (⟨t.asset, t.from_, ZERO, t.blockNumber, []⟩ : TransferRecord))])
      (hashCode t.to_ t.asset) t.asset t.to_ t.blockNumber =
      (l ++ [(hashCode t.from_ t.asset, ⟨t.asset, t.from_, ZERO, t.blockNumber, []⟩)]) ++
        [(hashCode t.to_ t.asset, ⟨t.asset, t.to_, ZERO, t.blockNumber, []⟩)] := by
    unfold touch
    rw [JsObj.get?_eq_none_of_forall_ne _ _ hT']
    exact JsObj.set_fresh _ _ _ hT' hiT
  have hne' : ¬ hashCode t.to_ t.asset = hashCode t.from_ t.asset := fun e => hne e.symm
  simp only [applyStep, h1, h2, applyTransfer, JsObj.modify_append,
    JsObj.modify_of_forall_ne l _ _ hF, JsObj.modify_of_forall_ne l _ _ hT]
  simp [JsObj.modify, hne, hne', pushTx, JsObj.get?, JsObj.set, JsObj.insertNew]

theorem arrayIndex?_pairKey (a s : String) : arrayIndex? (pairKey a s) = none := by
  unfold arrayIndex? pairKey
  cases h : a.length with
  | zero => simp [decimalValue]
  | succ n => simp [List.replicate_succ, decimalValue]

theorem fillerSender_injective : Function.Injective fillerSender := by
  intro i j h
  have h1 := congrArg String.data h
  simp only [fillerSender, List.cons.injEq, true_and] at h1
  have h2 := congrArg List.length h1
  simpa using h2

theorem fillerRecipient_injective : Function.Injective fillerRecipient := by
  intro i j h
  have h1 := congrArg String.data h
  simp only [fillerRecipient, List.cons.injEq, true_and] at h1
  have h2 := congrArg List.length h1
  simpa using h2

theorem fillerSender_ne_recipient (i j : Nat) : fillerSender i ≠ fillerRecipient j := by
  intro h
  have h1 := congrArg String.data h
  simp only [fillerSender, fillerRecipient, List.cons.injEq] at h1
  exact absurd h1.1 (by decide)

theorem fillerSender_ne_router (i : Nat) : fillerSender i ≠ "0xR" := by
  intro h
  have h1 := congrArg String.data h
  simp only [fillerSender] at h1
  have h2 := congrArg List.head? h1
  simp at h2

theorem fillerSender_ne_zero (i : Nat) : fillerSender i ≠ AddressZero := by
  intro h
  have h1 := congrArg String.data h
  simp only [fillerSender] at h1
  have h2 := congrArg List.head? h1
  simp only [List.head?_cons] at h2
  exact absurd h2 (by decide)

theorem fillerSender_not_self_emitted (i : Nat) :
    ("0xaa" != toLowerCase (fillerSender i)) = true := by
  simp only [bne_iff_ne, ne_eq]
  intro h
  have h1 := congrArg String.data h
  simp only [toLowerCase, fillerSender, List.map_cons] at h1
  have h2 := congrArg List.head? h1
  simp only [List.head?_cons] at h2
  exact absurd h2 (by decide)

theorem mem_fillerLedger (n : Nat) (e : String × TransferRecord) (he : e ∈ fillerLedger n) :
    ∃ i, i < n ∧ (e.1 = pairKey (fillerSender i) "0xaa" ∨
      e.1 = pairKey (fillerRecipient i) "0xaa") := by
  simp only [fillerLedger, List.mem_flatMap, List.mem_range, fillerEntries, List.mem_cons,
    List.mem_singleton, List.not_mem_nil, or_false] at he
  obtain ⟨i, hi, h | h⟩ := he
  · exact ⟨i, hi, Or.inl (by rw [h])⟩
  · exact ⟨i, hi, Or.inr (by rw [h])⟩

theorem foldl_fillerStep (n : Nat) :
    ((List.range n).map fillerStep).foldl (applyStep pairKey) [] = fillerLedger n := by
  induction n with
  | zero => rfl
  | succ n ih =>
    rw [List.range_succ, List.map_append, List.foldl_append, ih]
    simp only [List.map_cons, List.map_nil, List.foldl_cons, List.foldl_nil]
    have hF : ∀ e ∈ fillerLedger n, e.1 ≠ pairKey (fillerStep n).from_ (fillerStep n).asset := by
      intro e he heq
      obtain ⟨i, hi, h | h⟩ := mem_fillerLedger n e he
      · have := (pairKey_collisionFree _ _ _ _ (h.symm.trans heq)).1
        have := fillerSender_injective this
        omega
      · have := (pairKey_collisionFree _ _ _ _ (h.symm.trans heq)).1
        exact fillerSender_ne_recipient n i this.symm
    have hT : ∀ e ∈ fillerLedger n, e.1 ≠ pairKey (fillerStep n).to_ (fillerStep n).asset := by
      intro e he heq
      obtain ⟨i, hi, h | h⟩ := mem_fillerLedger n e he
      · have := (pairKey_collisionFree _ _ _ _ (h.symm.trans heq)).1
        exact fillerSender_ne_recipient i n this
      · have := (pairKey_collisionFree _ _ _ _ (h.symm.trans heq)).1
        have := fillerRecipient_injective this
        omega
    have hne : pairKey (fillerStep n).from_ (fillerStep n).asset ≠
        pairKey (fillerStep n).to_ (fillerStep n).asset := by
      intro heq
      exact fillerSender_ne_recipient n n (pairKey_collisionFree _ _ _ _ heq).1
    rw [applyStep_fresh pairKey (fillerLedger n) (fillerStep n) hF hT hne
      (arrayIndex?_pairKey _ _) (arrayIndex?_pairKey _ _)]
    simp only [fillerLedger, List.range_succ, List.flatMap_append, List.flatMap_cons,
      List.flatMap_nil, List.append_nil]
    rfl

theorem fillerTx_recorded (n : Nat) : (fillerTx n).recorded = (List.range n).map fillerStep := by
  unfold TxEvent.recorded fillerTx
  simp only [List.filterMap_nil, List.append_nil]
  rw [List.filter_eq_self.mpr, List.filter_eq_self.mpr, List.map_map]
  · rfl
  · intro e he
    obtain ⟨i, _, rfl⟩ := List.mem_map.mp he
    exact fillerSender_not_self_emitted i
  · intro e he
    obtain ⟨i, _, rfl⟩ := List.mem_map.mp (List.mem_filter.mp he).1
    exact fillerSender_not_self_emitted i

theorem candidates_fillerLedger (n : Nat) :
    candidates (fillerLedger n) = (List.range n).map fillerSenderRecord := by
  induction n with
  | zero => rfl
  | succ n ih =>
    simp only [candidates, JsObj.values, fillerLedger, List.range_succ, List.flatMap_append,
      List.map_append, List.filter_append] at ih ⊢
    rw [ih]
    simp [fillerEntries, List.filter_cons, fillerSenderRecord, ZERO, fillerSender_ne_zero n]

/-! ### Eviction from the address cache -/

namespace LRU

variable {V : Type}

theorem readAll_of_miss (c : LRU V) (ks : List String) (h : ∀ k ∈ ks, c.peek k = none) :
    c.readAll ks = (ks.map (fun _ => none), c) := by
  induction ks with
  | nil => rfl
  | cons k ks ih =>
    have hk : c.get k = (none, c) := by
      unfold get
      rw [h k (List.mem_cons_self k ks)]
    simp only [readAll, hk, ih (fun k' hk' => h k' (List.mem_cons_of_mem k hk')), List.map_cons]

theorem fillAll_of_miss (resolve : String → V) (c : LRU V) (ks : List String) :
    (fillAll resolve c (ks.zip (ks.map (fun _ => none)))).2 =
      ks.foldl (fun c k => c.set k (resolve k)) c := by
  induction ks generalizing c with
  | nil => rfl
  | cons k ks ih =>
    simp only [List.map_cons, List.zip_cons_cons, fillAll, List.foldl_cons]
    exact ih (c.set k (resolve k))

theorem memoAll_of_miss (resolve : String → V) (c : LRU V) (ks : List String)
    (h : ∀ k ∈ ks, c.peek k = none) :
    (memoAll resolve c ks).2 = ks.foldl (fun c k => c.set k (resolve k)) c := by
  simp only [memoAll, readAll_of_miss c ks h, fillAll_of_miss]

theorem take_append_take {α : Type} (A B : List α) (m : Nat) :
    (A ++ B.take m).take m = (A ++ B).take m := by
  rw [List.take_append_eq_append_take, List.take_append_eq_append_take, List.take_take]
  congr 2
  omega

theorem foldl_set_max (resolve : String → V) (c : LRU V) (ks : List String) :
    (ks.foldl (fun c k => c.set k (resolve k)) c).max = c.max := by
  induction ks generalizing c with
  | nil => rfl
  | cons k ks ih => simp only [List.foldl_cons, ih, set_max]

theorem foldl_set_entries (resolve : String → V) (c : LRU V) (ks : List String)
    (hnd : ks.Nodup) (hfresh : ∀ k ∈ ks, ∀ e ∈ c.entries, e.1 ≠ k)
    (hlen : c.entries.length ≤ c.max) :
    (ks.foldl (fun c k => c.set k (resolve k)) c).entries =
      ((ks.reverse.map (fun k => (k, resolve k))) ++ c.entries).take c.max := by
  induction ks generalizing c with
  | nil => simp [List.take_of_length_le hlen]
  | cons k ks ih =>
    have hfilter : c.entries.filter (fun e => decide (e.1 ≠ k)) = c.entries := by
      apply List.filter_eq_self.mpr
      intro e he
      simpa using hfresh k (List.mem_cons_self k ks) e he
    have hset : (c.set k (resolve k)).entries = ((k, resolve k) :: c.entries).take c.max := by
      simp only [LRU.set, hfilter]
    have hnd' := (List.nodup_cons.mp hnd)
    have hfresh' : ∀ k' ∈ ks, ∀ e ∈ (c.set k (resolve k)).entries, e.1 ≠ k' := by
      intro k' hk' e he
      rw [hset] at he
      rcases List.mem_cons.mp (List.mem_of_mem_take he) with rfl | he'
      · intro e2
        have e3 : k = k' := e2
        exact hnd'.1 (e3 ▸ hk')
      · exact hfresh k' (List.mem_cons_of_mem k hk') e he'
    have hlen' : (c.set k (resolve k)).entries.length ≤ (c.set k (resolve k)).max := by
      rw [hset, set_max, List.length_take]
      exact Nat.min_le_left _ _
    rw [List.foldl_cons, ih (c.set k (resolve k)) hnd'.2 hfresh' hlen', set_max, hset,
      take_append_take]
    simp [List.reverse_cons, List.map_append]

theorem foldl_set_evicts (resolve : String → V) (c : LRU V) (ks : List String) (k0 : String)
    (hnd : ks.Nodup) (hfresh : ∀ k ∈ ks, ∀ e ∈ c.entries, e.1 ≠ k)
    (hlen : c.entries.length ≤ c.max) (hfull : c.max ≤ ks.length) (hk0 : k0 ∉ ks) :
    (ks.foldl (fun c k => c.set k (resolve k)) c).peek k0 = none := by
  unfold peek
  rw [foldl_set_entries resolve c ks hnd hfresh hlen,
    List.take_append_of_le_length (by simpa using hfull)]
  apply JsObj.get?_eq_none_of_forall_ne
  intro e he heq
  have he' := List.mem_of_mem_take he
  simp only [List.mem_map, List.mem_reverse] at he'
  obtain ⟨k, hk, rfl⟩ := he'
  exact hk0 (heq ▸ hk)

end LRU

theorem afterFirstBlock_eq :
    afterFirstBlock =
      { blocksIn10Minutes := 50
        transfersObj := []
        cachedAddresses := ⟨100000, [("0xR", AddressType.Ignored)]⟩
        cachedAssetSymbols := ⟨100000, [("0xaa", "TKN")]⟩ } := rfl

theorem afterFirstBlock_cachedAddresses :
    afterFirstBlock.cachedAddresses = ⟨100000, [("0xR", AddressType.Ignored)]⟩ := rfl

theorem peek_afterFirstBlock (k : String) :
    afterFirstBlock.cachedAddresses.peek k =
      if "0xR" = k then some AddressType.Ignored else none := by
  rw [afterFirstBlock_cachedAddresses]
  rfl

theorem fillerState_eq (n : Nat) :
    (handleTransaction pairKey afterFirstBlock (fillerTx n)).1 =
      { afterFirstBlock with transfersObj := fillerLedger n } := by
  have hwf : (fillerTx n).WellFormed := by
    intro a ha
    cases ha
  rw [handleTransaction_eq pairKey afterFirstBlock (fillerTx n) hwf, fillerTx_recorded]
  have : afterFirstBlock.transfersObj = [] := rfl
  rw [this, foldl_fillerStep]

theorem fillerBlock_contractsOf (n : Nat) :
    contractsOf noCodeEnv { afterFirstBlock with transfersObj := fillerLedger n } ⟨12⟩ = [] := by
  unfold contractsOf
  apply List.filter_eq_nil_iff.mpr
  intro r _
  simp only [decide_eq_true_eq, getAddressType_fst]
  have hcode : codeType noCodeEnv r.address = AddressType.ExternalAccount := rfl
  cases hp : LRU.peek afterFirstBlock.cachedAddresses r.address with
  | none =>
    rw [hcode]
    intro h; cases h
  | some v =>
    have hv : v = AddressType.Ignored := by
      rw [peek_afterFirstBlock] at hp
      split_ifs at hp
      exact (Option.some.inj hp).symm
    subst hv
    intro h; cases h

theorem fillerBlock_drainedOf (n : Nat) :
    drainedOf noCodeEnv { afterFirstBlock with transfersObj := fillerLedger n } ⟨12⟩ =
      (List.range n).map fillerSenderRecord := by
  unfold drainedOf
  rw [List.filter_eq_self.mpr (fun r _ => by simp [currentBalance, noCodeEnv, drainedEnv])]
  exact candidates_fillerLedger n

theorem fillerBlock_run (n : Nat) (hfull : 100000 ≤ n) :
    (handleBlock noCodeEnv { afterFirstBlock with transfersObj := fillerLedger n }
        ⟨12⟩).result = .ok [] ∧
      (handleBlock noCodeEnv { afterFirstBlock with transfersObj := fillerLedger n }
        ⟨12⟩).state.transfersObj = [] ∧
      (handleBlock noCodeEnv { afterFirstBlock with transfersObj := fillerLedger n }
        ⟨12⟩).state.cachedAssetSymbols = afterFirstBlock.cachedAssetSymbols ∧
      (handleBlock noCodeEnv { afterFirstBlock with transfersObj := fillerLedger n }
        ⟨12⟩).state.blocksIn10Minutes = 50 ∧
      (handleBlock noCodeEnv { afterFirstBlock with transfersObj := fillerLedger n }
        ⟨12⟩).state.cachedAddresses.peek "0xR" = none := by
  have hcand : candidates
      ({ afterFirstBlock with transfersObj := fillerLedger n } : State).transfersObj =
      (List.range n).map fillerSenderRecord := candidates_fillerLedger n
  have hne : candidates
      ({ afterFirstBlock with transfersObj := fillerLedger n } : State).transfersObj ≠ [] := by
    rw [hcand]
    intro h
    have := congrArg List.length h
    simp at this
    omega
  have hall : ∀ r ∈ candidates
      ({ afterFirstBlock with transfersObj := fillerLedger n } : State).transfersObj,
      (currentBalance noCodeEnv ⟨12⟩ r).isSome = true := fun _ _ => rfl
  have hrun := handleBlock_stages noCodeEnv _ ⟨12⟩ hne hall
  rw [fillerBlock_contractsOf n] at hrun
  simp only [List.map_nil, allOk] at hrun
  have hign : ignoredOf noCodeEnv { afterFirstBlock with transfersObj := fillerLedger n }
      ⟨12⟩ = [] := by
    unfold ignoredOf
    rw [fillerBlock_contractsOf n]
    rfl
  have hsurv : survivorsOf noCodeEnv { afterFirstBlock with transfersObj := fillerLedger n }
      ⟨12⟩ = [] := by
    unfold survivorsOf
    rw [fillerBlock_contractsOf n]
    rfl
  rw [hrun, hign, hsurv]
  refine ⟨rfl, rfl, ?_, rfl, ?_⟩
  · simp only [afterHelpers, fillerBlock_contractsOf n]
    rfl
  · simp only [List.map_nil, markIgnored, List.foldl_nil, afterHelpers, fillerBlock_drainedOf n,
      getAddressTypes, List.map_map]
    have hks : ((List.range n).map ((fun e => e.address) ∘ fillerSenderRecord)) =
        (List.range n).map fillerSender := rfl
    rw [hks]
    have hmiss : ∀ k ∈ (List.range n).map fillerSender,
        LRU.peek afterFirstBlock.cachedAddresses k = none := by
      intro k hk
      obtain ⟨i, _, rfl⟩ := List.mem_map.mp hk
      have hne' : ¬ "0xR" = fillerSender i := fun e => fillerSender_ne_router i e.symm
      rw [peek_afterFirstBlock, if_neg hne']
    rw [LRU.memoAll_of_miss _ _ _ hmiss]
    apply LRU.foldl_set_evicts
    · exact (List.nodup_range n).map fillerSender_injective
    · intro k hk e he
      obtain ⟨i, _, rfl⟩ := List.mem_map.mp hk
      rw [afterFirstBlock_cachedAddresses] at he
      simp only [List.mem_singleton] at he
      subst he
      exact fun e => fillerSender_ne_router i e.symm
    · rw [afterFirstBlock_cachedAddresses]
      simp
    · rw [afterFirstBlock_cachedAddresses]
      simpa using hfull
    · intro hk
      obtain ⟨i, _, h⟩ := List.mem_map.mp hk
      exact fillerSender_ne_router i h

theorem secondBlock_facts :
    (handleBlock noCodeEnv (handleTransaction pairKey afterFirstBlock (fillerTx 100000)).1
        ⟨12⟩).result = .ok [] ∧
      (handleBlock noCodeEnv (handleTransaction pairKey afterFirstBlock (fillerTx 100000)).1
        ⟨12⟩).state.transfersObj = [] ∧
      (handleBlock noCodeEnv (handleTransaction pairKey afterFirstBlock (fillerTx 100000)).1
        ⟨12⟩).state.cachedAssetSymbols = afterFirstBlock.cachedAssetSymbols ∧
      (handleBlock noCodeEnv (handleTransaction pairKey afterFirstBlock (fillerTx 100000)).1
        ⟨12⟩).state.blocksIn10Minutes = 50 ∧
      (handleBlock noCodeEnv (handleTransaction pairKey afterFirstBlock (fillerTx 100000)).1
        ⟨12⟩).state.cachedAddresses.peek "0xR" = none := by
  have hrun := fillerBlock_run 100000 (Nat.le_refl _)
  rw [← fillerState_eq 100000] at hrun
  exact hrun

theorem routerDrain_result (st : State) (hl : st.transfersObj = [])
    (hpeek : st.cachedAddresses.peek "0xR" = none)
    (hsym : (getAssetSymbol drainedEnv st.cachedAssetSymbols "0xaa").1 = "TKN")
    (blockEvent : BlockEvent) :
    (handleBlock drainedEnv (handleTransaction pairKey st routerTx).1 blockEvent).result =
      .ok [mkFinding ⟨routerRecord, some (CallResult.symbol "TKN")⟩] := by
  have hstate : (handleTransaction pairKey st routerTx).1 =
      { st with
        transfersObj :=
          [(pairKey "0xR" "0xaa", routerRecord),
           (pairKey "0xY" "0xaa", ⟨"0xaa", "0xY", 1, 10, []⟩)] } := by
    rw [handleTransaction_eq pairKey st routerTx (by decide), hl]
    rfl
  rw [hstate]
  rw [handleBlock_result_of_success drainedEnv _ blockEvent (fun _ _ => rfl)
    (fun r _ => by
      simp only [historicalBalance, drainedEnv]
      split_ifs <;> rfl)]
  have hrouter : isDrainedContract drainedEnv
      { st with
        transfersObj :=
          [(pairKey "0xR" "0xaa", routerRecord),
           (pairKey "0xY" "0xaa", ⟨"0xaa", "0xY", 1, 10, []⟩)] } blockEvent routerRecord := by
    have hh : ∀ b : Int, historicalBalance drainedEnv b routerRecord = some 100 :=
      fun _ => rfl
    refine ⟨by decide, by decide, rfl, ?_, ?_⟩
    · rw [getAddressType_fst]
      have : LRU.peek st.cachedAddresses routerRecord.address = none := hpeek
      rw [this]
      rfl
    · rw [hh]
      decide
  have hother : ¬ isDrainedContract drainedEnv
      { st with
        transfersObj :=
          [(pairKey "0xR" "0xaa", routerRecord),
           (pairKey "0xY" "0xaa", ⟨"0xaa", "0xY", 1, 10, []⟩)] } blockEvent
      ⟨"0xaa", "0xY", 1, 10, []⟩ := fun h => absurd h.1 (by decide)
  simp only [JsObj.values, List.map_cons, List.map_nil, List.filter_cons, hrouter, hother,
    decide_True, decide_False, if_true, List.filter_nil]
  simp only [Bool.false_eq_true, if_false, List.map_cons, List.map_nil, withSymbol]
  have hs : (getAssetSymbol drainedEnv st.cachedAssetSymbols routerRecord.asset).1 = "TKN" :=
    hsym
  rw [hs]

/-- C6, as stated, fails in two ways.  By eviction from the LRU cache of 100000
entries: block one drains the router `0xR`, a contract whose balance was zero
ten minutes before: no finding, `0xR` is cached as Ignored.  Block two drains
100000 other addresses without bytecode: no finding, and their classifications
push `0xR` out of the cache.  Block three drains `0xR` again on a chain where
it held 100 units ten minutes before: `handleBlock` returns a finding for
`0xR`.  And by spelling: right after block one, with `0xR` still cached as
Ignored, a native transfer out of the same address, which the trace spells
`0xr`, is classified on its own and `handleBlock` returns a finding for it. -/
theorem c6_counterexample :
    routerRecord ∈ (handleTransaction pairKey (State.init 50) routerTx).1.transfersObj.values ∧
      routerRecord.value < 0 ∧ routerRecord.address ≠ AddressZero ∧
      currentBalance alwaysEmptyEnv ⟨11⟩ routerRecord = some 0 ∧
      (getAddressType alwaysEmptyEnv
        (handleTransaction pairKey (State.init 50) routerTx).1.cachedAddresses "0xR").1
        = AddressType.Contract ∧
      historicalBalance alwaysEmptyEnv
        (block10MinsAgo (handleTransaction pairKey (State.init 50) routerTx).1 ⟨11⟩)
        routerRecord = some 0 ∧
      (handleBlock alwaysEmptyEnv (handleTransaction pairKey (State.init 50) routerTx).1
        ⟨11⟩).result = .ok [] ∧
      afterFirstBlock.cachedAddresses.peek "0xR" = some AddressType.Ignored ∧
      (handleBlock noCodeEnv (handleTransaction pairKey afterFirstBlock (fillerTx 100000)).1
        ⟨12⟩).result = .ok [] ∧
      (handleBlock drainedEnv
        (handleTransaction pairKey
          (handleBlock noCodeEnv (handleTransaction pairKey afterFirstBlock (fillerTx 100000)).1
            ⟨12⟩).state routerTx).1
        ⟨13⟩).result = .ok [mkFinding ⟨routerRecord, some (CallResult.symbol "TKN")⟩] ∧
      SameAddress routerNativeRecord.address routerRecord.address ∧
      routerNativeRecord ∈
        (handleTransaction pairKey afterFirstBlock routerNativeTx).1.transfersObj.values ∧
      (handleTransaction pairKey afterFirstBlock routerNativeTx).1.cachedAddresses.peek
        routerRecord.address = some AddressType.Ignored ∧
      (handleBlock drainedEnv (handleTransaction pairKey afterFirstBlock routerNativeTx).1
        ⟨12⟩).result = .ok [mkFinding ⟨routerNativeRecord, some (CallResult.symbol "TKN")⟩] := by
  obtain ⟨hres, hl, hsym, _, hpeek⟩ := secondBlock_facts
  have hsym' : (getAssetSymbol drainedEnv afterFirstBlock.cachedAssetSymbols "0xaa").1 = "TKN" :=
    rfl
  rw [← hsym] at hsym'
  exact ⟨by decide, by decide, by decide, rfl, rfl, rfl, rfl, rfl, hres,
    routerDrain_result _ hl hpeek hsym' ⟨13⟩, by decide, by decide, rfl, rfl⟩

/-! ### C11: Transfer logs emitted by their sender -/

/-- C11: a Transfer log whose emitting contract is its own sender (the feed
gives the emitting address in lower case, so it equals the lower-cased `from`)
leaves the ledger unchanged: within any transaction it can be dropped without
changing what `handleTransaction` does, and a transaction made of that log
alone leaves the module state as it was. -/
theorem c11_self_emitted_no_change (hashCode : String → String → String) (st : State)
    (txEvent : TxEvent) (pre post : List TransferLog) (e : TransferLog)
    (hself : e.address = toLowerCase e.from_) :
    handleTransaction hashCode st { txEvent with logs := pre ++ e :: post } =
        handleTransaction hashCode st { txEvent with logs := pre ++ post } ∧
      handleTransaction hashCode st { txEvent with logs := [e], traces := [] } = (st, .ok []) := by
  have hdrop : ∀ l1 l2 : List TransferLog,
      ((l1 ++ e :: l2).filter (fun event => !(event.value == ZERO))).filter
          (fun event => event.address != toLowerCase event.from_) =
        ((l1 ++ l2).filter (fun event => !(event.value == ZERO))).filter
          (fun event => event.address != toLowerCase event.from_) := by
    intro l1 l2
    have hne : (e.address != toLowerCase e.from_) = false := by simp [hself]
    simp only [List.filter_append, List.filter_cons]
    by_cases hz : (!(e.value == ZERO)) = true
    · simp only [hz, if_true, List.filter_cons, hne, Bool.false_eq_true, if_false]
    · simp only [hz, Bool.false_eq_true, if_false]
  constructor
  · simp only [handleTransaction, hdrop pre post]
  · have h := hdrop [] []
    simp only [List.nil_append] at h
    simp only [handleTransaction, h]
    rfl

/-- C11 at the first log of `selfEmittedTx`, emitted by `0xaa` with sender
`0xAA`, handled after a drain. -/
theorem c11_self_emitted_no_change_witness :
    ("0xaa" : String) = toLowerCase "0xAA" ∧
      (handleTransaction pairKey (handleTransaction pairKey (State.init 50) drainTx).1
        { selfEmittedTx with logs := [⟨"0xaa", "0xAA", "0xb", 5⟩], traces := [] }).1.transfersObj
        = (handleTransaction pairKey (State.init 50) drainTx).1.transfersObj :=
  ⟨by decide,
    congrArg (fun p => p.1.transfersObj)
      (c11_self_emitted_no_change pairKey (handleTransaction pairKey (State.init 50) drainTx).1
        selfEmittedTx [] [] ⟨"0xaa", "0xAA", "0xb", 5⟩ (by decide)).2⟩

/-! ### C13: the sets of a finding -/

theorem mem_setOf {α : Type} [DecidableEq α] (l : List α) (y : α) : y ∈ setOf l ↔ y ∈ l := by
  induction l with
  | nil => simp [setOf]
  | cons x xs ih =>
    simp only [setOf, List.mem_cons, List.mem_filter, ih, decide_eq_true_eq]
    by_cases h : y = x <;> simp [h]

theorem setOf_nodup {α : Type} [DecidableEq α] (l : List α) : (setOf l).Nodup := by
  induction l with
  | nil => simp [setOf]
  | cons x xs ih =>
    simp only [setOf, List.nodup_cons, List.mem_filter, decide_eq_true_eq]
    exact ⟨fun h => h.2 rfl, ih.filter _⟩

/-- C13: every finding that `handleBlock` returns is built from a ledger record
`t`; its initiators have no repeated element and are exactly the `txFrom`
values in `t`'s provenance lists, its transaction hashes have no repeated
element and are exactly the hashes there, and its addresses have no repeated
element and are exactly the counterparties, the keys of `t`'s provenance
map. -/
theorem c13_finding_sets (env : Env) (st : State) (blockEvent : BlockEvent)
    (fs : List Finding) (h : (handleBlock env st blockEvent).result = .ok fs)
    (f : Finding) (hf : f ∈ fs) :
    ∃ t ∈ st.transfersObj.values,
      f.metadata.contract = t.address ∧ f.metadata.asset = t.asset ∧
      f.metadata.initiators.Nodup ∧
      (∀ x, x ∈ f.metadata.initiators ↔ ∃ l ∈ t.txs.values, ∃ tx ∈ l, tx.txFrom = x) ∧
      f.metadata.txHashes.Nodup ∧
      (∀ x, x ∈ f.metadata.txHashes ↔ ∃ l ∈ t.txs.values, ∃ tx ∈ l, tx.hash = x) ∧
      f.addresses.Nodup ∧ (∀ x, x ∈ f.addresses ↔ x ∈ t.txs.keys) := by
  rw [handleBlock_ok_findings env st blockEvent fs h] at hf
  obtain ⟨t, ht, rfl⟩ := List.mem_map.mp hf
  have hval : t ∈ st.transfersObj.values := by
    have h1 := (List.mem_filter.mp (List.mem_filter.mp (List.mem_filter.mp ht).1).1).1
    exact ((mem_candidates _ _).mp h1).1
  refine ⟨t, hval, rfl, rfl, setOf_nodup _, ?_, setOf_nodup _, ?_, setOf_nodup _, ?_⟩
  · intro x
    simp only [mkFinding, withSymbol, mem_setOf, List.mem_map, List.mem_flatten]
    constructor
    · rintro ⟨tx, ⟨l, hl, htx⟩, rfl⟩
      exact ⟨l, hl, tx, htx, rfl⟩
    · rintro ⟨l, hl, tx, htx, rfl⟩
      exact ⟨tx, ⟨l, hl, htx⟩, rfl⟩
  · intro x
    simp only [mkFinding, withSymbol, mem_setOf, List.mem_map, List.mem_flatten]
    constructor
    · rintro ⟨tx, ⟨l, hl, htx⟩, rfl⟩
      exact ⟨l, hl, tx, htx, rfl⟩
    · rintro ⟨l, hl, tx, htx, rfl⟩
      exact ⟨tx, ⟨l, hl, htx⟩, rfl⟩
  · intro x
    simp only [mkFinding, withSymbol, mem_setOf]

/-- C13 at the finding of the drain of `drainTx`. -/
theorem c13_finding_sets_witness :
    ∃ t ∈ (handleTransaction pairKey (State.init 50) drainTx).1.transfersObj.values,
      (mkFinding ⟨drainRecord, some (CallResult.symbol "TKN")⟩).metadata.contract = t.address ∧
      (mkFinding ⟨drainRecord, some (CallResult.symbol "TKN")⟩).metadata.asset = t.asset ∧
      (mkFinding ⟨drainRecord, some (CallResult.symbol "TKN")⟩).metadata.initiators.Nodup ∧
      (∀ x, x ∈ (mkFinding ⟨drainRecord, some (CallResult.symbol "TKN")⟩).metadata.initiators ↔
        ∃ l ∈ t.txs.values, ∃ tx ∈ l, tx.txFrom = x) ∧
      (mkFinding ⟨drainRecord, some (CallResult.symbol "TKN")⟩).metadata.txHashes.Nodup ∧
      (∀ x, x ∈ (mkFinding ⟨drainRecord, some (CallResult.symbol "TKN")⟩).metadata.txHashes ↔
        ∃ l ∈ t.txs.values, ∃ tx ∈ l, tx.hash = x) ∧
      (mkFinding ⟨drainRecord, some (CallResult.symbol "TKN")⟩).addresses.Nodup ∧
      (∀ x, x ∈ (mkFinding ⟨drainRecord, some (CallResult.symbol "TKN")⟩).addresses ↔
        x ∈ t.txs.keys) :=
  c13_finding_sets drainedEnv (handleTransaction pairKey (State.init 50) drainTx).1 ⟨11⟩
    [mkFinding ⟨drainRecord, some (CallResult.symbol "TKN")⟩] rfl
    (mkFinding ⟨drainRecord, some (CallResult.symbol "TKN")⟩) (List.mem_singleton.mpr rfl)

/-! ### C14: the zero address -/

theorem address_balanceCall (r : TransferRecord) : (balanceCall r).address = r.address := by
  unfold balanceCall
  by_cases h : r.asset = "native" <;> simp [h, BalanceCall.address]

theorem handleBlock_calls (env : Env) (st : State) (blockEvent : BlockEvent) :
    (∀ c ∈ (handleBlock env st blockEvent).balanceCalls,
        ∃ r ∈ candidates st.transfersObj, c = balanceCall r) ∧
      ∀ c ∈ (handleBlock env st blockEvent).lookbackCalls,
        ∃ r ∈ contractsOf env st blockEvent, c = balanceCall r := by
  by_cases hne : candidates st.transfersObj = []
  · rw [handleBlock_early env st blockEvent hne]
    exact ⟨fun c hc => absurd hc (List.not_mem_nil c), fun c hc => absurd hc (List.not_mem_nil c)⟩
  · by_cases hall : ∀ r ∈ candidates st.transfersObj,
        (currentBalance env blockEvent r).isSome = true
    · rw [handleBlock_stages env st blockEvent hne hall]
      cases hok : allOk ((contractsOf env st blockEvent).map
          (balance10MinsAgo env (block10MinsAgo st blockEvent))) with
      | error e =>
        constructor
        · intro c hc
          obtain ⟨r, hr, rfl⟩ := List.mem_map.mp hc
          exact ⟨r, hr, rfl⟩
        · intro c hc
          obtain ⟨r, hr, rfl⟩ := List.mem_map.mp hc
          exact ⟨r, hr, rfl⟩
      | ok olds =>
        constructor
        · intro c hc
          obtain ⟨r, hr, rfl⟩ := List.mem_map.mp hc
          exact ⟨r, hr, rfl⟩
        · intro c hc
          obtain ⟨r, hr, rfl⟩ := List.mem_map.mp hc
          exact ⟨r, hr, rfl⟩
    · have hex : ∃ r ∈ candidates st.transfersObj, currentBalance env blockEvent r = none := by
        by_contra hcon
        apply hall
        intro r hr
        cases hc : currentBalance env blockEvent r with
        | none => exact absurd ⟨r, hr, hc⟩ hcon
        | some v => rfl
      rw [handleBlock_batch_failed env st blockEvent hex]
      constructor
      · intro c hc
        obtain ⟨r, hr, rfl⟩ := List.mem_map.mp hc
        exact ⟨r, hr, rfl⟩
      · intro c hc
        exact absurd hc (List.not_mem_nil c)

theorem mem_contractsOf (env : Env) (st : State) (blockEvent : BlockEvent) (r : TransferRecord)
    (h : r ∈ contractsOf env st blockEvent) :
    r ∈ candidates st.transfersObj ∧
      (getAddressType env st.cachedAddresses r.address).1 = AddressType.Contract := by
  simp only [contractsOf, drainedOf, List.mem_filter, decide_eq_true_eq] at h
  exact ⟨h.1.1, h.2⟩

/-- C14: a record whose address is the zero address is never a candidate of
`handleBlock`: it is not among the candidates, no current-balance query and no
historical-balance query that the call issues asks for the balance of its
address, and no returned finding is for it. -/
theorem c14_zero_address_never_candidate (env : Env) (st : State) (blockEvent : BlockEvent)
    (r : TransferRecord) (hz : r.address = AddressZero) :
    r ∉ candidates st.transfersObj ∧
      (∀ c ∈ (handleBlock env st blockEvent).balanceCalls, c.address ≠ r.address) ∧
      (∀ c ∈ (handleBlock env st blockEvent).lookbackCalls, c.address ≠ r.address) ∧
      ∀ fs, (handleBlock env st blockEvent).result = .ok fs → ∀ f ∈ fs, ¬ f.isFor r := by
  have hcand : ∀ r' ∈ candidates st.transfersObj, r'.address ≠ r.address := by
    intro r' hr'
    rw [hz]
    exact ((mem_candidates _ _).mp hr').2.2
  refine ⟨fun h => hcand r h rfl, ?_, ?_, ?_⟩
  · intro c hc
    obtain ⟨r', hr', rfl⟩ := (handleBlock_calls env st blockEvent).1 c hc
    rw [address_balanceCall]
    exact hcand r' hr'
  · intro c hc
    obtain ⟨r', hr', rfl⟩ := (handleBlock_calls env st blockEvent).2 c hc
    rw [address_balanceCall]
    exact hcand r' (mem_contractsOf env st blockEvent r' hr').1
  · intro fs hfs f hf hfor
    obtain ⟨r', hr', hc, _⟩ := mem_findings env st blockEvent fs hfs f hf
    have h1 : r' ∈ contractsOf env st blockEvent := (List.mem_filter.mp hr').1
    exact hcand r' (mem_contractsOf env st blockEvent r' h1).1 (hc.symm.trans hfor.1)

/-- C14 at the mint of `mintTx`, which leaves a record with negative net value
for the zero address. -/
theorem c14_zero_address_never_candidate_witness :
    mintRecord ∈ (handleTransaction pairKey (State.init 50) mintTx).1.transfersObj.values ∧
      mintRecord.value < 0 ∧
      mintRecord ∉ candidates (handleTransaction pairKey (State.init 50) mintTx).1.transfersObj ∧
      (∀ c ∈ (handleBlock drainedEnv (handleTransaction pairKey (State.init 50) mintTx).1
          ⟨11⟩).balanceCalls, c.address ≠ mintRecord.address) ∧
      (∀ c ∈ (handleBlock drainedEnv (handleTransaction pairKey (State.init 50) mintTx).1
          ⟨11⟩).lookbackCalls, c.address ≠ mintRecord.address) ∧
      ∀ fs, (handleBlock drainedEnv (handleTransaction pairKey (State.init 50) mintTx).1
          ⟨11⟩).result = .ok fs → ∀ f ∈ fs, ¬ f.isFor mintRecord :=
  ⟨by decide, by decide,
    c14_zero_address_never_candidate drainedEnv
      (handleTransaction pairKey (State.init 50) mintTx).1 ⟨11⟩ mintRecord rfl⟩

/-! ### C15: queries for an address cached as Ignored -/

theorem handleBlock_balanceCalls (env : Env) (st : State) (blockEvent : BlockEvent) :
    (handleBlock env st blockEvent).balanceCalls = (candidates st.transfersObj).map balanceCall := by
  by_cases hne : candidates st.transfersObj = []
  · rw [handleBlock_early env st blockEvent hne, hne]
    rfl
  · by_cases hall : ∀ r ∈ candidates st.transfersObj,
        (currentBalance env blockEvent r).isSome = true
    · rw [handleBlock_stages env st blockEvent hne hall]
      cases hok : allOk ((contractsOf env st blockEvent).map
          (balance10MinsAgo env (block10MinsAgo st blockEvent))) <;> rfl
    · have hex : ∃ r ∈ candidates st.transfersObj, currentBalance env blockEvent r = none := by
        by_contra hcon
        apply hall
        intro r hr
        cases hc : currentBalance env blockEvent r with
        | none => exact absurd ⟨r, hr, hc⟩ hcon
        | some v => rfl
      rw [handleBlock_batch_failed env st blockEvent hex]

/-- C15, as stated, fails in two ways.  The first block flags the router `0xR`
as Ignored; in the next block `0xR` sends token `0xaa` again, and
`handleBlock`, which starts with `0xR` cached as Ignored and a negative record
for it, returns no finding and issues no historical-balance query, but its
batched current-balance query asks for the balance of `0xR`.  And when the next
block instead holds a native transfer out of the same address, which the trace
spells `0xr`, the cached flag is not found under that spelling: `handleBlock`
issues the historical-balance query `getEthBalance 0xr` and returns a
finding. -/
theorem c15_counterexample :
    (handleTransaction pairKey afterFirstBlock routerTx).1.cachedAddresses.peek "0xR"
        = some AddressType.Ignored ∧
      routerRecord ∈ (handleTransaction pairKey afterFirstBlock routerTx).1.transfersObj.values ∧
      routerRecord.address = "0xR" ∧ routerRecord.value < 0 ∧
      (handleBlock drainedEnv (handleTransaction pairKey afterFirstBlock routerTx).1
        ⟨12⟩).result = .ok [] ∧
      (handleBlock drainedEnv (handleTransaction pairKey afterFirstBlock routerTx).1
        ⟨12⟩).lookbackCalls = [] ∧
      (handleBlock drainedEnv (handleTransaction pairKey afterFirstBlock routerTx).1
        ⟨12⟩).balanceCalls = [BalanceCall.balanceOf "0xaa" "0xR"] ∧
      (¬ ∀ c ∈ (handleBlock drainedEnv (handleTransaction pairKey afterFirstBlock routerTx).1
        ⟨12⟩).balanceCalls, c.address ≠ "0xR") ∧
      SameAddress "0xr" "0xR" ∧
      (handleTransaction pairKey afterFirstBlock routerNativeTx).1.cachedAddresses.peek "0xR"
        = some AddressType.Ignored ∧
      routerNativeRecord ∈
        (handleTransaction pairKey afterFirstBlock routerNativeTx).1.transfersObj.values ∧
      routerNativeRecord.address = "0xr" ∧ routerNativeRecord.value < 0 ∧
      (handleBlock drainedEnv (handleTransaction pairKey afterFirstBlock routerNativeTx).1
        ⟨12⟩).lookbackCalls = [BalanceCall.getEthBalance "0xr"] ∧
      (handleBlock drainedEnv (handleTransaction pairKey afterFirstBlock routerNativeTx).1
        ⟨12⟩).result = .ok [mkFinding ⟨routerNativeRecord, some (CallResult.symbol "TKN")⟩] := by
  refine ⟨rfl, by decide, rfl, by decide, rfl, rfl, rfl, ?_, by decide, rfl, by decide, rfl,
    by decide, rfl, rfl⟩
  intro h
  exact h (BalanceCall.balanceOf "0xaa" "0xR") (by decide) rfl

/-- C15, amended: the cache is keyed by the address as the record spells it.
A `handleBlock` call that starts with the spelling `R` cached as Ignored
returns no finding whose contract is spelled `R` and issues no
historical-balance query for the spelling `R`; hence, when every ledger record
of the same address carries it in the spelling `R`, no finding and no
historical-balance query for the address in any spelling.  The batched
current-balance query, which precedes classification, is still issued for every
record spelled `R` with negative net value (`R` not being the zero address). -/
theorem c15_ignored_skips_lookback (env : Env) (st : State) (blockEvent : BlockEvent)
    (R : String) (hpeek : st.cachedAddresses.peek R = some AddressType.Ignored) :
    (∀ fs, (handleBlock env st blockEvent).result = .ok fs →
        ∀ f ∈ fs, f.metadata.contract ≠ R) ∧
      (∀ c ∈ (handleBlock env st blockEvent).lookbackCalls, c.address ≠ R) ∧
      ((∀ r ∈ st.transfersObj.values, SameAddress r.address R → r.address = R) →
        (∀ fs, (handleBlock env st blockEvent).result = .ok fs →
          ∀ f ∈ fs, ¬ SameAddress f.metadata.contract R) ∧
        ∀ c ∈ (handleBlock env st blockEvent).lookbackCalls, ¬ SameAddress c.address R) ∧
      ∀ r ∈ st.transfersObj.values, r.address = R → r.value < 0 → R ≠ AddressZero →
        balanceCall r ∈ (handleBlock env st blockEvent).balanceCalls := by
  have hcon : ∀ r ∈ contractsOf env st blockEvent, r.address ≠ R := by
    intro r hr hR
    have hc := (mem_contractsOf env st blockEvent r hr).2
    rw [getAddressType_fst, hR, hpeek] at hc
    cases hc
  have hval : ∀ r ∈ contractsOf env st blockEvent, r ∈ st.transfersObj.values :=
    fun r hr => ((mem_candidates _ _).mp (mem_contractsOf env st blockEvent r hr).1).1
  refine ⟨?_, ?_, ?_, ?_⟩
  · intro fs hfs f hf hfa
    obtain ⟨r, hr, h1, _⟩ := mem_findings env st blockEvent fs hfs f hf
    exact hcon r (List.mem_filter.mp hr).1 (h1.symm.trans hfa)
  · intro c hc
    obtain ⟨r, hr, rfl⟩ := (handleBlock_calls env st blockEvent).2 c hc
    rw [address_balanceCall]
    exact hcon r hr
  · intro hspell
    constructor
    · intro fs hfs f hf hsame
      obtain ⟨r, hr, h1, _⟩ := mem_findings env st blockEvent fs hfs f hf
      have hr' := (List.mem_filter.mp hr).1
      exact hcon r hr' (hspell r (hval r hr') (h1 ▸ hsame))
    · intro c hc hsame
      obtain ⟨r, hr, rfl⟩ := (handleBlock_calls env st blockEvent).2 c hc
      rw [address_balanceCall] at hsame
      exact hcon r hr (hspell r (hval r hr) hsame)
  · intro r hr hR hneg hnz
    rw [handleBlock_balanceCalls]
    exact List.mem_map.mpr ⟨r, (mem_candidates _ _).mpr ⟨hr, hneg, hR ▸ hnz⟩, rfl⟩

/-- C15, amended, at the router `0xR` on a chain where it held 100 units ten
minutes before: cached as Ignored, it gets neither a finding nor a
historical-balance query. -/
theorem c15_ignored_skips_lookback_witness :
    (∀ fs, (handleBlock drainedEnv (handleTransaction pairKey afterFirstBlock routerTx).1
        ⟨12⟩).result = .ok fs → ∀ f ∈ fs, f.metadata.contract ≠ "0xR") ∧
      (∀ c ∈ (handleBlock drainedEnv (handleTransaction pairKey afterFirstBlock routerTx).1
        ⟨12⟩).lookbackCalls, c.address ≠ "0xR") ∧
      ((∀ r ∈ (handleTransaction pairKey afterFirstBlock routerTx).1.transfersObj.values,
          SameAddress r.address "0xR" → r.address = "0xR") →
        (∀ fs, (handleBlock drainedEnv (handleTransaction pairKey afterFirstBlock routerTx).1
            ⟨12⟩).result = .ok fs → ∀ f ∈ fs, ¬ SameAddress f.metadata.contract "0xR") ∧
        ∀ c ∈ (handleBlock drainedEnv (handleTransaction pairKey afterFirstBlock routerTx).1
          ⟨12⟩).lookbackCalls, ¬ SameAddress c.address "0xR") ∧
      ∀ r ∈ (handleTransaction pairKey afterFirstBlock routerTx).1.transfersObj.values,
        r.address = "0xR" → r.value < 0 → "0xR" ≠ AddressZero →
        balanceCall r ∈ (handleBlock drainedEnv
          (handleTransaction pairKey afterFirstBlock routerTx).1 ⟨12⟩).balanceCalls :=
  c15_ignored_skips_lookback drainedEnv (handleTransaction pairKey afterFirstBlock routerTx).1
    ⟨12⟩ "0xR" rfl

/-! ### C12: the drain scenario -/

theorem scenario_state (hashCode : String → String → String) (b : Int) (h s : String) (N : Int)
    (T C X : String) (hkey : hashCode C T ≠ hashCode X T) (hTC : T ≠ toLowerCase C) :
    (handleTransaction hashCode (State.init b) (scenarioTx h s N T C X)).1 =
      { State.init b with
        transfersObj :=
          if JsObj.precedes (hashCode X T) (hashCode C T) then
            [(hashCode X T, ⟨T, X, 100, N, []⟩), (hashCode C T, scenarioRecord h s N T C X)]
          else
            [(hashCode C T, scenarioRecord h s N T C X), (hashCode X T, ⟨T, X, 100, N, []⟩)] } := by
  have h1 : (T != toLowerCase C) = true := by simpa using hTC
  have h2 : (!((100 : BigNumber) == ZERO)) = true := by decide
  simp only [handleTransaction, scenarioTx, List.filter_cons, h1, h2, if_true, List.filter_nil,
    List.foldl_cons, List.foldl_nil, forEachTrace, State.init]
  congr 1
  by_cases hp : JsObj.precedes (hashCode X T) (hashCode C T) = true
  · simp [recordLog, touch, applyTransfer, JsObj.get?, JsObj.set, JsObj.insertNew, JsObj.modify,
      pushTx, hkey, hkey.symm, hp, ZERO, scenarioRecord]
  · simp [recordLog, touch, applyTransfer, JsObj.get?, JsObj.set, JsObj.insertNew, JsObj.modify,
      pushTx, hkey, hkey.symm, hp, ZERO, scenarioRecord]

theorem scenario_values (hashCode : String → String → String) (b : Int) (h s : String) (N : Int)
    (T C X : String) (hkey : hashCode C T ≠ hashCode X T) (hTC : T ≠ toLowerCase C) :
    (handleTransaction hashCode (State.init b) (scenarioTx h s N T C X)).1.transfersObj.values =
        [⟨T, X, 100, N, []⟩, scenarioRecord h s N T C X] ∨
      (handleTransaction hashCode (State.init b) (scenarioTx h s N T C X)).1.transfersObj.values =
        [scenarioRecord h s N T C X, ⟨T, X, 100, N, []⟩] := by
  rw [scenario_state hashCode b h s N T C X hkey hTC]
  by_cases hp : JsObj.precedes (hashCode X T) (hashCode C T) = true
  · left; simp [hp, JsObj.values]
  · right; simp [hp, JsObj.values]

theorem scenario_caches (hashCode : String → String → String) (b : Int) (h s : String) (N : Int)
    (T C X : String) (hkey : hashCode C T ≠ hashCode X T) (hTC : T ≠ toLowerCase C) :
    (handleTransaction hashCode (State.init b) (scenarioTx h s N T C X)).1.cachedAddresses =
        (State.init b).cachedAddresses ∧
      (handleTransaction hashCode (State.init b) (scenarioTx h s N T C X)).1.cachedAssetSymbols =
        (State.init b).cachedAssetSymbols ∧
      (handleTransaction hashCode (State.init b) (scenarioTx h s N T C X)).1.blocksIn10Minutes =
        b := by
  rw [scenario_state hashCode b h s N T C X hkey hTC]
  exact ⟨rfl, rfl, rfl⟩

theorem scenario_filter (p : TransferRecord → Bool) (l : List TransferRecord)
    (r r' : TransferRecord) (hl : l = [r', r] ∨ l = [r, r']) (hr : p r = true)
    (hr' : p r' = false) : l.filter p = [r] := by
  rcases hl with rfl | rfl <;> simp [List.filter_cons, hr, hr']

/-- C12: from the empty ledger and empty caches, a transaction with hash `h`
sent by `s` in block `N` carries a single Transfer of 100 units of token `T`
from `C` to `X` (`C` and `X` distinct and keyed apart, `T` not the address `C`,
`C` not the zero address); at block `N + 1` the batched balance of `C` at block
`N` is 0, `C` is classified Contract and its balance at the lookback block is
100.  Then `handleTransaction` followed by `handleBlock` returns exactly one
finding, for contract `C` and asset `T`, with initiators `[s]`, transaction
hashes `[h]`, addresses `[X]` and block number `N`. -/
theorem c12_drain_scenario (hashCode : String → String → String) (env : Env) (b N : Int)
    (h s T C X : String) (hcf : CollisionFree hashCode) (hCX : C ≠ X)
    (hTC : T ≠ toLowerCase C) (hC0 : C ≠ AddressZero)
    (hnow : env.multicall (balanceCall (scenarioRecord h s N T C X)) N = some 0)
    (htype : (getAddressType env (State.init b).cachedAddresses C).1 = AddressType.Contract)
    (hold : historicalBalance env (N + 1 - b) (scenarioRecord h s N T C X) = some 100) :
    (handleBlock env (handleTransaction hashCode (State.init b) (scenarioTx h s N T C X)).1
        ⟨N + 1⟩).result =
        .ok [mkFinding ⟨scenarioRecord h s N T C X, some (CallResult.symbol (env.symbol T))⟩] ∧
      (mkFinding ⟨scenarioRecord h s N T C X,
        some (CallResult.symbol (env.symbol T))⟩).metadata = ⟨C, T, [s], [h], N⟩ ∧
      (mkFinding ⟨scenarioRecord h s N T C X,
        some (CallResult.symbol (env.symbol T))⟩).addresses = [X] := by
  refine ⟨?_, rfl, rfl⟩
  have hkey : hashCode C T ≠ hashCode X T := fun e => hCX (hcf _ _ _ _ e).1
  obtain ⟨hca, hcs, hb⟩ := scenario_caches hashCode b h s N T C X hkey hTC
  have hv := scenario_values hashCode b h s N T C X hkey hTC
  have hcurR : currentBalance env ⟨N + 1⟩ (scenarioRecord h s N T C X) = some 0 := by
    show env.multicall _ (N + 1 - 1) = _
    rw [add_sub_cancel_right]
    exact hnow
  have hblock : block10MinsAgo (handleTransaction hashCode (State.init b)
      (scenarioTx h s N T C X)).1 ⟨N + 1⟩ = N + 1 - b := by
    simp only [block10MinsAgo, hb]
  have hcand : candidates (handleTransaction hashCode (State.init b)
      (scenarioTx h s N T C X)).1.transfersObj = [scenarioRecord h s N T C X] := by
    unfold candidates
    rw [scenario_filter _ _ (scenarioRecord h s N T C X) ⟨T, X, 100, N, []⟩ hv
      (by simp [scenarioRecord, ZERO]) (by simp [ZERO])]
    simp [scenarioRecord, hC0]
  rw [handleBlock_result_of_success env _ ⟨N + 1⟩]
  · rw [scenario_filter _ _ (scenarioRecord h s N T C X) ⟨T, X, 100, N, []⟩ hv]
    · simp only [List.map_cons, List.map_nil, withSymbol, getAssetSymbol_fst, hcs]
      rfl
    · simp only [decide_eq_true_eq, isDrainedContract, hcurR, hblock, hold, hca]
      refine ⟨by simp [scenarioRecord], hC0, trivial, htype, by simp⟩
    · simp [isDrainedContract]
  · intro r hr
    rw [hcand] at hr
    rw [List.mem_singleton.mp hr, hcurR]
    rfl
  · intro r hr
    have hr' := (mem_contractsOf env _ ⟨N + 1⟩ r hr).1
    rw [hcand] at hr'
    rw [List.mem_singleton.mp hr', hblock, hold]
    rfl

/-- C12 at the drain of `drainTx`: `0xC` sends 100 units of `0xaa` to `0xX` in
block 10, and block 11 finds it drained. -/
theorem c12_drain_scenario_witness :
    (handleBlock drainedEnv (handleTransaction pairKey (State.init 50) drainTx).1 ⟨11⟩).result =
        .ok [mkFinding ⟨drainRecord, some (CallResult.symbol "TKN")⟩] ∧
      (mkFinding ⟨drainRecord, some (CallResult.symbol "TKN")⟩).metadata
        = ⟨"0xC", "0xaa", ["0xs"], ["0xh"], 10⟩ ∧
      (mkFinding ⟨drainRecord, some (CallResult.symbol "TKN")⟩).addresses = ["0xX"] :=
  c12_drain_scenario pairKey drainedEnv 50 10 "0xh" "0xs" "0xaa" "0xC" "0xX" pairKey_collisionFree
    (by decide) (by decide) (by decide) rfl rfl rfl

/-! ### C18: the split of `calls` -/

theorem allOk_ok_of_mem {α β : Type} (f : α → Except String β) (l : List α) (olds : List β)
    (h : allOk (l.map f) = .ok olds) (x : α) (hx : x ∈ l) : ∃ v, f x = .ok v := by
  induction l generalizing olds with
  | nil => cases hx
  | cons y l ih =>
    simp only [List.map_cons] at h
    cases hy : f y with
    | error e => simp [hy, allOk] at h
    | ok v =>
      cases hl : allOk (l.map f) with
      | error e => simp [hy, hl, allOk] at h
      | ok vs =>
        rcases List.mem_cons.mp hx with rfl | hx'
        · exact ⟨v, hy⟩
        · exact ih vs hl hx'

/-- C18: for every list `contracts` of candidates whose lookback queries all
resolve, with `calls` the symbol results followed by the lookback results as
line 144 resolves them, splitting `calls` at `contracts.length` pairs each
candidate with its own results: the symbol attached to the `i`-th candidate is
the `getAssetSymbol` result for its asset, and the `i`-th element of the second
slice, the balance that the filter of line 173 tests for it, is the result of
the lookback query for its address and asset.  Accordingly the findings that
`handleBlock` returns are those of the contract candidates whose own lookback
balance is not zero, each with the symbol of its own asset. -/
theorem c18_split_pairs (env : Env) (cache : LRU String) (b : Int)
    (contracts : List TransferRecord) (olds : List BigNumber)
    (hok : allOk (contracts.map (balance10MinsAgo env b)) = .ok olds)
    (i : Nat) (r : TransferRecord) (hi : contracts.get? i = some r) :
    (attachSymbols contracts
        (((getAssetSymbols env cache (contracts.map (fun e => e.asset))).1.map CallResult.symbol
          ++ olds.map CallResult.balance).take contracts.length)).get? i =
        some ⟨r, some (CallResult.symbol (getAssetSymbol env cache r.asset).1)⟩ ∧
      (∃ v, balance10MinsAgo env b r = .ok v ∧
        (((getAssetSymbols env cache (contracts.map (fun e => e.asset))).1.map CallResult.symbol
          ++ olds.map CallResult.balance).drop contracts.length).get? i =
          some (CallResult.balance v)) ∧
      ∀ (st : State) (blockEvent : BlockEvent) (fs : List Finding),
        (handleBlock env st blockEvent).result = .ok fs →
        fs = ((contractsOf env st blockEvent).filter
          (fun c => !(lookbackValue env (block10MinsAgo st blockEvent) c == ZERO))).map
            (fun c => mkFinding
              ⟨c, some (CallResult.symbol (getAssetSymbol env st.cachedAssetSymbols c.asset).1)⟩) := by
  have hsym : (getAssetSymbols env cache (contracts.map (fun e => e.asset))).1 =
      contracts.map (fun c => (getAssetSymbol env cache c.asset).1) := by
    rw [getAssetSymbols_fst, List.map_map]; rfl
  have hlen : ((getAssetSymbols env cache (contracts.map (fun e => e.asset))).1.map
      CallResult.symbol).length = contracts.length := by
    rw [hsym]; simp
  have holds := allOk_lookback env b contracts olds hok
  have hi' : contracts[i]? = some r := by simpa using hi
  refine ⟨?_, ?_, ?_⟩
  · rw [← hlen, List.take_left, hsym, attachSymbols_map]
    simp [hi']
  · obtain ⟨v, hv⟩ := allOk_ok_of_mem _ contracts olds hok r (List.getElem?_mem hi')
    refine ⟨v, hv, ?_⟩
    rw [← hlen, List.drop_left, holds]
    simp [hi', lookbackValue, hv]
  · intro st blockEvent fs hfs
    exact handleBlock_ok_findings env st blockEvent fs hfs

/-- C18 at the two drains of `twoDrainsTx`: the second contract candidate gets
the symbol of its own asset and its own lookback balance. -/
theorem c18_split_pairs_witness :
    (attachSymbols (contractsOf drainedEnv (handleTransaction pairKey (State.init 50)
        twoDrainsTx).1 ⟨11⟩)
        (([("TKN" : String), "TKN"].map CallResult.symbol
          ++ [(100 : BigNumber), 100].map CallResult.balance).take 2)).get? 1 =
        some ⟨⟨"0xaa", "0xD", -50, 10, [("0xX", [⟨"0xh", "0xs"⟩])]⟩,
          some (CallResult.symbol "TKN")⟩ ∧
      balance10MinsAgo drainedEnv (-39) ⟨"0xaa", "0xD", -50, 10, [("0xX", [⟨"0xh", "0xs"⟩])]⟩
        = .ok 100 :=
  have h := c18_split_pairs drainedEnv (State.init 50).cachedAssetSymbols (-39)
    (contractsOf drainedEnv (handleTransaction pairKey (State.init 50) twoDrainsTx).1 ⟨11⟩)
    [100, 100] (by rfl) 1 ⟨"0xaa", "0xD", -50, 10, [("0xX", [⟨"0xh", "0xs"⟩])]⟩ (by decide)
  ⟨h.1, rfl⟩

/-! ### C16: the net values of an asset add up to zero -/

namespace JsObj

variable {V : Type}

theorem insertNew_perm (o : JsObj V) (k : String) (v : V) :
    List.Perm (o.insertNew k v) ((k, v) :: o) := by
  induction o with
  | nil => exact List.Perm.refl _
  | cons e rest ih =>
    obtain ⟨k', v'⟩ := e
    by_cases hp : precedes k k' = true
    · simp only [insertNew, hp, if_true]
      exact List.Perm.refl _
    · simp only [insertNew, hp, if_false]
      exact (List.Perm.cons _ ih).trans (List.Perm.swap _ _ _)

theorem mem_of_get? (o : JsObj V) (k : String) (v : V) (h : o.get? k = some v) : (k, v) ∈ o := by
  induction o with
  | nil => cases h
  | cons e rest ih =>
    by_cases he : e.1 = k
    · simp only [get?, he, if_true, Option.some.injEq] at h
      rw [← h, ← he]
      exact List.mem_cons_self _ _
    · simp only [get?, he, if_false] at h
      exact List.mem_cons_of_mem _ (ih h)

theorem not_mem_keys_of_get? (o : JsObj V) (k : String) (h : o.get? k = none) : k ∉ o.keys := by
  induction o with
  | nil => simp [keys]
  | cons e rest ih =>
    by_cases he : e.1 = k
    · simp [get?, he] at h
    · simp only [get?, he, if_false] at h
      simp only [keys, List.map_cons, List.mem_cons, not_or]
      exact ⟨fun e' => he e'.symm, ih h⟩

theorem keys_modify (o : JsObj V) (k : String) (f : V → V) : (o.modify k f).keys = o.keys := by
  simp only [modify, keys, List.map_map]
  apply List.map_congr_left
  intro e _
  by_cases he : e.1 = k <;> simp [he]

theorem mem_modify (o : JsObj V) (k : String) (f : V → V) (e : String × V)
    (h : e ∈ o.modify k f) : ∃ e' ∈ o, e.1 = e'.1 ∧ (e.2 = e'.2 ∨ e.2 = f e'.2) := by
  simp only [modify, List.mem_map] at h
  obtain ⟨e', he', rfl⟩ := h
  refine ⟨e', he', ?_⟩
  by_cases hk : e'.1 = k <;> simp [hk]

end JsObj

theorem assetSum_perm (l l' : Ledger) (h : List.Perm l l') (s : String) :
    assetSum l s = assetSum l' s := by
  unfold assetSum JsObj.values
  exact (((h.map Prod.snd).filter _).map _).sum_eq

theorem assetSum_cons (e : String × TransferRecord) (l : Ledger) (s : String) :
    assetSum (e :: l) s = (if e.2.asset = s then e.2.value else 0) + assetSum l s := by
  unfold assetSum JsObj.values
  by_cases h : e.2.asset = s <;> simp [List.filter_cons, h]

theorem keyed_modify (hashCode : String → String → String) (l : Ledger) (k : String)
    (f : TransferRecord → TransferRecord) (hl : Keyed hashCode l)
    (hf : ∀ r, (f r).address = r.address ∧ (f r).asset = r.asset) :
    Keyed hashCode (l.modify k f) := by
  refine ⟨by rw [JsObj.keys_modify]; exact hl.1, ?_⟩
  intro e he
  obtain ⟨e', he', h1, h2⟩ := JsObj.mem_modify l k f e he
  rcases h2 with h2 | h2
  · rw [h1, h2]; exact hl.2 e' he'
  · rw [h1, h2, (hf e'.2).1, (hf e'.2).2]; exact hl.2 e' he'

theorem assetSum_modify (l : Ledger) (k : String) (f : TransferRecord → TransferRecord)
    (d : BigNumber) (hnd : l.keys.Nodup) (r : TransferRecord) (hget : l.get? k = some r)
    (hasset : ∀ x, (f x).asset = x.asset) (hval : ∀ x, (f x).value = x.value + d) (s : String) :
    assetSum (l.modify k f) s = assetSum l s + (if r.asset = s then d else 0) := by
  induction l with
  | nil => cases hget
  | cons e rest ih =>
    have hnd' : (JsObj.keys rest).Nodup := (List.nodup_cons.mp hnd).2
    have hnot : e.1 ∉ JsObj.keys rest := (List.nodup_cons.mp hnd).1
    by_cases he : e.1 = k
    · have hrest : ∀ e' ∈ rest, e'.1 ≠ k := by
        intro e' he' hk
        apply hnot
        rw [he, ← hk]
        exact List.mem_map_of_mem Prod.fst he'
      have hr : e.2 = r := by simpa [JsObj.get?, he] using hget
      have hm : JsObj.modify (e :: rest) k f = (e.1, f e.2) :: rest := by
        have := JsObj.modify_of_forall_ne rest k f hrest
        simp only [JsObj.modify, List.map_cons, he, if_true] at this ⊢
        rw [this]
      rw [hm, assetSum_cons, assetSum_cons]
      simp only [hasset, hval, hr]
      by_cases hs : r.asset = s <;> simp [hs]
      ring
    · have hget' : JsObj.get? rest k = some r := by simpa [JsObj.get?, he] using hget
      have hm : JsObj.modify (e :: rest) k f = e :: JsObj.modify rest k f := by
        simp [JsObj.modify, he]
      rw [hm, assetSum_cons, assetSum_cons, ih hnd' hget']
      ring

theorem keyed_touch (hashCode : String → String → String) (l : Ledger) (hl : Keyed hashCode l)
    (asset address : String) (bn : Int) :
    Keyed hashCode (touch l (hashCode address asset) asset address bn) ∧
      ∀ s, assetSum (touch l (hashCode address asset) asset address bn) s = assetSum l s := by
  unfold touch
  cases hget : l.get? (hashCode address asset) with
  | some r => exact ⟨hl, fun _ => rfl⟩
  | none =>
    have hperm := JsObj.insertNew_perm l (hashCode address asset)
      ({ asset := asset, address := address, value := ZERO, blockNumber := bn, txs := [] } :
        TransferRecord)
    simp only [JsObj.set, hget]
    refine ⟨⟨?_, ?_⟩, ?_⟩
    · have hk := hperm.map Prod.fst
      unfold JsObj.keys
      rw [hk.nodup_iff, List.map_cons, List.nodup_cons]
      exact ⟨JsObj.not_mem_keys_of_get? l _ hget, hl.1⟩
    · intro e he
      rcases List.mem_cons.mp (hperm.mem_iff.mp he) with rfl | he'
      · rfl
      · exact hl.2 e he'
    · intro s
      rw [assetSum_perm _ _ hperm s, assetSum_cons]
      simp [ZERO]

theorem keyed_get? (hashCode : String → String → String) (hcf : CollisionFree hashCode)
    (l : Ledger) (hl : Keyed hashCode l) (address asset : String) (r : TransferRecord)
    (hget : l.get? (hashCode address asset) = some r) : r.address = address ∧ r.asset = asset := by
  have h := hl.2 _ (JsObj.mem_of_get? l _ r hget)
  obtain ⟨h1, h2⟩ := hcf _ _ _ _ h
  exact ⟨h1.symm, h2.symm⟩

theorem keyed_shift (hashCode : String → String → String) (hcf : CollisionFree hashCode)
    (l : Ledger) (hl : Keyed hashCode l) (address asset : String)
    (f : TransferRecord → TransferRecord) (d : BigNumber)
    (hf : ∀ r, (f r).address = r.address ∧ (f r).asset = r.asset)
    (hval : ∀ r, (f r).value = r.value + d)
    (hsome : (l.get? (hashCode address asset)).isSome = true) :
    Keyed hashCode (l.modify (hashCode address asset) f) ∧
      (∀ s, assetSum (l.modify (hashCode address asset) f) s =
        assetSum l s + (if asset = s then d else 0)) ∧
      ∀ k, ((l.modify (hashCode address asset) f).get? k).isSome = (l.get? k).isSome := by
  obtain ⟨r, hr⟩ := Option.isSome_iff_exists.mp hsome
  refine ⟨keyed_modify hashCode l _ f hl hf, ?_, ?_⟩
  · intro s
    rw [assetSum_modify l _ f d hl.1 r hr (fun x => (hf x).2) hval s,
      (keyed_get? hashCode hcf l hl address asset r hr).2]
  · intro k
    rw [JsObj.get?_modify]
    by_cases hk : k = hashCode address asset
    · simp only [hk, if_true]
      cases JsObj.get? l (hashCode address asset) <;> rfl
    · simp only [hk, if_false]

theorem balanced_applyTransfer (hashCode : String → String → String)
    (hcf : CollisionFree hashCode) (l : Ledger) (hl : Balanced hashCode l)
    (from_ to_ asset : String) (value : BigNumber) (tx : TxRef)
    (hF : (l.get? (hashCode from_ asset)).isSome = true)
    (hT : (l.get? (hashCode to_ asset)).isSome = true) :
    Balanced hashCode
      (applyTransfer l (hashCode from_ asset) (hashCode to_ asset) to_ value tx) := by
  unfold applyTransfer
  obtain ⟨k1, s1, g1⟩ := keyed_shift hashCode hcf l hl.1 from_ asset
    (fun r => { r with value := r.value - value }) (-value) (fun _ => ⟨rfl, rfl⟩)
    (fun r => sub_eq_add_neg r.value value) hF
  obtain ⟨k2, s2, g2⟩ := keyed_shift hashCode hcf _ k1 from_ asset
    (fun r => { r with txs := pushTx r.txs to_ tx }) 0 (fun _ => ⟨rfl, rfl⟩)
    (fun r => (add_zero r.value).symm) (by rw [g1]; exact hF)
  obtain ⟨k3, s3, _⟩ := keyed_shift hashCode hcf _ k2 to_ asset
    (fun r => { r with value := r.value + value }) value (fun _ => ⟨rfl, rfl⟩)
    (fun _ => rfl) (by rw [g2, g1]; exact hT)
  refine ⟨k3, ?_⟩
  intro s
  rw [s3, s2, s1, hl.2 s]
  by_cases hs : asset = s <;> simp [hs]

theorem isSome_touch_self (l : Ledger) (key asset address : String) (bn : Int) :
    ((touch l key asset address bn).get? key).isSome = true := by
  rw [get?_touch]
  cases JsObj.get? l key <;> simp

theorem isSome_touch_mono (l : Ledger) (key asset address : String) (bn : Int) (k : String)
    (h : (l.get? k).isSome = true) : ((touch l key asset address bn).get? k).isSome = true := by
  rw [get?_touch]
  cases hk : JsObj.get? l k with
  | none => rw [hk] at h; cases h
  | some r => rfl

theorem balanced_touch (hashCode : String → String → String) (l : Ledger)
    (hl : Balanced hashCode l) (asset address : String) (bn : Int) :
    Balanced hashCode (touch l (hashCode address asset) asset address bn) := by
  obtain ⟨hk, hs⟩ := keyed_touch hashCode l hl.1 asset address bn
  exact ⟨hk, fun s => (hs s).trans (hl.2 s)⟩

theorem balanced_touches (hashCode : String → String → String) (l : Ledger)
    (hl : Balanced hashCode l) (asset from_ to_ : String) (bn : Int) :
    Balanced hashCode
        (touch (touch l (hashCode from_ asset) asset from_ bn) (hashCode to_ asset) asset to_ bn) ∧
      ((touch (touch l (hashCode from_ asset) asset from_ bn) (hashCode to_ asset) asset to_
        bn).get? (hashCode from_ asset)).isSome = true ∧
      ((touch (touch l (hashCode from_ asset) asset from_ bn) (hashCode to_ asset) asset to_
        bn).get? (hashCode to_ asset)).isSome = true :=
  ⟨balanced_touch hashCode _ (balanced_touch hashCode l hl asset from_ bn) asset to_ bn,
    isSome_touch_mono _ _ _ _ _ _ (isSome_touch_self _ _ _ _ _), isSome_touch_self _ _ _ _ _⟩

theorem balanced_recordLog (hashCode : String → String → String) (hcf : CollisionFree hashCode)
    (hash txFrom : String) (bn : Int) (l : Ledger) (hl : Balanced hashCode l) (e : TransferLog) :
    Balanced hashCode (recordLog hashCode hash txFrom bn l e) := by
  obtain ⟨hb, hF, hT⟩ := balanced_touches hashCode l hl e.address e.from_ e.to_ bn
  exact balanced_applyTransfer hashCode hcf _ hb e.from_ e.to_ e.address e.value ⟨hash, txFrom⟩
    hF hT

theorem balanced_recordTrace (hashCode : String → String → String)
    (hcf : CollisionFree hashCode) (hash txFrom : String) (bn : Int) (l : Ledger)
    (hl : Balanced hashCode l) (a : TraceAction) :
    Balanced hashCode (recordTrace hashCode hash txFrom bn l a).1 := by
  unfold recordTrace
  by_cases hg : traceGuard a = true
  · obtain ⟨hb, hF, hT⟩ := balanced_touches hashCode l hl "native" a.from_ a.to_ bn
    simp only [hg, if_true]
    cases hv : bigNumberFrom (a.value.getD "") with
    | none => exact hb
    | some v =>
      exact balanced_applyTransfer hashCode hcf _ hb a.from_ a.to_ "native" v ⟨hash, txFrom⟩
        hF hT
  · simp only [hg, if_false]
    exact hl

theorem balanced_forEachTrace (hashCode : String → String → String)
    (hcf : CollisionFree hashCode) (hash txFrom : String) (bn : Int) (as : List TraceAction)
    (l : Ledger) (hl : Balanced hashCode l) :
    Balanced hashCode (forEachTrace (recordTrace hashCode hash txFrom bn) l as).1 := by
  induction as generalizing l with
  | nil => exact hl
  | cons a as ih =>
    have h1 := balanced_recordTrace hashCode hcf hash txFrom bn l hl a
    unfold forEachTrace
    cases hr : recordTrace hashCode hash txFrom bn l a with
    | mk l' ok =>
      rw [hr] at h1
      cases ok with
      | true => exact ih l' h1
      | false => exact h1

theorem handleTransaction_ledger (hashCode : String → String → String) (st : State)
    (txEvent : TxEvent) :
    (handleTransaction hashCode st txEvent).1.transfersObj =
      (forEachTrace (recordTrace hashCode txEvent.hash txEvent.from_ txEvent.blockNumber)
        (((txEvent.logs.filter (fun event => !(event.value == ZERO))).filter
          (fun event => event.address != toLowerCase event.from_)).foldl
          (recordLog hashCode txEvent.hash txEvent.from_ txEvent.blockNumber) st.transfersObj)
        txEvent.traces).1 := by
  simp only [handleTransaction]
  split <;> rename_i h <;> rw [h]

theorem balanced_handleTransaction (hashCode : String → String → String)
    (hcf : CollisionFree hashCode) (st : State) (hst : Balanced hashCode st.transfersObj)
    (txEvent : TxEvent) :
    Balanced hashCode (handleTransaction hashCode st txEvent).1.transfersObj := by
  have hlogs : ∀ (es : List TransferLog) (l : Ledger), Balanced hashCode l →
      Balanced hashCode
        (es.foldl (recordLog hashCode txEvent.hash txEvent.from_ txEvent.blockNumber) l) := by
    intro es
    induction es with
    | nil => exact fun l hl => hl
    | cons e es ih =>
      exact fun l hl => ih _ (balanced_recordLog hashCode hcf _ _ _ l hl e)
  rw [handleTransaction_ledger]
  exact balanced_forEachTrace hashCode hcf txEvent.hash txEvent.from_ txEvent.blockNumber
    txEvent.traces _ (hlogs _ st.transfersObj hst)

theorem balanced_handleTransactions (hashCode : String → String → String)
    (hcf : CollisionFree hashCode) (txs : List TxEvent) (st : State)
    (hst : Balanced hashCode st.transfersObj) :
    Balanced hashCode (handleTransactions hashCode st txs).transfersObj := by
  induction txs generalizing st with
  | nil => exact hst
  | cons tx txs ih =>
    exact ih _ (balanced_handleTransaction hashCode hcf st hst tx)

theorem balanced_nil (hashCode : String → String → String) : Balanced hashCode [] :=
  ⟨⟨List.nodup_nil, fun _ he => absurd he (List.not_mem_nil _)⟩, fun _ => rfl⟩

/-- C16: when `hashCode` gives distinct keys to distinct (address, asset) pairs,
in every ledger reached from the empty ledger by `handleTransaction` calls,
whether they return or throw, the net values of the records of each asset add
up to zero. -/
theorem c16_asset_sum_zero (hashCode : String → String → String)
    (hcf : CollisionFree hashCode) (st : State) (hempty : st.transfersObj = [])
    (txs : List TxEvent) (asset : String) :
    assetSum (handleTransactions hashCode st txs).transfersObj asset = 0 :=
  (balanced_handleTransactions hashCode hcf txs st
    (by rw [hempty]; exact balanced_nil hashCode)).2 asset

/-- C16 at the ledger that a drain and then two more drains of token `0xaa`
leave. -/
theorem c16_asset_sum_zero_witness :
    CollisionFree pairKey ∧ (State.init 50).transfersObj = [] ∧
      (handleTransactions pairKey (State.init 50) [drainTx, twoDrainsTx]).transfersObj.length
        = 3 ∧
      assetSum (handleTransactions pairKey (State.init 50) [drainTx, twoDrainsTx]).transfersObj
        "0xaa" = 0 :=
  ⟨pairKey_collisionFree, rfl, by decide,
    c16_asset_sum_zero pairKey pairKey_collisionFree (State.init 50) rfl [drainTx, twoDrainsTx]
      "0xaa"⟩

/-! ### C17: records with negative net value have provenance -/

namespace JsObj

variable {V : Type}

theorem mem_set (o : JsObj V) (k : String) (v : V) (e : String × V) (h : e ∈ o.set k v) :
    e = (k, v) ∨ e ∈ o := by
  unfold set at h
  cases hget : o.get? k with
  | none =>
    rw [hget] at h
    exact List.mem_cons.mp ((insertNew_perm o k v).mem_iff.mp h)
  | some w =>
    rw [hget] at h
    simp only [modify, List.mem_map] at h
    obtain ⟨e', he', rfl⟩ := h
    by_cases hk : e'.1 = k
    · left; simp [hk]
    · right; simpa [hk] using he'

theorem set_ne_nil (o : JsObj V) (k : String) (v : V) : o.set k v ≠ [] := by
  unfold set
  cases hget : o.get? k with
  | none =>
    show insertNew k v o ≠ []
    intro h
    have hp := insertNew_perm o k v
    rw [h] at hp
    exact absurd hp.length_eq (by simp)
  | some w =>
    cases o with
    | nil => cases hget
    | cons e rest => simp [modify]

theorem mem_modify_snd (o : JsObj V) (k : String) (f : V → V) (e : String × V)
    (h : e ∈ o.modify k f) : ∃ v, (e.1, v) ∈ o ∧ e.2 = if e.1 = k then f v else v := by
  simp only [modify, List.mem_map] at h
  obtain ⟨e', he', rfl⟩ := h
  refine ⟨e'.2, ?_⟩
  by_cases hk : e'.1 = k
  · simp only [hk, if_true]
    exact ⟨by rw [← hk]; exact he', trivial⟩
  · simp only [hk, if_false]
    exact ⟨he', trivial⟩

end JsObj

theorem pushTx_provenance (txs : JsObj (List TxRef)) (to_ : String) (tx : TxRef)
    (h : ∀ l ∈ txs.values, l ≠ []) :
    pushTx txs to_ tx ≠ [] ∧ ∀ l ∈ (pushTx txs to_ tx).values, l ≠ [] := by
  have key : ∀ v : List TxRef, v ≠ [] →
      JsObj.set txs to_ v ≠ [] ∧ ∀ l ∈ (JsObj.set txs to_ v).values, l ≠ [] := by
    intro v hv
    refine ⟨JsObj.set_ne_nil txs to_ v, ?_⟩
    intro l hl
    obtain ⟨e, he, rfl⟩ := List.mem_map.mp hl
    rcases JsObj.mem_set txs to_ v e he with rfl | he'
    · exact hv
    · exact h e.2 (List.mem_map_of_mem Prod.snd he')
  unfold pushTx
  cases txs.get? to_ with
  | none => exact key [tx] (by simp)
  | some l => exact key (l ++ [tx]) (by simp)

theorem hasProvenance_touch (l : Ledger) (hl : ∀ e ∈ l, HasProvenance e.2)
    (key asset address : String) (bn : Int) :
    ∀ e ∈ touch l key asset address bn, HasProvenance e.2 := by
  intro e he
  unfold touch at he
  cases hget : l.get? key with
  | some r => rw [hget] at he; exact hl e he
  | none =>
    rw [hget] at he
    rcases JsObj.mem_set l key _ e he with rfl | he'
    · exact ⟨fun h => absurd h (by simp [ZERO]), fun l hl => by simp [JsObj.values] at hl⟩
    · exact hl e he'

theorem hasProvenance_applyTransfer (l : Ledger) (hl : ∀ e ∈ l, HasProvenance e.2)
    (hashFrom hashTo to_ : String) (value : BigNumber) (hv : 0 ≤ value) (tx : TxRef) :
    ∀ e ∈ applyTransfer l hashFrom hashTo to_ value tx, HasProvenance e.2 := by
  intro e he
  unfold applyTransfer at he
  obtain ⟨r3, he3, h3⟩ := JsObj.mem_modify_snd _ _ _ e he
  obtain ⟨r2, he2, h2⟩ := JsObj.mem_modify_snd _ _ _ _ he3
  obtain ⟨r1, he1, h1⟩ := JsObj.mem_modify_snd _ _ _ _ he2
  simp only at h1 h2
  obtain ⟨g1, g2⟩ := hl _ he1
  obtain ⟨p1, p2⟩ := pushTx_provenance r1.txs to_ tx g2
  by_cases hF : e.1 = hashFrom
  · rw [if_pos hF] at h1 h2
    have htxs : e.2.txs = pushTx r1.txs to_ tx := by
      by_cases hT : e.1 = hashTo
      · rw [h3, if_pos hT, h2, h1]
      · rw [h3, if_neg hT, h2, h1]
    rw [HasProvenance, htxs]
    exact ⟨fun _ => p1, p2⟩
  · rw [if_neg hF] at h1 h2
    by_cases hT : e.1 = hashTo
    · rw [if_pos hT, h2, h1] at h3
      rw [HasProvenance, h3]
      refine ⟨fun hneg => g1 ?_, g2⟩
      have hneg' : r1.value + value < 0 := hneg
      have hv' : (0 : Int) ≤ value := hv
      show (r1.value : Int) < 0
      linarith
    · rw [if_neg hT, h2, h1] at h3
      rw [h3]
      exact ⟨g1, g2⟩

theorem hasProvenance_recordLog (hashCode : String → String → String) (hash txFrom : String)
    (bn : Int) (l : Ledger) (hl : ∀ e ∈ l, HasProvenance e.2) (event : TransferLog)
    (hv : 0 ≤ event.value) :
    ∀ e ∈ recordLog hashCode hash txFrom bn l event, HasProvenance e.2 :=
  hasProvenance_applyTransfer _
    (hasProvenance_touch _ (hasProvenance_touch l hl _ _ _ _) _ _ _ _) _ _ _ _ hv _

theorem hasProvenance_recordTrace (hashCode : String → String → String) (hash txFrom : String)
    (bn : Int) (l : Ledger) (hl : ∀ e ∈ l, HasProvenance e.2) (a : TraceAction)
    (hv : ∀ v, bigNumberFrom (a.value.getD "") = some v → 0 ≤ v) :
    ∀ e ∈ (recordTrace hashCode hash txFrom bn l a).1, HasProvenance e.2 := by
  unfold recordTrace
  by_cases hg : traceGuard a = true
  · simp only [hg, if_true]
    cases hb : bigNumberFrom (a.value.getD "") with
    | none => exact hasProvenance_touch _ (hasProvenance_touch l hl _ _ _ _) _ _ _ _
    | some v =>
      exact hasProvenance_applyTransfer _
        (hasProvenance_touch _ (hasProvenance_touch l hl _ _ _ _) _ _ _ _) _ _ _ _ (hv v hb) _
  · simp only [hg, if_false]
    exact hl

theorem hasProvenance_forEachTrace (hashCode : String → String → String)
    (hash txFrom : String) (bn : Int) (as : List TraceAction)
    (hv : ∀ a ∈ as, ∀ v, bigNumberFrom (a.value.getD "") = some v → 0 ≤ v)
    (l : Ledger) (hl : ∀ e ∈ l, HasProvenance e.2) :
    ∀ e ∈ (forEachTrace (recordTrace hashCode hash txFrom bn) l as).1, HasProvenance e.2 := by
  induction as generalizing l with
  | nil => exact hl
  | cons a as ih =>
    have h1 := hasProvenance_recordTrace hashCode hash txFrom bn l hl a
      (hv a (List.mem_cons_self a as))
    unfold forEachTrace
    cases hr : recordTrace hashCode hash txFrom bn l a with
    | mk l' ok =>
      rw [hr] at h1
      cases ok with
      | true => exact ih (fun b hb => hv b (List.mem_cons_of_mem a hb)) l' h1
      | false => exact h1

theorem hasProvenance_handleTransaction (hashCode : String → String → String) (st : State)
    (hst : ∀ e ∈ st.transfersObj, HasProvenance e.2) (txEvent : TxEvent)
    (hnn : txEvent.NonNegative) :
    ∀ e ∈ (handleTransaction hashCode st txEvent).1.transfersObj, HasProvenance e.2 := by
  have hlogs : ∀ (es : List TransferLog), (∀ x ∈ es, 0 ≤ x.value) → ∀ l : Ledger,
      (∀ e ∈ l, HasProvenance e.2) →
      ∀ e ∈ es.foldl (recordLog hashCode txEvent.hash txEvent.from_ txEvent.blockNumber) l,
        HasProvenance e.2 := by
    intro es
    induction es with
    | nil => exact fun _ l hl => hl
    | cons x es ih =>
      exact fun hx l hl => ih (fun y hy => hx y (List.mem_cons_of_mem x hy)) _
        (hasProvenance_recordLog hashCode _ _ _ l hl x (hx x (List.mem_cons_self x es)))
  rw [handleTransaction_ledger]
  apply hasProvenance_forEachTrace hashCode _ _ _ _ hnn.2
  apply hlogs _ _ _ hst
  intro x hx
  exact hnn.1 x (List.mem_filter.mp (List.mem_filter.mp hx).1).1

theorem hasProvenance_handleTransactions (hashCode : String → String → String)
    (txs : List TxEvent) (hnn : ∀ tx ∈ txs, tx.NonNegative) (st : State)
    (hst : ∀ e ∈ st.transfersObj, HasProvenance e.2) :
    ∀ e ∈ (handleTransactions hashCode st txs).transfersObj, HasProvenance e.2 := by
  induction txs generalizing st with
  | nil => exact hst
  | cons tx txs ih =>
    exact ih (fun t ht => hnn t (List.mem_cons_of_mem tx ht)) _
      (hasProvenance_handleTransaction hashCode st hst tx (hnn tx (List.mem_cons_self tx txs)))

theorem setOf_ne_nil {α : Type} [DecidableEq α] (l : List α) (h : l ≠ []) : setOf l ≠ [] := by
  cases l with
  | nil => exact absurd rfl h
  | cons x xs => simp [setOf]

theorem mkFinding_nonempty (c : Candidate) (h1 : c.record.txs ≠ [])
    (h2 : ∀ l ∈ c.record.txs.values, l ≠ []) :
    (mkFinding c).metadata.initiators ≠ [] ∧ (mkFinding c).metadata.txHashes ≠ [] ∧
      (mkFinding c).addresses ≠ [] := by
  have hflat : c.record.txs.values.flatten ≠ [] := by
    cases htxs : c.record.txs with
    | nil => exact absurd htxs h1
    | cons e rest =>
      have he : e.2 ≠ [] := h2 e.2 (by simp [htxs, JsObj.values])
      intro hf
      simp only [JsObj.values, List.map_cons, List.flatten_cons, List.append_eq_nil] at hf
      exact he hf.1
  have hkeys : c.record.txs.keys ≠ [] := by
    cases htxs : c.record.txs with
    | nil => exact absurd htxs h1
    | cons e rest => simp [JsObj.keys]
  refine ⟨setOf_ne_nil _ ?_, setOf_ne_nil _ ?_, setOf_ne_nil _ hkeys⟩
  · simpa using hflat
  · simpa using hflat

theorem nonNegative_drains : ∀ tx ∈ [drainTx, nativeDrainTx], tx.NonNegative := by
  intro tx htx
  rcases List.mem_cons.mp htx with rfl | htx
  · refine ⟨fun e he => ?_, fun a ha => absurd ha (List.not_mem_nil a)⟩
    rw [List.mem_singleton.mp he]
    decide
  · rw [List.mem_singleton.mp htx]
    refine ⟨fun e he => absurd he (List.not_mem_nil e), fun a ha v hv => ?_⟩
    rw [List.mem_singleton.mp ha] at hv
    have h100 : bigNumberFrom ((some "0x64" : Option String).getD "") = some 100 := by decide
    rw [h100] at hv
    rw [← Option.some.inj hv]
    decide

/-- C17: in every ledger reached from the empty ledger by `handleTransaction`
calls on transactions whose transfer values are non-negative, every record with
strictly negative net value has a non-empty provenance map, none of whose lists
is empty; hence every finding that `handleBlock` returns on such a ledger has
at least one initiator, at least one transaction hash and at least one
counterparty address. -/
theorem c17_negative_has_provenance (hashCode : String → String → String) (st : State)
    (hempty : st.transfersObj = []) (txs : List TxEvent)
    (hnn : ∀ tx ∈ txs, tx.NonNegative) :
    (∀ r ∈ (handleTransactions hashCode st txs).transfersObj.values, r.value < 0 →
        r.txs ≠ [] ∧ ∀ l ∈ r.txs.values, l ≠ []) ∧
      ∀ (env : Env) (blockEvent : BlockEvent) (fs : List Finding),
        (handleBlock env (handleTransactions hashCode st txs) blockEvent).result = .ok fs →
        ∀ f ∈ fs, f.metadata.initiators ≠ [] ∧ f.metadata.txHashes ≠ [] ∧ f.addresses ≠ [] := by
  have hall := hasProvenance_handleTransactions hashCode txs hnn st
    (by rw [hempty]; exact fun e he => absurd he (List.not_mem_nil e))
  have hrec : ∀ r ∈ (handleTransactions hashCode st txs).transfersObj.values, r.value < 0 →
      r.txs ≠ [] ∧ ∀ l ∈ r.txs.values, l ≠ [] := by
    intro r hr hneg
    obtain ⟨e, he, rfl⟩ := List.mem_map.mp hr
    exact ⟨(hall e he).1 hneg, (hall e he).2⟩
  refine ⟨hrec, ?_⟩
  intro env blockEvent fs hfs f hf
  rw [handleBlock_ok_findings env _ blockEvent fs hfs] at hf
  obtain ⟨r, hr, rfl⟩ := List.mem_map.mp hf
  have hc := (mem_contractsOf env _ blockEvent r (List.mem_filter.mp hr).1).1
  obtain ⟨hv, hneg, _⟩ := (mem_candidates _ _).mp hc
  obtain ⟨h1, h2⟩ := hrec r hv hneg
  exact mkFinding_nonempty (withSymbol env _ r) h1 h2

/-- C17 at the ledger that a token drain and a native drain leave: the two
senders have provenance, and so has the finding for each. -/
theorem c17_negative_has_provenance_witness :
    (∀ tx ∈ [drainTx, nativeDrainTx], tx.NonNegative) ∧
      (∀ r ∈ (handleTransactions pairKey (State.init 50)
          [drainTx, nativeDrainTx]).transfersObj.values, r.value < 0 →
        r.txs ≠ [] ∧ ∀ l ∈ r.txs.values, l ≠ []) ∧
      ∀ (env : Env) (blockEvent : BlockEvent) (fs : List Finding),
        (handleBlock env (handleTransactions pairKey (State.init 50) [drainTx, nativeDrainTx])
          blockEvent).result = .ok fs →
        ∀ f ∈ fs, f.metadata.initiators ≠ [] ∧ f.metadata.txHashes ≠ [] ∧ f.addresses ≠ [] :=
  ⟨nonNegative_drains,
    c17_negative_has_provenance pairKey (State.init 50) rfl [drainTx, nativeDrainTx]
      nonNegative_drains⟩

end AssetDrained
